import Mathlib

/-!
atlantis-manager: app records, role checks and RPC executors.

A shallow embedding of `datamodel/app.go`, `rpc/rpc.go`, `rpc/containers.go`,
`rpc/ldap.go`, `rpc/maintenance.go` and `constant/constant.go`, with models of the
router-port and pool functions that `datamodel/router_test.go` exercises.

Conventions.
* A Go `error` is `Option Error`: `none` is `nil`, `some msg` an error with that message.
* Code that talks to collaborators whose source is not part of these files (the
  coordination store, the SQL mapper, the supervisor client, the directory) is a
  function of an explicit state `σ`; every collaborator call takes the state and
  returns the next one, so the order and number of calls is visible in the result.
  The collaborators themselves are the fields of a record the functions take as
  their first argument.
* A pointer receiver that a method mutates is passed in and returned.
-/

namespace Atlantis

/-- Message carried by a non-nil Go `error`. -/
abbrev Error := String

/-- Run-time panics the embedded code can raise. -/
inductive Panic where
  | nilDereference
  | indexOutOfRange
  deriving DecidableEq, Repr

/-! ## Go maps with string keys -/

/-- A non-nil Go `map[string]V`: association list with at most one entry per key. -/
abbrev GoMap (V : Type) := List (String × V)

namespace GoMap

/-- Go `m[k]` on a map of pointers: `none` when the key is absent. -/
def get {V : Type} (m : GoMap V) (k : String) : Option V :=
  (m.find? (fun e => e.1 == k)).map Prod.snd

/-- Go `delete(m, k)`. -/
def delete {V : Type} (m : GoMap V) (k : String) : GoMap V :=
  m.filter (fun e => !(e.1 == k))

/-- Go `m[k] = v`. -/
def set {V : Type} (m : GoMap V) (k : String) (v : V) : GoMap V :=
  (k, v) :: delete m k

end GoMap

/-! ## datamodel/app.go -/

namespace Datamodel

/-- The `types.DependerEnvData` record (field order as in the comment of
`GetDependerEnvData`). -/
structure DependerEnvData where
  Name : String
  SecurityGroup : List (String × List Nat)
  EncryptedData : String
  DataMap : List (String × String)
  deriving DecidableEq, Repr

/-- The `types.DependerAppData` record. -/
structure DependerAppData where
  Name : String
  DependerEnvData : Option (GoMap DependerEnvData)
  deriving DecidableEq, Repr

/-- SQL row `App` (table of apps, keyed by name). -/
structure App where
  Name : String
  NonAtlantis : Bool
  Internal : Bool
  Email : String
  Repo : String
  Root : String
  deriving DecidableEq, Repr

/-- SQL row `EnvDepData`. -/
structure EnvDepData where
  ID : Int
  Enviroment : String
  SecGroup : String
  DataMap : String
  EncryptedData : String
  App : String
  Instance : String
  deriving DecidableEq, Repr

/-- The record `ZkApp` (= `types.App`); field order as in the positional literal of
`GetApp`. The two maps are `none` when the Go map is nil. -/
structure ZkApp where
  NonAtlantis : Bool
  Internal : Bool
  Name : String
  Email : String
  Repo : String
  Root : String
  DependerEnvData : Option (GoMap DependerEnvData)
  DependerAppData : Option (GoMap DependerAppData)
  deriving DecidableEq, Repr

/-- The Go zero value `ZkApp{}`. -/
def ZkApp.zero : ZkApp := ⟨false, false, "", "", "", "", none, none⟩

/-- Collaborators of `app.go` whose code lives elsewhere: path helper, JSON access to
the coordination store, the SQL mapper `DbMap`, the router-port allocator, the Env
registry, and the encryption / marshalling helpers. -/
structure Collab (σ : Type) where
  /-- `helper.GetBaseAppPath(name)`. -/
  GetBaseAppPath : String → String
  /-- `getJson(path, za)`: fills the record passed in, returns it with the error. -/
  getJson : String → ZkApp → σ → (ZkApp × Option Error) × σ
  /-- `setJson(path, za)`. -/
  setJson : String → ZkApp → σ → Option Error × σ
  /-- `Zk.RecursiveDelete(path)`. -/
  RecursiveDelete : String → σ → Option Error × σ
  /-- `DbMap.Get(App{}, name)`: the row, if any, and the error. -/
  DbGet : String → σ → (Option App × Option Error) × σ
  /-- `DbMap.Insert(&app)`. -/
  DbInsert : App → σ → Option Error × σ
  /-- `DbMap.Update(&app)`. -/
  DbUpdate : App → σ → Option Error × σ
  /-- `DbMap.Delete(app)`. -/
  DbDelete : App → σ → Option Error × σ
  /-- `DbMap.Insert(&dep)` for a dependency row. -/
  DbInsertDep : EnvDepData → σ → Option Error × σ
  /-- `ReclaimRouterPortsForApp(internal, app)`. -/
  ReclaimRouterPortsForApp : Bool → String → σ → Option Error × σ
  /-- `GetEnv(name)`; only its error is used by `app.go`. -/
  GetEnv : String → σ → Option Error × σ
  /-- `crypto.EncryptDependerEnvData(data)`: rewrites the record in place. -/
  EncryptDependerEnvData : DependerEnvData → DependerEnvData
  /-- `json.Marshal(data.SecurityGroup)` as a string. -/
  marshalSecurityGroup : List (String × List Nat) → String
  /-- `json.Marshal(data.DataMap)` as a string. -/
  marshalDataMap : List (String × String) → String
  /-- `crypt.Encrypt(bytes)` as a string. -/
  Encrypt : String → String

variable {σ : Type}

/-- Method `(za *ZkApp) path()`. -/
def ZkApp.path (c : Collab σ) (za : ZkApp) : String :=
  c.GetBaseAppPath za.Name

/-- Method `(za *ZkApp) Save()`: write the record to the coordination store, then
upsert the SQL row. -/
def ZkApp.Save (c : Collab σ) (za : ZkApp) (s : σ) : Option Error × σ :=
  match c.setJson (za.path c) za s with
  | (some err, s1) => (some err, s1)
  | (none, s1) =>
    let app : App := ⟨za.Name, za.NonAtlantis, za.Internal, za.Email, za.Repo, za.Root⟩
    match c.DbGet za.Name s1 with
    | ((obj, _), s2) =>
      if za.Name = "" then
        (some "Trying to save app with no name", s2)
      else
        match obj with
        | none => (none, (c.DbInsert app s2).2)
        | some _ => (none, (c.DbUpdate app s2).2)

/-- First half of `GetApp`: read the coordination-store record and initialise (and
save) each nil dependency map. Returns the record as it stands before the SQL lookup. -/
def GetApp.readZk (c : Collab σ) (name : String) (s : σ) : ZkApp × σ :=
  match c.getJson (c.GetBaseAppPath name) ZkApp.zero s with
  | ((za, _), s1) =>
    let r1 : ZkApp × σ :=
      if za.DependerEnvData.isNone then
        let za1 := { za with DependerEnvData := some [] }
        (za1, (za1.Save c s1).2)
      else (za, s1)
    if r1.1.DependerAppData.isNone then
      let za2 := { r1.1 with DependerAppData := some [] }
      (za2, (za2.Save c r1.2).2)
    else r1

/-- Function `GetApp(name)`: returns `(za, err)`. -/
def GetApp (c : Collab σ) (name : String) (s : σ) : (Option ZkApp × Option Error) × σ :=
  match GetApp.readZk c name s with
  | (za, s3) =>
    match c.DbGet name s3 with
    | ((_, some err), s4) => ((some za, some err), s4)
    | ((none, none), s4) => ((none, some ("No app with name: " ++ name)), s4)
    | ((some app, none), s4) =>
      ((some ⟨app.NonAtlantis, app.Internal, app.Name, app.Email, app.Repo, app.Root,
          some [], some []⟩, none), s4)

/-- Function `CreateOrUpdateApp(nonAtlantis, internal, name, repo, root, email)`:
returns `(za, err)`. -/
def CreateOrUpdateApp (c : Collab σ) (nonAtlantis internal : Bool)
    (name repo root email : String) (s : σ) :
    Except Panic (ZkApp × Option Error) × σ :=
  match GetApp c name s with
  | ((_, some _), s1) =>
    let za : ZkApp := ⟨nonAtlantis, internal, name, email, repo, root, some [], some []⟩
    match za.Save c s1 with
    | (some err, s2) => (.ok (za, some err), s2)
    | (none, s2) => (.ok (za, none), s2)
  | ((none, none), s1) => (.error .nilDereference, s1)
  | ((some za0, none), s1) =>
    let za : ZkApp := { za0 with Name := name, Repo := repo, Root := root, Email := email }
    if za.Internal ≠ internal then
      (.ok (za, some ("apps may not change from internal to external (and visa versa). " ++
        "please unregister and reregister.")), s1)
    else if za.NonAtlantis ≠ nonAtlantis then
      (.ok (za, some ("apps may not change from non-atlantis to atlantis (and visa versa). " ++
        "please unregister and reregister.")), s1)
    else
      match za.Save c s1 with
      | (some err, s2) => (.ok (za, some err), s2)
      | (none, s2) => (.ok (za, none), s2)

/-- Method `(za *ZkApp) Delete()`. -/
def ZkApp.Delete (c : Collab σ) (za : ZkApp) (s : σ) : Option Error × σ :=
  let afterReclaim : Option Error × σ :=
    if !za.NonAtlantis then c.ReclaimRouterPortsForApp za.Internal za.Name s
    else (none, s)
  match afterReclaim with
  | (some err, s1) => (some err, s1)
  | (none, s1) =>
    let app : App := { Name := za.Name, NonAtlantis := false, Internal := false,
                       Email := "", Repo := "", Root := "" }
    c.RecursiveDelete (za.path c) (c.DbDelete app s1).2

/-- Method `(za *ZkApp) AddDependerEnvData(data)`. Returns the receiver and the
record `data` points to as they stand after the call, with the error. -/
def ZkApp.AddDependerEnvData (c : Collab σ) (za : ZkApp) (data : Datamodel.DependerEnvData)
    (s : σ) : (ZkApp × Datamodel.DependerEnvData × Option Error) × σ :=
  let za1 : ZkApp :=
    if za.DependerEnvData.isNone then { za with DependerEnvData := some [] } else za
  match c.GetEnv data.Name s with
  | (some err, s1) => ((za1, data, some err), s1)
  | (none, s1) =>
    let data1 := c.EncryptDependerEnvData data
    let za2 : ZkApp :=
      { za1 with DependerEnvData := some ((za1.DependerEnvData.getD []).set data1.Name data1) }
    let secGroupStr := c.marshalSecurityGroup data1.SecurityGroup
    let mapData := c.marshalDataMap data1.DataMap
    let encDataStr := c.Encrypt mapData
    let dep : EnvDepData :=
      { ID := 0, Enviroment := data1.Name, SecGroup := secGroupStr, DataMap := mapData,
        EncryptedData := encDataStr, App := za2.Name, Instance := "" }
    match za2.Save c (c.DbInsertDep dep s1).2 with
    | (err, s3) => ((za2, data1, err), s3)

/-- Modelled from the spec: the coordination store ("hierarchical ... key/value store",
`Get(path) → bytes | NotFound`, `Set` a full-record replace, `RecursiveDelete`, any
operation failing with a connection error when the store is unreachable) holding app
records as JSON, next to the SQL table of apps and the set of registered Env names. -/
structure World where
  /-- Coordination-store nodes under the apps namespace: path and decoded record. -/
  zk : List (String × ZkApp)
  /-- Rows of the SQL table of apps. -/
  apps : List App
  /-- Rows of the SQL table of dependencies. -/
  deps : List EnvDepData
  /-- Names of the registered environments. -/
  envs : List String
  /-- Whether the coordination store answers. -/
  reachable : Bool
  deriving DecidableEq, Repr

/-- Modelled from the spec: the collaborators of `app.go` over a `World`. Paths follow
the layout `/<root>/apps/<name>`; a store operation on an unreachable store fails
with a connection error and changes nothing; SQL operations act on the row whose
primary key is the app name; encryption is left as the identity. -/
def World.collab : Collab World where
  GetBaseAppPath := fun name => "/atlantis/apps/" ++ name
  getJson := fun path za w =>
    if w.reachable then
      match GoMap.get w.zk path with
      | some r => ((r, none), w)
      | none => ((za, some "NotFound"), w)
    else ((za, some "ConnectionError"), w)
  setJson := fun path za w =>
    if w.reachable then (none, { w with zk := GoMap.set w.zk path za })
    else (some "ConnectionError", w)
  RecursiveDelete := fun path w =>
    if w.reachable then
      (none, { w with zk := w.zk.filter (fun e => !(path.data.isPrefixOf e.1.data)) })
    else (some "ConnectionError", w)
  DbGet := fun name w => ((w.apps.find? (fun a => a.Name == name), none), w)
  DbInsert := fun app w =>
    if w.apps.any (fun a => a.Name == app.Name) then (some "Duplicate entry", w)
    else (none, { w with apps := w.apps ++ [app] })
  DbUpdate := fun app w =>
    (none, { w with apps := w.apps.map (fun a => if a.Name == app.Name then app else a) })
  DbDelete := fun app w =>
    (none, { w with apps := w.apps.filter (fun a => !(a.Name == app.Name)) })
  DbInsertDep := fun dep w => (none, { w with deps := w.deps ++ [dep] })
  ReclaimRouterPortsForApp := fun _ _ w =>
    if w.reachable then (none, w) else (some "ConnectionError", w)
  GetEnv := fun name w =>
    if w.reachable then
      (if w.envs.contains name then (none, w) else (some "NotFound", w))
    else (some "ConnectionError", w)
  EncryptDependerEnvData := fun d => d
  marshalSecurityGroup := fun _ => ""
  marshalDataMap := fun _ => ""
  Encrypt := fun b => b

/-- A store in which the coordination-store record of app `a` still has nil
dependency maps and differs from the SQL row in `Email`, `Repo` and `Root`. -/
def World.legacy : World :=
  { zk := [("/atlantis/apps/a", ⟨false, false, "a", "e0", "r0", "/0", none, none⟩)],
    apps := [⟨"a", false, false, "e1", "r1", "/1"⟩],
    deps := [], envs := [], reachable := true }

/-- A store holding app `a` (coordination-store record and SQL row in agreement) and
the environment `prod`. -/
def World.sample : World :=
  { zk := [("/atlantis/apps/a", ⟨false, false, "a", "e1", "r1", "/1", some [], some []⟩)],
    apps := [⟨"a", false, false, "e1", "r1", "/1"⟩],
    deps := [], envs := ["prod"], reachable := true }

/-- The store `World.sample` while the coordination store is unreachable. -/
def World.down : World := { World.sample with reachable := false }

end Datamodel

/-! ## Strings -/

/-- Go `strings.Contains(s, sub)` as a proposition: `sub` occurs in `s`. -/
def Contains (s sub : String) : Prop := sub.data <:+: s.data

instance (s sub : String) : Decidable (Contains s sub) := by
  unfold Contains; infer_instance

/-- An operand of `fmt.Sprintf`: the code passes strings and booleans only. -/
inductive FmtArg where
  | str (s : String)
  | bool (b : Bool)
  deriving DecidableEq, Repr

/-- How `fmt` prints an operand under a verb: the value for a verb that fits its type
(`%s` for a string, `%t` for a boolean), the bad-verb form `%!v(type=value)` otherwise. -/
def FmtArg.format (v : Char) : FmtArg → List Char
  | .str x => if v = 's' then x.data else "%!".data ++ v :: "(string=".data ++ x.data ++ [')']
  | .bool b =>
    if v = 't' then (toString b).data
    else "%!".data ++ v :: "(bool=".data ++ (toString b).data ++ [')']

/-- How `fmt` lists an operand that no verb consumed. -/
def FmtArg.extra : FmtArg → List Char
  | .str x => "string=".data ++ x.data
  | .bool b => "bool=".data ++ (toString b).data

/-- The `%!(EXTRA ...)` suffix `fmt` appends when operands are left over. -/
def Sprintf.extra : List FmtArg → List Char
  | [] => []
  | a :: as =>
    "%!(EXTRA ".data ++ a.extra ++ (as.map (fun b => ", ".data ++ b.extra)).flatten ++ [')']

/-- Go `fmt.Sprintf` on the characters of the format, for the directives `%%`, `%s`
and `%t` without flags, width or precision. Any other directive is outside this
fragment and gives `none`. -/
def Sprintf.go : List Char → List FmtArg → Option (List Char)
  | [], args => some (Sprintf.extra args)
  | c :: rest, args =>
    if c ≠ '%' then (Sprintf.go rest args).map (fun out => c :: out)
    else
      match rest with
      | [] => some ("%!(NOVERB)".data ++ Sprintf.extra args)
      | v :: rest1 =>
        if v = '%' then (Sprintf.go rest1 args).map (fun out => '%' :: out)
        else if v = 's' ∨ v = 't' then
          match args with
          | [] =>
            (Sprintf.go rest1 []).map (fun out => "%!".data ++ v :: "(MISSING)".data ++ out)
          | a :: args1 => (Sprintf.go rest1 args1).map (fun out => a.format v ++ out)
        else none

/-- Go `fmt.Sprintf(format, args...)` on the fragment of `Sprintf.go`. -/
def Sprintf (format : String) (args : List FmtArg) : Option String :=
  (Sprintf.go format.data args).map String.mk

/-- An optional description that is present and in which `user` occurs. -/
def Mentions (d : Option String) (user : String) : Prop :=
  ∃ t, d = some t ∧ Contains t user

/-- Go's order on strings, lexicographic on the characters (equivalently, on the
UTF-8 bytes). -/
def strLe (a b : String) : Prop := a.data ≤ b.data

instance : DecidableRel strLe := fun a b => by
  unfold strLe; infer_instance

/-- Go `sort.Strings`: the list in ascending order. -/
def sortStrings (l : List String) : List String :=
  l.insertionSort strLe

/-! ## rpc: types and collaborators -/

namespace Rpc

/-- Modelled from the spec: the reply `Status` enum {Ok, Error}; the constant of
`atlantis/common` for success. Replies hold it as a string, whose zero value is `""`. -/
def StatusOk : String := "OK"

/-- Modelled from the spec: the reply `Status` enum {Ok, Error}; the constant of
`atlantis/common` for failure. -/
def StatusError : String := "ERROR"

/-- LDAP modify operation `ldap.ModAdd`. -/
def ModAdd : Int := 0

/-- LDAP modify operation `ldap.ModDelete`. -/
def ModDelete : Int := 1

/-- Credentials every request embeds. -/
structure ManagerAuthArg where
  User : String
  Secret : String
  deriving DecidableEq, Repr

structure ManagerGetContainerArg where
  ManagerAuthArg : ManagerAuthArg
  ContainerID : String
  deriving DecidableEq, Repr

structure ManagerListContainersArg where
  ManagerAuthArg : ManagerAuthArg
  App : String
  Sha : String
  Env : String
  deriving DecidableEq, Repr

structure ManagerListEnvsArg where
  ManagerAuthArg : ManagerAuthArg
  App : String
  Sha : String
  deriving DecidableEq, Repr

structure ManagerListShasArg where
  ManagerAuthArg : ManagerAuthArg
  App : String
  deriving DecidableEq, Repr

structure ManagerListAppsArg where
  ManagerAuthArg : ManagerAuthArg
  deriving DecidableEq, Repr

structure ManagerContainerMaintenanceArg where
  ManagerAuthArg : ManagerAuthArg
  ContainerID : String
  Maintenance : Bool
  deriving DecidableEq, Repr

/-- Request of the idle check; the code reads none of its fields. -/
structure ManagerIdleArg where
  deriving DecidableEq, Repr

structure ManagerTeamArg where
  ManagerAuthArg : ManagerAuthArg
  User : String
  Team : String
  deriving DecidableEq, Repr

structure ManagerEmailArg where
  ManagerAuthArg : ManagerAuthArg
  Team : String
  Email : String
  deriving DecidableEq, Repr

structure ManagerModifyTeamAdminArg where
  ManagerAuthArg : ManagerAuthArg
  Team : String
  User : String
  deriving DecidableEq, Repr

structure ManagerTeamMemberArg where
  ManagerAuthArg : ManagerAuthArg
  Team : String
  User : String
  deriving DecidableEq, Repr

structure ManagerListTeamsArg where
  ManagerAuthArg : ManagerAuthArg
  deriving DecidableEq, Repr

structure ManagerListTeamEmailsArg where
  ManagerAuthArg : ManagerAuthArg
  Team : String
  deriving DecidableEq, Repr

structure ManagerListTeamAdminsArg where
  ManagerAuthArg : ManagerAuthArg
  Team : String
  deriving DecidableEq, Repr

structure ManagerListTeamMembersArg where
  ManagerAuthArg : ManagerAuthArg
  Team : String
  deriving DecidableEq, Repr

structure ManagerListTeamAppsArg where
  ManagerAuthArg : ManagerAuthArg
  Team : String
  deriving DecidableEq, Repr

structure ManagerAppArg where
  ManagerAuthArg : ManagerAuthArg
  App : String
  Team : String
  deriving DecidableEq, Repr

structure ManagerIsAppAllowedArg where
  ManagerAuthArg : ManagerAuthArg
  App : String
  User : String
  deriving DecidableEq, Repr

structure ManagerListAllowedAppsArg where
  ManagerAuthArg : ManagerAuthArg
  User : String
  deriving DecidableEq, Repr

/-- Two fields, as in the literal `ManagerTeamAdminArg{auth, team}`; `arg.User` is the
promoted `ManagerAuthArg.User`. -/
structure ManagerTeamAdminArg where
  ManagerAuthArg : ManagerAuthArg
  Team : String
  deriving DecidableEq, Repr

/-- One field, as in the literal `ManagerSuperUserArg{auth}`; `arg.User` is the
promoted `ManagerAuthArg.User`. -/
structure ManagerSuperUserArg where
  ManagerAuthArg : ManagerAuthArg
  deriving DecidableEq, Repr

/-- Container record of the supervisor; the manager writes `Host` and passes the rest
(collapsed into `Info`) through. -/
structure Container where
  Host : String
  Info : String
  deriving DecidableEq, Repr

structure SupervisorGetReply where
  Container : Container
  Status : String
  deriving DecidableEq, Repr

structure SupervisorContainerMaintenanceReply where
  Status : String
  deriving DecidableEq, Repr

structure ManagerGetContainerReply where
  Container : Option Container
  Status : String
  deriving DecidableEq, Repr

structure ManagerListContainersReply where
  ContainerIDs : List String
  Status : String
  deriving DecidableEq, Repr

structure ManagerListEnvsReply where
  Envs : List String
  Status : String
  deriving DecidableEq, Repr

structure ManagerListShasReply where
  Shas : List String
  Status : String
  deriving DecidableEq, Repr

structure ManagerListAppsReply where
  Apps : List String
  Status : String
  deriving DecidableEq, Repr

structure ManagerContainerMaintenanceReply where
  Status : String
  deriving DecidableEq, Repr

structure ManagerTeamReply where
  Status : String
  deriving DecidableEq, Repr

structure ManagerEmailReply where
  Status : String
  deriving DecidableEq, Repr

structure ManagerModifyTeamAdminReply where
  Status : String
  deriving DecidableEq, Repr

structure ManagerTeamMemberReply where
  Status : String
  deriving DecidableEq, Repr

/-- Instance record of the data model: the fields the executors read. -/
structure ZkInstance where
  ID : String
  App : String
  Sha : String
  Env : String
  Host : String
  deriving DecidableEq, Repr

/-- Manager record of the data model. -/
structure ZkManager where
  Region : String
  Host : String
  ManagerCName : String
  Roles : GoMap (GoMap Bool)
  deriving DecidableEq, Repr

/-- Team-apps record of the data model. -/
structure ZkTeamapps where
  Team : String
  Apps : List String
  deriving DecidableEq, Repr

/-- Collaborators of the rpc package whose code lives elsewhere: the globals `Region`
and `Host`, the data model, the supervisor client, the directory lookup and the
super-user authorisation. -/
structure Collab (σ : Type) where
  Region : String
  Host : String
  /-- `datamodel.GetManager(region, host)`. -/
  GetManager : String → String → σ → Except Error ZkManager × σ
  /-- `datamodel.ListManagers()`: region to hosts, in iteration order. -/
  ListManagers : σ → Except Error (List (String × List String)) × σ
  /-- Method `(zm *ZkManager) HasRole(role, rType)`. -/
  HasRole : ZkManager → String → String → Bool
  /-- `datamodel.GetInstance(id)`. -/
  GetInstance : String → σ → Except Error ZkInstance × σ
  /-- `datamodel.ListAllInstances()`. -/
  ListAllInstances : σ → (List String × Option Error) × σ
  /-- `datamodel.ListInstances(app, sha, env)`. -/
  ListInstances : String → String → String → σ → (List String × Option Error) × σ
  /-- `datamodel.ListEnvs()`. -/
  ListEnvs : σ → (List String × Option Error) × σ
  /-- `datamodel.ListAppEnvs(app, sha)`. -/
  ListAppEnvs : String → String → σ → (List String × Option Error) × σ
  /-- `datamodel.ListShas(app)`. -/
  ListShas : String → σ → (List String × Option Error) × σ
  /-- `datamodel.ListApps()`. -/
  ListApps : σ → (List String × Option Error) × σ
  /-- `datamodel.GetTeamapps(team)`. -/
  GetTeamapps : String → σ → ZkTeamapps × σ
  /-- `supervisor.Get(host, id)`. -/
  supervisorGet : String → String → σ → (SupervisorGetReply × Option Error) × σ
  /-- `supervisor.ContainerMaintenance(host, id, maintenance)`. -/
  supervisorContainerMaintenance :
    String → String → Bool → σ → (SupervisorContainerMaintenanceReply × Option Error) × σ
  /-- `AuthorizeSuperUser(auth)`. -/
  AuthorizeSuperUser : ManagerAuthArg → σ → Option Error × σ
  /-- `aldap.LookupTeam(user, secret)`: `none` is a nil slice. -/
  LookupTeam : String → String → σ → Option (List String) × σ

variable {σ : Type}

/-! ## rpc/rpc.go -/

/-- Inner loop of `checkRole`: the managers of one region. -/
def checkRole.scanRegion (c : Collab σ) (role rType region : String) :
    List String → String × σ → String × σ
  | [], acc => acc
  | manager :: rest, (managersWithRole, s) =>
    match c.GetManager region manager s with
    | (.error _, s1) => checkRole.scanRegion c role rType region rest (managersWithRole, s1)
    | (.ok zm, s1) =>
      if c.HasRole zm role rType then
        checkRole.scanRegion c role rType region rest
          (managersWithRole ++ zm.ManagerCName ++ "\n", s1)
      else checkRole.scanRegion c role rType region rest (managersWithRole, s1)

/-- Outer loop of `checkRole`: every region of the listing. -/
def checkRole.scan (c : Collab σ) (role rType : String) :
    List (String × List String) → String × σ → String × σ
  | [], acc => acc
  | (region, rManagers) :: rest, acc =>
    checkRole.scan c role rType rest (checkRole.scanRegion c role rType region rManagers acc)

/-- Function `checkRole(role, rType)`. -/
def checkRole (c : Collab σ) (role rType : String) (s : σ) : Option Error × σ :=
  match c.GetManager c.Region c.Host s with
  | (.error err, s1) => (some err, s1)
  | (.ok zkManager, s1) =>
    if !c.HasRole zkManager role rType then
      match c.ListManagers s1 with
      | (.error err, s2) => (some err, s2)
      | (.ok managers, s2) =>
        match checkRole.scan c role rType managers ("", s2) with
        | (managersWithRole, s3) =>
          (some ("This manager does not have the ability to " ++ rType ++ " " ++ role ++ ". " ++
            "Please try one of these:\n" ++ managersWithRole), s3)
    else (none, s1)

/-! ## rpc/ldap.go: helpers used by the container executors -/

/-- Function `ListTeams(auth)`. -/
def ListTeams (c : Collab σ) (auth : ManagerAuthArg) (s : σ) :
    (List String × Option Error) × σ :=
  match c.LookupTeam auth.User auth.Secret s with
  | (some ret, s1) => ((ret, none), s1)
  | (none, s1) => (([], none), s1)

/-- Function `GetAllowedApps(auth, user)`: the map of allowed app names. -/
def GetAllowedApps (c : Collab σ) (auth : ManagerAuthArg) (_user : String) (s : σ) :
    GoMap Bool × σ :=
  match ListTeams c auth s with
  | ((_, some _), s1) => ([], s1)
  | ((teams, none), s1) =>
    teams.foldl
      (fun (acc : GoMap Bool × σ) team =>
        match c.GetTeamapps team acc.2 with
        | (teamApps, s2) => (teamApps.Apps.foldl (fun r app => GoMap.set r app true) acc.1, s2))
      ([], s1)

/-- Go `allowedApps[app]` on a `map[string]bool`. -/
def allowed (allowedApps : GoMap Bool) (app : String) : Bool :=
  (GoMap.get allowedApps app).getD false

/-! ## rpc/containers.go -/

/-- Method `GetContainerExecutor.Description`. -/
def GetContainerExecutor.Description (arg : ManagerGetContainerArg) : String :=
  "[" ++ arg.ManagerAuthArg.User ++ "] " ++ arg.ContainerID

/-- Method `GetContainerExecutor.Execute`. -/
def GetContainerExecutor.Execute (c : Collab σ) (arg : ManagerGetContainerArg)
    (reply : ManagerGetContainerReply) (s : σ) :
    (ManagerGetContainerReply × Option Error) × σ :=
  if arg.ContainerID = "" then ((reply, some "Container ID is empty"), s)
  else
    match c.GetInstance arg.ContainerID s with
    | (.error err, s1) => (({ reply with Status := StatusError }, some err), s1)
    | (.ok inst, s1) =>
      match c.supervisorGet inst.Host arg.ContainerID s1 with
      | ((_, some err), s2) => (({ reply with Status := StatusError }, some err), s2)
      | ((ihReply, none), s2) =>
        let reply1 := { reply with Status := ihReply.Status }
        let container := { ihReply.Container with Host := inst.Host }
        let reply2 := { reply1 with Container := some container }
        (({ reply2 with Status := StatusOk }, none), s2)

/-- Method `ListContainersExecutor.Description`. -/
def ListContainersExecutor.Description (arg : ManagerListContainersArg) : Option String :=
  Sprintf ("[" ++ arg.ManagerAuthArg.User ++ "] %s @ %s in %s")
    [.str arg.App, .str arg.Sha, .str arg.Env]

/-- The filter loop of `ListContainersExecutor.Execute`: keep the ids whose instance
is readable and whose app is allowed. -/
def ListContainersExecutor.filterAllowed (c : Collab σ) (allowedApps : GoMap Bool) :
    List String → List String × σ → List String × σ
  | [], acc => acc
  | cid :: rest, (ids, s) =>
    match c.GetInstance cid s with
    | (.ok inst, s1) =>
      if allowed allowedApps inst.App then
        ListContainersExecutor.filterAllowed c allowedApps rest (ids ++ [cid], s1)
      else ListContainersExecutor.filterAllowed c allowedApps rest (ids, s1)
    | (.error _, s1) => ListContainersExecutor.filterAllowed c allowedApps rest (ids, s1)

/-- Method `ListContainersExecutor.Execute`. -/
def ListContainersExecutor.Execute (c : Collab σ) (arg : ManagerListContainersArg)
    (reply : ManagerListContainersReply) (s : σ) :
    (ManagerListContainersReply × Option Error) × σ :=
  if arg.App = "" ∧ arg.Sha = "" ∧ arg.Env = "" then
    match c.ListAllInstances s with
    | ((_, some err), s1) => (({ reply with Status := StatusError }, some err), s1)
    | ((allContainerIDs, none), s1) =>
      let reply1 := { reply with Status := StatusOk }
      match c.AuthorizeSuperUser arg.ManagerAuthArg s1 with
      | (none, s2) =>
        (({ reply1 with ContainerIDs := sortStrings allContainerIDs }, none), s2)
      | (some _, s2) =>
        match GetAllowedApps c arg.ManagerAuthArg arg.ManagerAuthArg.User s2 with
        | (allowedApps, s3) =>
          match ListContainersExecutor.filterAllowed c allowedApps allContainerIDs ([], s3) with
          | (ids, s4) => (({ reply1 with ContainerIDs := sortStrings ids }, none), s4)
  else if arg.App = "" then ((reply, some "App is empty"), s)
  else if arg.Sha = "" then ((reply, some "Sha is empty"), s)
  else if arg.Env = "" then ((reply, some "Environment is empty"), s)
  else
    match c.ListInstances arg.App arg.Sha arg.Env s with
    | ((ids, some err), s1) =>
      (({ reply with ContainerIDs := ids, Status := StatusError }, some err), s1)
    | ((ids, none), s1) =>
      (({ reply with ContainerIDs := sortStrings ids, Status := StatusOk }, none), s1)

/-- Method `ListEnvsExecutor.Description`. -/
def ListEnvsExecutor.Description (arg : ManagerListEnvsArg) : Option String :=
  if arg.App = "" ∨ arg.Sha = "" then
    Sprintf ("[" ++ arg.ManagerAuthArg.User ++ "] %s @ %s") [.str arg.App, .str arg.Sha]
  else some ("[" ++ arg.ManagerAuthArg.User ++ "] All")

/-- Method `ListEnvsExecutor.Execute`. -/
def ListEnvsExecutor.Execute (c : Collab σ) (arg : ManagerListEnvsArg)
    (reply : ManagerListEnvsReply) (s : σ) : (ManagerListEnvsReply × Option Error) × σ :=
  let listed : (List String × Option Error) × σ :=
    if arg.App = "" ∨ arg.Sha = "" then c.ListEnvs s else c.ListAppEnvs arg.App arg.Sha s
  match listed with
  | ((envs, some err), s1) => (({ reply with Envs := envs, Status := StatusError }, some err), s1)
  | ((envs, none), s1) =>
    (({ reply with Envs := sortStrings envs, Status := StatusOk }, none), s1)

/-- Method `ListShasExecutor.Description`. -/
def ListShasExecutor.Description (arg : ManagerListShasArg) : String :=
  "[" ++ arg.ManagerAuthArg.User ++ "] " ++ arg.App

/-- Method `ListShasExecutor.Execute`. -/
def ListShasExecutor.Execute (c : Collab σ) (arg : ManagerListShasArg)
    (reply : ManagerListShasReply) (s : σ) : (ManagerListShasReply × Option Error) × σ :=
  if arg.App = "" then ((reply, some "App is empty"), s)
  else
    match c.ListShas arg.App s with
    | ((shas, some err), s1) =>
      (({ reply with Shas := shas, Status := StatusError }, some err), s1)
    | ((shas, none), s1) =>
      (({ reply with Shas := sortStrings shas, Status := StatusOk }, none), s1)

/-- Method `ListAppsExecutor.Description`. -/
def ListAppsExecutor.Description (arg : ManagerListAppsArg) : String :=
  "[" ++ arg.ManagerAuthArg.User ++ "] ListApps"

/-- Method `ListAppsExecutor.Execute`. The variable `err` first receives the error of
`datamodel.ListApps()` and is then overwritten by the result of `AuthorizeSuperUser`. -/
def ListAppsExecutor.Execute (c : Collab σ) (arg : ManagerListAppsArg)
    (reply : ManagerListAppsReply) (s : σ) : (ManagerListAppsReply × Option Error) × σ :=
  match c.ListApps s with
  | ((apps, _), s1) =>
    match c.AuthorizeSuperUser arg.ManagerAuthArg s1 with
    | (err, s2) =>
      let step : (ManagerListAppsReply × Option Error) × σ :=
        match err with
        | none => (({ reply with Apps := apps }, none), s2)
        | some _ =>
          match GetAllowedApps c arg.ManagerAuthArg arg.ManagerAuthArg.User s2 with
          | (allowedApps, s3) =>
            (({ reply with Apps := apps.filter (fun app => allowed allowedApps app) }, none), s3)
      match step with
      | ((reply1, some err1), s4) => (({ reply1 with Status := StatusError }, some err1), s4)
      | ((reply1, none), s4) =>
        (({ reply1 with Apps := sortStrings reply1.Apps, Status := StatusOk }, none), s4)

/-! ## rpc/maintenance.go -/

/-- Method `ContainerMaintenanceExecutor.Description`. -/
def ContainerMaintenanceExecutor.Description (arg : ManagerContainerMaintenanceArg) :
    Option String :=
  Sprintf ("[" ++ arg.ManagerAuthArg.User ++ "] %s : %t")
    [.str arg.ContainerID, .bool arg.Maintenance]

/-- Method `ContainerMaintenanceExecutor.Execute`. -/
def ContainerMaintenanceExecutor.Execute (c : Collab σ) (arg : ManagerContainerMaintenanceArg)
    (reply : ManagerContainerMaintenanceReply) (s : σ) :
    (ManagerContainerMaintenanceReply × Option Error) × σ :=
  if arg.ContainerID = "" then ((reply, some "Please specify a container id."), s)
  else
    match c.GetInstance arg.ContainerID s with
    | (.error err, s1) => ((reply, some err), s1)
    | (.ok inst, s1) =>
      match c.supervisorContainerMaintenance inst.Host arg.ContainerID arg.Maintenance s1 with
      | ((ihReply, err), s2) => (({ reply with Status := ihReply.Status }, err), s2)

/-- Method `IdleExecutor.Description`. -/
def IdleExecutor.Description (_arg : ManagerIdleArg) : String := "Idle?"

/-! ## rpc/ldap.go: team executors -/

/-- Method `CreateTeamExecutor.Description`. -/
def CreateTeamExecutor.Description (arg : ManagerTeamArg) : Option String :=
  Sprintf ("[" ++ arg.ManagerAuthArg.User ++ "] %s : %s") [.str arg.User, .str arg.Team]

/-- Method `CreateTeamExecutor.Execute`. -/
def CreateTeamExecutor.Execute (_arg : ManagerTeamArg) (reply : ManagerTeamReply) (s : σ) :
    (ManagerTeamReply × Option Error) × σ :=
  ((reply, some "Team creation is no longer supported"), s)

/-- Method `DeleteTeamExecutor.Description`. -/
def DeleteTeamExecutor.Description (arg : ManagerTeamArg) : Option String :=
  Sprintf ("[" ++ arg.ManagerAuthArg.User ++ "] %s") [.str arg.Team]

/-- Method `DeleteTeamExecutor.Execute`. -/
def DeleteTeamExecutor.Execute (_arg : ManagerTeamArg) (reply : ManagerTeamReply) (s : σ) :
    (ManagerTeamReply × Option Error) × σ :=
  ((reply, some "Team Delete is no longer supported"), s)

/-- Function `ModifyTeamEmail(action, arg, reply)`. -/
def ModifyTeamEmail (_action : Int) (_arg : ManagerEmailArg) (reply : ManagerEmailReply)
    (s : σ) : (ManagerEmailReply × Option Error) × σ :=
  ((reply, some "Team email modification is no longer supported"), s)

/-- Method `AddTeamEmailExecutor.Description`. -/
def AddTeamEmailExecutor.Description (arg : ManagerEmailArg) : Option String :=
  Sprintf ("[" ++ arg.ManagerAuthArg.User ++ "] %s : %s") [.str arg.Email, .str arg.Team]

/-- Method `AddTeamEmailExecutor.Execute`. -/
def AddTeamEmailExecutor.Execute (arg : ManagerEmailArg) (reply : ManagerEmailReply) (s : σ) :
    (ManagerEmailReply × Option Error) × σ :=
  ModifyTeamEmail ModAdd arg reply s

/-- Method `RemoveTeamEmailExecutor.Description`. -/
def RemoveTeamEmailExecutor.Description (arg : ManagerEmailArg) : Option String :=
  Sprintf ("[" ++ arg.ManagerAuthArg.User ++ "] %s : %s") [.str arg.Email, .str arg.Team]

/-- Method `RemoveTeamEmailExecutor.Execute`. -/
def RemoveTeamEmailExecutor.Execute (arg : ManagerEmailArg) (reply : ManagerEmailReply)
    (s : σ) : (ManagerEmailReply × Option Error) × σ :=
  ModifyTeamEmail ModDelete arg reply s

/-- Method `AddTeamAdminExecutor.Description`. -/
def AddTeamAdminExecutor.Description (arg : ManagerModifyTeamAdminArg) : Option String :=
  Sprintf ("[" ++ arg.ManagerAuthArg.User ++ "] %s : %s") [.str arg.User, .str arg.Team]

/-- Method `AddTeamAdminExecutor.Execute`. -/
def AddTeamAdminExecutor.Execute (_arg : ManagerModifyTeamAdminArg)
    (reply : ManagerModifyTeamAdminReply) (s : σ) :
    (ManagerModifyTeamAdminReply × Option Error) × σ :=
  ((reply, some "Modify Team admin is no longer supported"), s)

/-- Method `RemoveTeamAdminExecutor.Description`. -/
def RemoveTeamAdminExecutor.Description (arg : ManagerModifyTeamAdminArg) : Option String :=
  Sprintf ("[" ++ arg.ManagerAuthArg.User ++ "] %s : %s") [.str arg.User, .str arg.Team]

/-- Method `RemoveTeamAdminExecutor.Execute`. -/
def RemoveTeamAdminExecutor.Execute (_arg : ManagerModifyTeamAdminArg)
    (reply : ManagerModifyTeamAdminReply) (s : σ) :
    (ManagerModifyTeamAdminReply × Option Error) × σ :=
  ((reply, some "Modify Team admin is no longer supported"), s)

/-- Function `ModifyTeamAdmin(action, arg, reply)`. -/
def ModifyTeamAdmin (_action : Int) (_arg : ManagerModifyTeamAdminArg)
    (reply : ManagerModifyTeamAdminReply) (s : σ) :
    (ManagerModifyTeamAdminReply × Option Error) × σ :=
  ((reply, some "Modify Team admin is no longer supported"), s)

/-- Method `AddTeamMemberExecutor.Description`. -/
def AddTeamMemberExecutor.Description (arg : ManagerTeamMemberArg) : Option String :=
  Sprintf ("[" ++ arg.ManagerAuthArg.User ++ "] %s : %s") [.str arg.User, .str arg.Team]

/-- Method `AddTeamMemberExecutor.Execute`. -/
def AddTeamMemberExecutor.Execute (_arg : ManagerTeamMemberArg)
    (reply : ManagerTeamMemberReply) (s : σ) : (ManagerTeamMemberReply × Option Error) × σ :=
  ((reply, some "Modify Team memeber is no longer supported"), s)

/-- Method `RemoveTeamMemberExecutor.Description`. -/
def RemoveTeamMemberExecutor.Description (arg : ManagerTeamMemberArg) : Option String :=
  Sprintf ("[" ++ arg.ManagerAuthArg.User ++ "] %s : %s") [.str arg.User, .str arg.Team]

/-- Method `RemoveTeamMemberExecutor.Execute`. -/
def RemoveTeamMemberExecutor.Execute (_arg : ManagerTeamMemberArg)
    (reply : ManagerTeamMemberReply) (s : σ) : (ManagerTeamMemberReply × Option Error) × σ :=
  ((reply, some "Modify Team memeber is no longer supporte"), s)

/-- Function `ModifyTeamMember(action, arg, reply)`. -/
def ModifyTeamMember (_action : Int) (_arg : ManagerTeamMemberArg)
    (reply : ManagerTeamMemberReply) (s : σ) : (ManagerTeamMemberReply × Option Error) × σ :=
  ((reply, none), s)

/-! ## rpc/ldap.go: descriptions of the remaining executors -/

/-- Method `ListTeamsExecutor.Description`. -/
def ListTeamsExecutor.Description (_arg : ManagerListTeamsArg) : String := "ListTeams"

/-- Method `ListTeamEmailsExecutor.Description`. -/
def ListTeamEmailsExecutor.Description (_arg : ManagerListTeamEmailsArg) : String :=
  "ListTeamEmails"

/-- Method `ListTeamAdminsExecutor.Description`. -/
def ListTeamAdminsExecutor.Description (_arg : ManagerListTeamAdminsArg) : String :=
  "ListTeamAdmins"

/-- Method `ListTeamMembersExecutor.Description`. -/
def ListTeamMembersExecutor.Description (_arg : ManagerListTeamMembersArg) : String :=
  "ListTeamMembers"

/-- Method `ListTeamAppsExecutor.Description`. -/
def ListTeamAppsExecutor.Description (_arg : ManagerListTeamAppsArg) : String :=
  "ListTeamApps"

/-- Method `AllowAppExecutor.Description`. -/
def AllowAppExecutor.Description (arg : ManagerAppArg) : Option String :=
  Sprintf ("[" ++ arg.ManagerAuthArg.User ++ "] %s : %s") [.str arg.App, .str arg.Team]

/-- Method `DisallowAppExecutor.Description`. -/
def DisallowAppExecutor.Description (arg : ManagerAppArg) : Option String :=
  Sprintf ("[" ++ arg.ManagerAuthArg.User ++ "] %s : %s") [.str arg.App, .str arg.Team]

/-- Method `IsAppAllowedExecutor.Description`. -/
def IsAppAllowedExecutor.Description (arg : ManagerIsAppAllowedArg) : Option String :=
  Sprintf ("[" ++ arg.ManagerAuthArg.User ++ "] %s : %s") [.str arg.App, .str arg.User]

/-- Method `ListAllowedAppsExecutor.Description`. -/
def ListAllowedAppsExecutor.Description (arg : ManagerListAllowedAppsArg) : Option String :=
  Sprintf ("[" ++ arg.ManagerAuthArg.User ++ "] %s: %s")
    [.str arg.ManagerAuthArg.User, .str arg.User]

/-- Method `IsTeamAdminExecutor.Description`. -/
def IsTeamAdminExecutor.Description (arg : ManagerTeamAdminArg) : Option String :=
  Sprintf ("[" ++ arg.ManagerAuthArg.User ++ "] %s : %s")
    [.str arg.ManagerAuthArg.User, .str arg.Team]

/-- Method `IsSuperUserExecutor.Description`. -/
def IsSuperUserExecutor.Description (arg : ManagerSuperUserArg) : Option String :=
  Sprintf ("[" ++ arg.ManagerAuthArg.User ++ "] %s") [.str arg.ManagerAuthArg.User]

/-! ## Reference readings and a concrete fleet -/

/-- Names one per line, each followed by a newline. -/
def unlines : List String → String
  | [] => ""
  | n :: ns => n ++ "\n" ++ unlines ns

/-- Reading of "a listed manager whose record is readable and has the role": the
CName of the manager `(region, manager)` if its record can be read in state `s` and
has the role, `none` otherwise. -/
def checkRole.candidate (c : Collab σ) (role rType : String) (s : σ)
    (region manager : String) : Option String :=
  match (c.GetManager region manager s).1 with
  | .ok zm => if c.HasRole zm role rType then some zm.ManagerCName else none
  | .error _ => none

/-- Reading of "every listed manager whose record is readable and has the role": their
CNames, in listing order. -/
def checkRole.managersWithRole (c : Collab σ) (role rType : String) (s : σ) :
    List (String × List String) → List String
  | [] => []
  | (region, rManagers) :: rest =>
    rManagers.filterMap (checkRole.candidate c role rType s region) ++
      checkRole.managersWithRole c role rType s rest

/-- Modelled from the spec: the state the rpc package reads, namely manager records
(region, host, CName, roles as role-name → permission-type → bool), the listing of
managers per region, instance records, the apps, the directory (user → teams), the
team-apps allow-lists, the super users, and whether the coordination store answers.
`calls` counts collaborator calls. -/
structure Fleet where
  managers : List ZkManager
  listing : List (String × List String)
  instances : List ZkInstance
  apps : List String
  directory : List (String × List String)
  teamapps : List ZkTeamapps
  superUsers : List String
  up : Bool
  calls : Nat
  deriving DecidableEq, Repr

/-- Modelled from the spec: the collaborators of the rpc package over a `Fleet`, for
the manager `(region, host)`. Every call first applies `tick` to the state (the
identity for plain reads, `Fleet.count` to count calls); data-model reads fail with a
connection error when the store is down and with a not-found error for a missing
record; the supervisor answers with the container as the instance record has it. -/
def Fleet.collab (region host : String) (tick : Fleet → Fleet) : Collab Fleet where
  Region := region
  Host := host
  GetManager := fun r h f =>
    if f.up then
      match f.managers.find? (fun zm => zm.Region == r && zm.Host == h) with
      | some zm => (.ok zm, tick f)
      | none => (.error "NotFound", tick f)
    else (.error "ConnectionError", tick f)
  ListManagers := fun f =>
    if f.up then (.ok f.listing, tick f) else (.error "ConnectionError", tick f)
  HasRole := fun zm role rType =>
    ((GoMap.get zm.Roles role).bind (fun perms => GoMap.get perms rType)).getD false
  GetInstance := fun id f =>
    if f.up then
      match f.instances.find? (fun i => i.ID == id) with
      | some i => (.ok i, tick f)
      | none => (.error "NotFound", tick f)
    else (.error "ConnectionError", tick f)
  ListAllInstances := fun f =>
    if f.up then ((f.instances.map (fun i => i.ID), none), tick f)
    else (([], some "ConnectionError"), tick f)
  ListInstances := fun app sha env f =>
    if f.up then
      (((f.instances.filter (fun i => i.App == app && i.Sha == sha && i.Env == env)).map
        (fun i => i.ID), none), tick f)
    else (([], some "ConnectionError"), tick f)
  ListEnvs := fun f =>
    if f.up then ((f.instances.map (fun i => i.Env), none), tick f)
    else (([], some "ConnectionError"), tick f)
  ListAppEnvs := fun app sha f =>
    if f.up then
      (((f.instances.filter (fun i => i.App == app && i.Sha == sha)).map (fun i => i.Env),
        none), tick f)
    else (([], some "ConnectionError"), tick f)
  ListShas := fun app f =>
    if f.up then
      (((f.instances.filter (fun i => i.App == app)).map (fun i => i.Sha), none), tick f)
    else (([], some "ConnectionError"), tick f)
  ListApps := fun f =>
    if f.up then ((f.apps, none), tick f) else (([], some "ConnectionError"), tick f)
  GetTeamapps := fun team f =>
    match f.teamapps.find? (fun t => t.Team == team) with
    | some t => (t, tick f)
    | none => (⟨team, []⟩, tick f)
  supervisorGet := fun h id f => ((⟨⟨h, id⟩, StatusOk⟩, none), tick f)
  supervisorContainerMaintenance := fun _ _ _ f => ((⟨StatusOk⟩, none), tick f)
  AuthorizeSuperUser := fun auth f =>
    if f.superUsers.contains auth.User then (none, tick f)
    else (some "Permission denied", tick f)
  LookupTeam := fun user _ f => (GoMap.get f.directory user, tick f)

/-- One more collaborator call. -/
def Fleet.count (f : Fleet) : Fleet := { f with calls := f.calls + 1 }

/-- A fleet of four listed managers: `m1` (this manager) lacks the role
`permissions`/`write`, `m2` and `m4` have it, and `m3` has no readable record. -/
def Fleet.sample : Fleet :=
  { managers :=
      [⟨"us-east-1", "m1", "m1.example.com", [("permissions", [("read", true)])]⟩,
       ⟨"us-east-1", "m2", "m2.example.com", [("permissions", [("write", true)])]⟩,
       ⟨"us-west-2", "m4", "m4.example.com", [("permissions", [("write", true)])]⟩],
    listing := [("us-east-1", ["m1", "m2", "m3"]), ("us-west-2", ["m4"])],
    instances := [⟨"c1", "app", "sha", "prod", "host1"⟩],
    apps := ["zeta", "app"],
    directory := [("alice", ["team-a"])],
    teamapps := [⟨"team-a", ["app"]⟩],
    superUsers := ["root"],
    up := true,
    calls := 0 }

end Rpc

/-! ## datamodel/app.go on the modelled store -/

namespace Datamodel

/-- The SQL row `Save` writes for a record. -/
def ZkApp.row (za : ZkApp) : App :=
  ⟨za.Name, za.NonAtlantis, za.Internal, za.Email, za.Repo, za.Root⟩

/-- The store a successful `Save` of `za` leaves behind: the record at its path in the
coordination store, and its row inserted or updated in the SQL table. -/
def World.saved (za : ZkApp) (w : World) : World :=
  { w with
    zk := GoMap.set w.zk ("/atlantis/apps/" ++ za.Name) za,
    apps :=
      if (w.apps.find? (fun a => a.Name == za.Name)).isSome then
        w.apps.map (fun a => if a.Name == za.Name then za.row else a)
      else w.apps ++ [za.row] }

/-- The sample store after app `b` has been registered: its record and row are there,
and so is the node the lookup of the not yet existing app wrote at the path of the
empty name. -/
def World.registered : World :=
  { zk :=
      [("/atlantis/apps/b",
          ⟨false, true, "b", "b@example.com", "git://b", "/", some [], some []⟩),
       ("/atlantis/apps/", ⟨false, false, "", "", "", "", some [], some []⟩),
       ("/atlantis/apps/a", ⟨false, false, "a", "e1", "r1", "/1", some [], some []⟩)],
    apps := [⟨"a", false, false, "e1", "r1", "/1"⟩,
             ⟨"b", false, true, "b@example.com", "git://b", "/"⟩],
    deps := [], envs := ["prod"], reachable := true }

end Datamodel

/-! ## rpc/maintenance.go: the idle check -/

namespace Rpc

variable {σ : Type}

/-- The task handed to `Execute` (type `Task` of atlantis/common); the executors
here only pass it on. -/
structure Task where
  Name : String
  ID : String
  deriving DecidableEq, Repr

structure ManagerIdleReply where
  Idle : Bool
  Status : String
  deriving DecidableEq, Repr

/-- Method `IdleExecutor.Execute`; `idle` is `Tracker.Idle` of atlantis/common. -/
def IdleExecutor.Execute (idle : Task → σ → Bool × σ) (t : Task) (_arg : ManagerIdleArg)
    (reply : ManagerIdleReply) (s : σ) : (ManagerIdleReply × Option Error) × σ :=
  match idle t s with
  | (b, s1) =>
    let reply1 := { reply with Idle := b }
    (({ reply1 with Status := StatusOk }, none), s1)

/-- Method `IdleExecutor.Authorize`. -/
def IdleExecutor.Authorize (_arg : ManagerIdleArg) (s : σ) : Option Error × σ := (none, s)

/-- Method `IdleExecutor.AllowDuringMaintenance`. -/
def IdleExecutor.AllowDuringMaintenance (_arg : ManagerIdleArg) : Bool := true

/-- The executor types declared in `containers.go`, `maintenance.go` and `ldap.go`, in
source order. -/
inductive Executor where
  | GetContainer | ListContainers | ListEnvs | ListShas | ListApps
  | ContainerMaintenance | Idle
  | CreateTeam | DeleteTeam | AddTeamEmail | RemoveTeamEmail | AddTeamAdmin
  | RemoveTeamAdmin | AddTeamMember | RemoveTeamMember
  | ListTeams | ListTeamEmails | ListTeamAdmins | ListTeamMembers | ListTeamApps
  | AllowApp | DisallowApp | IsAppAllowed | ListAllowedApps | IsTeamAdmin | IsSuperUser
  deriving DecidableEq, Repr

/-- The method `AllowDuringMaintenance` of an executor type: its value where the
source declares the method, `none` where the type has no such method. -/
def Executor.AllowDuringMaintenance : Executor → Option Bool
  | .Idle => some (IdleExecutor.AllowDuringMaintenance {})
  | _ => none

end Rpc

/-! ## constant/constant.go -/

namespace Constant

/-- The character class `[A-Za-z0-9-]` of `AppRegexp`. -/
def AppRegexp.inClass (c : Char) : Bool :=
  (decide ('A' ≤ c) && decide (c ≤ 'Z')) || (decide ('a' ≤ c) && decide (c ≤ 'z')) ||
    (decide ('0' ≤ c) && decide (c ≤ '9')) || c == '-'

/-- The match of `[A-Za-z0-9-]+` that starts at the head of the input: the longest run
of class characters, when it is not empty. -/
def AppRegexp.matchPrefix (s : List Char) : Option (List Char) :=
  match s.takeWhile AppRegexp.inClass with
  | [] => none
  | c :: run => some (c :: run)

/-- The leftmost match of the pattern in the input; the pattern has no anchors, so the
search tries every start position. -/
def AppRegexp.find : List Char → Option (List Char)
  | [] => none
  | c :: cs =>
    match AppRegexp.matchPrefix (c :: cs) with
    | some run => some run
    | none => AppRegexp.find cs

/-- Go `AppRegexp.FindString(s)` for `AppRegexp = regexp.MustCompile("[A-Za-z0-9-]+")`:
the leftmost match, `""` when there is none. -/
def AppRegexp.FindString (s : String) : String :=
  match AppRegexp.find s.data with
  | some run => String.mk run
  | none => ""

/-- Go `AppRegexp.MatchString(s)`: whether the string contains a match. -/
def AppRegexp.MatchString (s : String) : Bool :=
  (AppRegexp.find s.data).isSome

/-- The names the comment on `AppRegexp` describes ("apps can contain letters,
numbers, and -"): non-empty, every character in the class. -/
def AppRegexp.wellFormed (s : String) : Bool :=
  !s.data.isEmpty && s.data.all AppRegexp.inClass

end Constant

/-! ## Router ports and tries (spec §4.3) -/

namespace Datamodel

/-- Modelled from the spec: the router-port tables and routing tries the allocator of
`datamodel/router.go` keeps in the coordination store (that file is not among the
sources; `router_test.go` exercises it). Per scope (internal, external) a table
`(app, env) → port` over the range `[MinRouterPort, MaxRouterPort]`, and per scope the
routing rules of each `(app, env)` trie. Store failures and locking are left out: the
operations run one at a time on a reachable store. -/
structure RouterPorts where
  MinRouterPort : Nat
  MaxRouterPort : Nat
  internal : List ((String × String) × Nat)
  external : List ((String × String) × Nat)
  internalTries : List ((String × String) × List String)
  externalTries : List ((String × String) × List String)
  deriving DecidableEq, Repr

/-- Modelled from the spec: a store with the given range, no port assigned and no trie. -/
def RouterPorts.empty (min max : Nat) : RouterPorts :=
  { MinRouterPort := min, MaxRouterPort := max, internal := [], external := [],
    internalTries := [], externalTries := [] }

/-- Modelled from the spec: the port table of a scope (`true` is internal). -/
def RouterPorts.ports (st : RouterPorts) (scope : Bool) : List ((String × String) × Nat) :=
  if scope then st.internal else st.external

/-- Modelled from the spec: replace the port table of a scope. -/
def RouterPorts.setPorts (st : RouterPorts) (scope : Bool)
    (m : List ((String × String) × Nat)) : RouterPorts :=
  if scope then { st with internal := m } else { st with external := m }

/-- Modelled from the spec: the tries of a scope. -/
def RouterPorts.tries (st : RouterPorts) (scope : Bool) :
    List ((String × String) × List String) :=
  if scope then st.internalTries else st.externalTries

/-- Modelled from the spec: replace the tries of a scope. -/
def RouterPorts.setTries (st : RouterPorts) (scope : Bool)
    (t : List ((String × String) × List String)) : RouterPorts :=
  if scope then { st with internalTries := t } else { st with externalTries := t }

/-- Modelled from the spec: the port assigned to `(app, env)` in a table, if any. -/
def portOf (m : List ((String × String) × Nat)) (app env : String) : Option Nat :=
  (m.find? (fun e => e.1 == (app, env))).map Prod.snd

/-- Modelled from the spec: `HasRouterPortForAppEnv(scope, app, env)`. -/
def HasRouterPortForAppEnv (scope : Bool) (app env : String) (st : RouterPorts) : Bool :=
  (portOf (st.ports scope) app env).isSome

/-- Modelled from the spec ("scan the range [MinRouterPort, MaxRouterPort] for the
lowest currently-unassigned port"): the lowest port of the range no entry of the table
holds. -/
def lowestFree (min max : Nat) (m : List ((String × String) × Nat)) : Option Nat :=
  (List.range' min (max + 1 - min)).find? (fun p => !(m.any (fun e => e.2 == p)))

/-- Modelled from the spec: `ReserveRouterPort(scope, app, env) → (port, created)`
(`reserveRouterPort` in the test): the port already assigned with `created = false`,
else the lowest free port of the range, persisted, with `created = true`, else the
capacity error. -/
def ReserveRouterPort (scope : Bool) (app env : String) (st : RouterPorts) :
    Except Error (Nat × Bool) × RouterPorts :=
  match portOf (st.ports scope) app env with
  | some port => (.ok (port, false), st)
  | none =>
    match lowestFree st.MinRouterPort st.MaxRouterPort (st.ports scope) with
    | none => (.error "CapacityExhausted", st)
    | some port =>
      (.ok (port, true), st.setPorts scope (st.ports scope ++ [((app, env), port)]))

/-- Modelled from the spec: `ReclaimRouterPortsForApp(scope, app)` removes all mappings
of the scope whose app is `app`. -/
def ReclaimRouterPortsForApp (scope : Bool) (app : String) (st : RouterPorts) :
    Option Error × RouterPorts :=
  (none, st.setPorts scope ((st.ports scope).filter (fun e => !(e.1.1 == app))))

/-- Modelled from the spec: `ReclaimRouterPortsForEnv(scope, env)` removes all mappings
of the scope whose env is `env`. -/
def ReclaimRouterPortsForEnv (scope : Bool) (env : String) (st : RouterPorts) :
    Option Error × RouterPorts :=
  (none, st.setPorts scope ((st.ports scope).filter (fun e => !(e.1.2 == env))))

/-- Modelled from the spec: `helper.CreatePoolName(app, sha, env)`, the composite
`<app>.<sha>.<env>`. -/
def CreatePoolName (app sha env : String) : String :=
  app ++ "." ++ sha ++ "." ++ env

/-- Modelled from the spec: the rules of the `(app, env)` trie of a scope
(`routerzk.GetTrie(...).Rules`), empty when there is no such trie. -/
def trieRules (st : RouterPorts) (scope : Bool) (app env : String) : List String :=
  ((st.tries scope).find? (fun t => t.1 == (app, env))).elim [] Prod.snd

/-- Modelled from the spec: `ReserveRouterPortAndUpdateTrie(scope, app, sha, env)`:
reserve the port of `(app, env)`, then make sure the `(app, env)` trie holds the rule
of this sha (named after the pool it routes to); the port comes back as a decimal
string. -/
def ReserveRouterPortAndUpdateTrie (scope : Bool) (app sha env : String) (st : RouterPorts) :
    Except Error (String × Bool) × RouterPorts :=
  match ReserveRouterPort scope app env st with
  | (.error err, st1) => (.error err, st1)
  | (.ok (port, created), st1) =>
    let rule := CreatePoolName app sha env
    let rules := trieRules st1 scope app env
    let rules1 := if rules.contains rule then rules else rules ++ [rule]
    (.ok (toString port, created),
      st1.setTries scope
        (((app, env), rules1) :: (st1.tries scope).filter (fun t => !(t.1 == (app, env)))))

/-- Modelled from the spec: reservations for a list of `(app, env)` pairs, one after
the other, with the result of each. -/
def reserveAll (scope : Bool) :
    List (String × String) → RouterPorts → List (Except Error (Nat × Bool)) × RouterPorts
  | [], st => ([], st)
  | (app, env) :: rest, st =>
    match ReserveRouterPort scope app env st with
    | (r, st1) =>
      match reserveAll scope rest st1 with
      | (rs, st2) => (r :: rs, st2)

/-- Modelled from the spec: the operations on the router-port store. -/
inductive RouterOp where
  | reserve (scope : Bool) (app env : String)
  | reserveAndUpdateTrie (scope : Bool) (app sha env : String)
  | reclaimApp (scope : Bool) (app : String)
  | reclaimEnv (scope : Bool) (env : String)
  deriving DecidableEq, Repr

/-- Modelled from the spec: the store after one operation. -/
def RouterOp.apply : RouterOp → RouterPorts → RouterPorts
  | .reserve scope app env, st => (ReserveRouterPort scope app env st).2
  | .reserveAndUpdateTrie scope app sha env, st =>
    (ReserveRouterPortAndUpdateTrie scope app sha env st).2
  | .reclaimApp scope app, st => (ReclaimRouterPortsForApp scope app st).2
  | .reclaimEnv scope env, st => (ReclaimRouterPortsForEnv scope env st).2

/-- Modelled from the spec: the store after a sequence of operations. -/
def RouterPorts.run (ops : List RouterOp) (st : RouterPorts) : RouterPorts :=
  ops.foldl (fun s op => op.apply s) st

/-- Modelled from the spec ("at most one port per (app,env) pair per scope", ports
taken from the bounded range, no two pairs on the same port): a well-formed port
table. -/
def PortsOk (min max : Nat) (m : List ((String × String) × Nat)) : Prop :=
  (m.map Prod.fst).Nodup ∧ (m.map Prod.snd).Nodup ∧ ∀ e ∈ m, min ≤ e.2 ∧ e.2 ≤ max

/-- Modelled from the spec: the invariant of a store, both port tables well-formed for
its range. -/
def RouterPorts.Ok (st : RouterPorts) : Prop :=
  ∀ scope, PortsOk st.MinRouterPort st.MaxRouterPort (st.ports scope)

/-- The store of the router tests: range 65533..65535, nothing assigned. -/
def RouterPorts.test : RouterPorts := RouterPorts.empty 65533 65535

end Datamodel

/-! ## Pools (spec §4.4) -/

namespace Datamodel

/-- Modelled from the spec: an instance record as `AddToPool` and `DeleteFromPool`
resolve it: ID, routing scope, (app, sha, env), host and the port assigned by `SetPort`. -/
structure PoolInstance where
  ID : String
  Internal : Bool
  App : String
  Sha : String
  Env : String
  Host : String
  Port : Nat
  deriving DecidableEq, Repr

/-- Modelled from the spec: the `host:port` entry of an instance. -/
def PoolInstance.address (i : PoolInstance) : String :=
  i.Host ++ ":" ++ toString i.Port

/-- Modelled from the spec: the name of the pool of an instance. -/
def PoolInstance.poolName (i : PoolInstance) : String :=
  CreatePoolName i.App i.Sha i.Env

/-- Modelled from the spec: health-check and timeout configuration of a pool. -/
structure PoolConfig where
  HealthzEvery : String
  HealthzTimeout : String
  RequestTimeout : String
  deriving DecidableEq, Repr

/-- Modelled from the spec: the configuration a pool is created with ("defaulted,
non-empty"); the spec does not fix the values. -/
def PoolConfig.default : PoolConfig := ⟨"5s", "5s", "120s"⟩

/-- Modelled from the spec: a pool record: its name, its configuration and its set of
`host:port` entries (the keys of the `Hosts` map; each maps to the host with that
address). -/
structure Pool where
  Name : String
  Config : PoolConfig
  Hosts : List String
  deriving DecidableEq, Repr

/-- Modelled from the spec: the instance records and, per scope, the pool records by
name. Store failures and locking are left out: the operations run one at a time on a
reachable store. -/
structure PoolStore where
  instances : List PoolInstance
  internalPools : GoMap Pool
  externalPools : GoMap Pool
  deriving DecidableEq, Repr

/-- Modelled from the spec: the pool records of a scope (`true` is internal). -/
def PoolStore.pools (st : PoolStore) (scope : Bool) : GoMap Pool :=
  if scope then st.internalPools else st.externalPools

/-- Modelled from the spec: replace the pool records of a scope. -/
def PoolStore.setPools (st : PoolStore) (scope : Bool) (m : GoMap Pool) : PoolStore :=
  if scope then { st with internalPools := m } else { st with externalPools := m }

/-- Modelled from the spec: `routerzk.GetPool(name)` under the router root of a scope. -/
def GetPool (scope : Bool) (name : String) (st : PoolStore) : Except Error Pool :=
  match GoMap.get (st.pools scope) name with
  | some pool => .ok pool
  | none => .error "NotFound"

/-- Modelled from the spec: `routerzk.ListPools()` under the router root of a scope. -/
def ListPools (scope : Bool) (st : PoolStore) : List String :=
  (st.pools scope).map Prod.fst

/-- Modelled from the spec: resolve instance IDs to their records; `none` when one of
them has no record. -/
def resolveInstances (instances : List PoolInstance) : List String → Option (List PoolInstance)
  | [] => some []
  | id :: rest =>
    match instances.find? (fun i => i.ID == id), resolveInstances instances rest with
    | some i, some is => some (i :: is)
    | _, _ => none

/-- Modelled from the spec: upsert the entry of one instance into its pool, creating the
pool with the default configuration when it does not exist. -/
def addToPool (st : PoolStore) (i : PoolInstance) : PoolStore :=
  let pools := st.pools i.Internal
  match GoMap.get pools i.poolName with
  | some pool =>
    st.setPools i.Internal (GoMap.set pools i.poolName
      { pool with
        Hosts := if pool.Hosts.contains i.address then pool.Hosts
                 else pool.Hosts ++ [i.address] })
  | none =>
    st.setPools i.Internal
      (GoMap.set pools i.poolName ⟨i.poolName, PoolConfig.default, [i.address]⟩)

/-- Modelled from the spec: remove the entry of one instance from its pool; when the
host set becomes empty the pool record is deleted. -/
def deleteFromPool (st : PoolStore) (i : PoolInstance) : PoolStore :=
  let pools := st.pools i.Internal
  match GoMap.get pools i.poolName with
  | none => st
  | some pool =>
    let hosts := pool.Hosts.filter (fun a => !(a == i.address))
    if hosts.isEmpty then st.setPools i.Internal (GoMap.delete pools i.poolName)
    else st.setPools i.Internal (GoMap.set pools i.poolName { pool with Hosts := hosts })

/-- Modelled from the spec: `AddToPool(instanceIDs)`: resolve each ID and upsert its
entry into the pool of its (app, sha, env); instance by instance, which gives the pools
the grouping by (app, sha, env) gives. -/
def AddToPool (ids : List String) (st : PoolStore) : Option Error × PoolStore :=
  match resolveInstances st.instances ids with
  | none => (some "NotFound", st)
  | some is => (none, is.foldl addToPool st)

/-- Modelled from the spec: `DeleteFromPool(instanceIDs)`. -/
def DeleteFromPool (ids : List String) (st : PoolStore) : Option Error × PoolStore :=
  match resolveInstances st.instances ids with
  | none => (some "NotFound", st)
  | some is => (none, is.foldl deleteFromPool st)

/-- The instances of the pool tests: two of `app`/`sha`/`env` at first, then one of
`app2`/`sha1`/`env1` and a third of `app`/`sha`/`env`; no pool yet. -/
def PoolStore.test : PoolStore :=
  { instances :=
      [⟨"i1", true, "app", "sha", "env", "host-1", 1337⟩,
       ⟨"i2", true, "app", "sha", "env", "host-2", 1338⟩,
       ⟨"n1", true, "app2", "sha1", "env1", "host-1", 1339⟩,
       ⟨"n2", true, "app", "sha", "env", "host-3", 1340⟩],
    internalPools := [], externalPools := [] }

/-- Two instances whose names hold the separator: (`a.b`, `c`, `e`) and
(`a`, `b.c`, `e`) have the same pool name; no pool yet. -/
def PoolStore.dotted : PoolStore :=
  { instances :=
      [⟨"d1", true, "a.b", "c", "e", "h1", 1⟩,
       ⟨"d2", true, "a", "b.c", "e", "h2", 2⟩],
    internalPools := [], externalPools := [] }

/-- Two instances of `app`/`sha`/`env` at the same address `h:1`; no pool yet. -/
def PoolStore.sharedAddress : PoolStore :=
  { instances :=
      [⟨"s1", true, "app", "sha", "env", "h", 1⟩,
       ⟨"s2", true, "app", "sha", "env", "h", 1⟩],
    internalPools := [], externalPools := [] }

/-- Modelled from the spec: the `host:port` entries of the pool named `name` in a
scope; none when there is no such pool. -/
def poolHosts (st : PoolStore) (scope : Bool) (name : String) : List String :=
  match GoMap.get (st.pools scope) name with
  | some pool => pool.Hosts
  | none => []

/-- Modelled from the spec ("listing pools must never show zero-member pools"; pools
are created with the default configuration under their own name): the invariant of
the pool records. -/
def PoolStore.Ok (st : PoolStore) : Prop :=
  ∀ scope name pool, GoMap.get (st.pools scope) name = some pool →
    pool.Name = name ∧ pool.Hosts ≠ [] ∧ pool.Config = PoolConfig.default

/-- Modelled from the spec: the instances of a scope and (app, sha, env) whose ID is among
the added ones and not among the deleted ones ("the set of added-and-not-deleted
instances of that (app, sha, env)"). -/
def poolMembers (st : PoolStore) (added deleted : List String) (scope : Bool)
    (app sha env : String) : List PoolInstance :=
  st.instances.filter (fun i =>
    i.Internal == scope && i.App == app && i.Sha == sha && i.Env == env &&
      added.contains i.ID && !deleted.contains i.ID)

end Datamodel

/-! ## rpc: reference readings for the listings -/

namespace Rpc

variable {σ : Type}

/-- Reading of "a listed ID whose instance record is readable and whose app is in
`GetAllowedApps` for the caller": whether `GetInstance(cid)` succeeds in state `s` with
an app the map allows. -/
def ListContainersExecutor.visible (c : Collab σ) (allowedApps : GoMap Bool) (s : σ)
    (cid : String) : Bool :=
  match (c.GetInstance cid s).1 with
  | .ok inst => allowed allowedApps inst.App
  | .error _ => false

end Rpc

/-! ## datamodel/app.go: a store with dependency data -/

namespace Datamodel

/-- A store in which the coordination-store record of app `a` carries dependency data
for the environment `prod` and for the app `b`, next to the SQL row of `a`. -/
def World.withDeps : World :=
  { zk := [("/atlantis/apps/a",
      ⟨false, false, "a", "e1", "r1", "/1",
        some [("prod", ⟨"prod", [("sg", [80])], "secret", [("k", "v")]⟩)],
        some [("b", ⟨"b", some [("prod", ⟨"prod", [], "", []⟩)]⟩)]⟩)],
    apps := [⟨"a", false, false, "e1", "r1", "/1"⟩],
    deps := [], envs := ["prod"], reachable := true }

end Datamodel

/-! ## rpc/ldap.go: nested tasks and the permission checks -/

namespace Rpc

variable {σ : Type}

/-- The methods of an executor that a task run calls, for a reply of type `ρ`; the
request is part of the closure. `AllowDuringMaintenance` is false for an executor type
that does not declare the method. -/
structure TaskExecutor (σ ρ : Type) where
  Authorize : σ → Option Error × σ
  Execute : Task → ρ → σ → (ρ × Option Error) × σ
  AllowDuringMaintenance : Bool

/-- `NewTask(name, executor).Run()` of atlantis/common: from the reply the executor
points to and the state, the reply after the run, the error of the run and the state. -/
abbrev Run (σ : Type) : Type 1 :=
  (ρ : Type) → String → TaskExecutor σ ρ → ρ → σ → (ρ × Option Error) × σ

/-- A run writes the reply through `Execute` only: the reply after the run is the one
passed in, or one that a call of the executor's `Execute` produced. -/
def Run.WritesThroughExecute (run : Run σ) : Prop :=
  ∀ (ρ : Type) (name : String) (e : TaskExecutor σ ρ) (reply : ρ) (s : σ),
    (run ρ name e reply s).1.1 = reply ∨
      ∃ t r s1, (run ρ name e reply s).1.1 = (e.Execute t r s1).1.1

/-- Modelled from the spec: the synchronous run of a task (section 4.5): the global
maintenance gate first, unless the executor allows running during maintenance, then
`Authorize`, then `Execute`; a failing step ends the run with its error. -/
def Run.spec (gate : σ → Option Error × σ) : Run σ := fun _ name e reply s =>
  match (if e.AllowDuringMaintenance then (none, s) else gate s) with
  | (some err, s1) => ((reply, some err), s1)
  | (none, s1) =>
    match e.Authorize s1 with
    | (some err, s2) => ((reply, some err), s2)
    | (none, s2) => e.Execute ⟨name, ""⟩ reply s2

/-- Constant `maxTeamAdmins`. -/
def maxTeamAdmins : Nat := 2

/-- Reply of the team-admin check: the field the code writes. -/
structure ManagerTeamAdminReply where
  IsAdmin : Bool
  deriving DecidableEq, Repr

/-- Reply of the team-admin listing: the field the code writes. -/
structure ManagerListTeamAdminsReply where
  TeamAdmins : List String
  deriving DecidableEq, Repr

/-- Method `IsTeamAdminExecutor.Execute`. -/
def IsTeamAdminExecutor.Execute (_t : Task) (_arg : ManagerTeamAdminArg)
    (reply : ManagerTeamAdminReply) (s : σ) : (ManagerTeamAdminReply × Option Error) × σ :=
  (({ reply with IsAdmin := false }, none), s)

/-- Method `IsTeamAdminExecutor.Authorize`. -/
def IsTeamAdminExecutor.Authorize (_arg : ManagerTeamAdminArg) (s : σ) : Option Error × σ :=
  (none, s)

/-- The executor `&IsTeamAdminExecutor{arg, &reply}` as a task run sees it. -/
def IsTeamAdminExecutor.task (arg : ManagerTeamAdminArg) :
    TaskExecutor σ ManagerTeamAdminReply :=
  ⟨IsTeamAdminExecutor.Authorize arg, fun t reply s => IsTeamAdminExecutor.Execute t arg reply s,
    false⟩

/-- Method `ListTeamAdminsExecutor.Execute`. -/
def ListTeamAdminsExecutor.Execute (_t : Task) (_arg : ManagerListTeamAdminsArg)
    (reply : ManagerListTeamAdminsReply) (s : σ) :
    (ManagerListTeamAdminsReply × Option Error) × σ :=
  (({ reply with TeamAdmins := [] }, none), s)

/-- Method `ListTeamAdminsExecutor.Authorize`; `SimpleAuthorize` is not part of the
files at hand. -/
def ListTeamAdminsExecutor.Authorize (SimpleAuthorize : ManagerAuthArg → σ → Option Error × σ)
    (arg : ManagerListTeamAdminsArg) (s : σ) : Option Error × σ :=
  SimpleAuthorize arg.ManagerAuthArg s

/-- The executor `&ListTeamAdminsExecutor{arg, &reply}` as a task run sees it. -/
def ListTeamAdminsExecutor.task (SimpleAuthorize : ManagerAuthArg → σ → Option Error × σ)
    (arg : ManagerListTeamAdminsArg) : TaskExecutor σ ManagerListTeamAdminsReply :=
  ⟨ListTeamAdminsExecutor.Authorize SimpleAuthorize arg,
    fun t reply s => ListTeamAdminsExecutor.Execute t arg reply s, false⟩

/-- Method `AddTeamAdminExecutor.Authorize`. The replies of the two nested tasks start
as zero values. -/
def AddTeamAdminExecutor.Authorize (c : Collab σ) (run : Run σ)
    (SimpleAuthorize : ManagerAuthArg → σ → Option Error × σ)
    (arg : ManagerModifyTeamAdminArg) (s : σ) : Option Error × σ :=
  match checkRole c "permissions" "write" s with
  | (some err, s1) => (some err, s1)
  | (none, s1) =>
    let req : ManagerTeamAdminArg := ⟨arg.ManagerAuthArg, arg.Team⟩
    match run _ "AddTeamAdmin-IsTeamAdmin" (IsTeamAdminExecutor.task req) ⟨false⟩ s1 with
    | ((res, err), s2) =>
      if err.isSome ∨ res.IsAdmin = false then (some "Permission denied", s2)
      else
        let reql : ManagerListTeamAdminsArg := ⟨arg.ManagerAuthArg, arg.Team⟩
        match run _ "AddTeamAdmin-ListTeamAdmins"
            (ListTeamAdminsExecutor.task SimpleAuthorize reql) ⟨[]⟩ s2 with
        | ((_, some err1), s3) => (some err1, s3)
        | ((resl, none), s3) =>
          if resl.TeamAdmins.length ≥ maxTeamAdmins then
            (some ("Maximum of " ++ toString maxTeamAdmins ++ " admins are allowed per team"),
              s3)
          else (none, s3)

/-- Method `RemoveTeamAdminExecutor.Authorize`. -/
def RemoveTeamAdminExecutor.Authorize (c : Collab σ) (run : Run σ)
    (arg : ManagerModifyTeamAdminArg) (s : σ) : Option Error × σ :=
  match checkRole c "permissions" "write" s with
  | (some err, s1) => (some err, s1)
  | (none, s1) =>
    let req : ManagerTeamAdminArg := ⟨arg.ManagerAuthArg, arg.Team⟩
    match run _ "RemoveTeamAdmin-IsTeamAdmin" (IsTeamAdminExecutor.task req) ⟨false⟩ s1 with
    | ((res, err), s2) =>
      if err.isSome ∨ res.IsAdmin = false then (some "Permission denied", s2)
      else (none, s2)

end Rpc

/-! ## rpc/ldap.go: super users and allowed apps -/

namespace Rpc

variable {σ : Type}

/-- The globals of the package `atlantis/manager/ldap` that the permission checks read. -/
structure LdapConfig where
  SkipAuthorization : Bool
  SuperUserGroup : String
  deriving DecidableEq, Repr

/-- Reply of the super-user check: the field the code writes. -/
structure ManagerSuperUserReply where
  IsSuperUser : Bool
  deriving DecidableEq, Repr

/-- Reply of the allowed-apps listing: the field the code writes. -/
structure ManagerListAllowedAppsReply where
  Apps : List String
  deriving DecidableEq, Repr

/-- Function `contains(arr, str)`. -/
def contains : List String → String → Bool
  | [], _ => false
  | a :: rest, str => if a = str then true else contains rest str

/-- Function `UserExists(name, auth)`. -/
def UserExists (_name : String) (_auth : ManagerAuthArg) : Bool := true

/-- Method `IsSuperUserExecutor.Execute`; `arg.User` is the promoted
`ManagerAuthArg.User`. The log lines are left out. -/
def IsSuperUserExecutor.Execute (c : Collab σ) (ldap : LdapConfig) (_t : Task)
    (arg : ManagerSuperUserArg) (reply : ManagerSuperUserReply) (s : σ) :
    (ManagerSuperUserReply × Option Error) × σ :=
  if ldap.SkipAuthorization then (({ reply with IsSuperUser := true }, none), s)
  else if !UserExists arg.ManagerAuthArg.User arg.ManagerAuthArg then
    (({ reply with IsSuperUser := false }, none), s)
  else
    match ListTeams c arg.ManagerAuthArg s with
    | ((_, some _), s1) => (({ reply with IsSuperUser := false }, none), s1)
    | ((teams, none), s1) =>
      if contains teams ldap.SuperUserGroup then
        (({ reply with IsSuperUser := true }, none), s1)
      else (({ reply with IsSuperUser := false }, none), s1)

/-- Method `IsSuperUserExecutor.Authorize`. -/
def IsSuperUserExecutor.Authorize (_arg : ManagerSuperUserArg) (s : σ) : Option Error × σ :=
  (none, s)

/-- The executor `&IsSuperUserExecutor{arg, &reply}` as a task run sees it. -/
def IsSuperUserExecutor.task (c : Collab σ) (ldap : LdapConfig) (arg : ManagerSuperUserArg) :
    TaskExecutor σ ManagerSuperUserReply :=
  ⟨IsSuperUserExecutor.Authorize arg,
    fun t reply s => IsSuperUserExecutor.Execute c ldap t arg reply s, false⟩

/-- Function `IsAppAllowed(auth, user, app)`. -/
def IsAppAllowed (c : Collab σ) (run : Run σ) (ldap : LdapConfig) (auth : ManagerAuthArg)
    (user app : String) (s : σ) : Bool × σ :=
  match run _ "IsAppAllowed-IsSuperUser" (IsSuperUserExecutor.task c ldap ⟨auth⟩) ⟨false⟩ s with
  | ((_, some _), s1) => (false, s1)
  | ((suReply, none), s1) =>
    if suReply.IsSuperUser then (true, s1)
    else
      match GetAllowedApps c auth user s1 with
      | (allowedApps, s2) => (allowed allowedApps app, s2)

/-- Method `ListAllowedAppsExecutor.Execute`. The loop over the map visits its entries
in the order of the association list. -/
def ListAllowedAppsExecutor.Execute (c : Collab σ) (run : Run σ) (ldap : LdapConfig)
    (_t : Task) (arg : ManagerListAllowedAppsArg) (reply : ManagerListAllowedAppsReply)
    (s : σ) : (ManagerListAllowedAppsReply × Option Error) × σ :=
  if ldap.SkipAuthorization then (({ reply with Apps := ["all"] }, none), s)
  else
    match run _ "ListAllowedApps-IsSuperUser"
        (IsSuperUserExecutor.task c ldap ⟨arg.ManagerAuthArg⟩) ⟨false⟩ s with
    | ((_, some err), s1) => ((reply, some err), s1)
    | ((suReply, none), s1) =>
      let user :=
        if suReply.IsSuperUser = true ∧ arg.User ≠ "" then arg.User
        else arg.ManagerAuthArg.User
      match GetAllowedApps c arg.ManagerAuthArg user s1 with
      | (appMap, s2) =>
        let apps := (appMap.filter (fun e => e.2)).map Prod.fst
        (({ reply with Apps := sortStrings apps }, none), s2)

/-- A fleet in which `root` is in the super-user group `atlantis-su` of the directory. -/
def Fleet.withSuperUser : Fleet :=
  { Fleet.sample with directory := [("alice", ["team-a"]), ("root", ["ops", "atlantis-su"])] }

end Rpc

/-! ## datamodel/app.go: the dependency methods -/

namespace Datamodel

variable {σ : Type}

/-- SQL row `AppDepData`. -/
structure AppDepData where
  ID : Int
  DepApp : String
  EnvDepDataId : Int
  App : String
  deriving DecidableEq, Repr

/-- Collaborators of the dependency methods of `app.go` beyond `Collab`: the SQL
statements on the dependency tables and the decryption helper. -/
structure DepCollab (σ : Type) where
  /-- `DbMap.Exec("delete from deps where env=? and app=?", env, app)`. -/
  DbDeleteDeps : String → String → σ → Option Error × σ
  /-- `DbMap.SelectOne(&dep, "select * from deps where env=? and app=?", env, app)`. -/
  DbSelectDep : String → String → σ → (EnvDepData × Option Error) × σ
  /-- `crypto.DecryptDependerEnvData(ded)`: rewrites the record in place. -/
  DecryptDependerEnvData : DependerEnvData → DependerEnvData
  /-- The ID that `DbMap.Insert(&dep)` wrote into `dep`, read off the state after it. -/
  insertedDepID : σ → Int
  /-- `DbMap.Insert(&appDep)`. -/
  DbInsertAppDep : AppDepData → σ → Option Error × σ

/-- Method `(za *ZkApp) RemoveDependerEnvData(env)`. Returns the receiver as it stands
after the call, with the error. -/
def ZkApp.RemoveDependerEnvData (c : Collab σ) (d : DepCollab σ) (za : ZkApp) (env : String)
    (s : σ) : (ZkApp × Option Error) × σ :=
  let za1 : ZkApp :=
    if za.DependerEnvData.isNone then { za with DependerEnvData := some [] } else za
  let za2 : ZkApp :=
    { za1 with DependerEnvData := some (GoMap.delete (za1.DependerEnvData.getD []) env) }
  match za2.Save c (d.DbDeleteDeps env za2.Name s).2 with
  | (err, s2) => ((za2, err), s2)

/-- Method `(za *ZkApp) GetDependerEnvData(env, decrypt)`. Returns the receiver as it
stands after the call and the record found (`none` for nil); a decryption rewrites the
record of the map in place. -/
def ZkApp.GetDependerEnvData (c : Collab σ) (d : DepCollab σ) (za : ZkApp) (env : String)
    (decrypt : Bool) (s : σ) : (ZkApp × Option Datamodel.DependerEnvData) × σ :=
  let r1 : ZkApp × σ :=
    if za.DependerEnvData.isNone then
      let za1 := { za with DependerEnvData := some [] }
      (za1, (za1.Save c s).2)
    else (za, s)
  match GoMap.get (r1.1.DependerEnvData.getD []) env with
  | none => ((r1.1, none), r1.2)
  | some ded =>
    let ded1 := if decrypt then d.DecryptDependerEnvData ded else ded
    let za2 : ZkApp :=
      { r1.1 with
        DependerEnvData :=
          some ((r1.1.DependerEnvData.getD []).map
            (fun e => if e.1 == env then (e.1, ded1) else e)) }
    ((za2, some ded1), (d.DbSelectDep env za2.Name r1.2).2)

/-- The loop of `AddDependerAppData` over `data.DependerEnvData`: check the env of each
record and encrypt the record in place; stops at the first env that is not found. The
entries are visited in the order of the association list. -/
def ZkApp.AddDependerAppData.encryptEnvs (c : Collab σ) :
    List (String × Datamodel.DependerEnvData) → σ →
      (List (String × Datamodel.DependerEnvData) × Option Error) × σ
  | [], s => (([], none), s)
  | (k, ded) :: rest, s =>
    match c.GetEnv ded.Name s with
    | (some err, s1) => (((k, ded) :: rest, some err), s1)
    | (none, s1) =>
      match ZkApp.AddDependerAppData.encryptEnvs c rest s1 with
      | ((rest1, err), s2) => (((k, c.EncryptDependerEnvData ded) :: rest1, err), s2)

/-- Method `(za *ZkApp) AddDependerAppData(data)`. Returns the receiver and the record
`data` points to as they stand when the call ends, with the error, or with the panic
of the nil dereference `data.DependerEnvData[data.Name].SecurityGroup`. -/
def ZkApp.AddDependerAppData (c : Collab σ) (d : DepCollab σ) (za : ZkApp)
    (data : Datamodel.DependerAppData) (s : σ) :
    (ZkApp × Datamodel.DependerAppData × Except Panic (Option Error)) × σ :=
  let za1 : ZkApp :=
    if za.DependerAppData.isNone then { za with DependerAppData := some [] } else za
  match GetApp c data.Name s with
  | ((_, some err), s1) => ((za1, data, .ok (some err)), s1)
  | ((_, none), s1) =>
    match ZkApp.AddDependerAppData.encryptEnvs c (data.DependerEnvData.getD []) s1 with
    | ((envs1, some err), s2) =>
      ((za1, { data with DependerEnvData := data.DependerEnvData.map (fun _ => envs1) },
        .ok (some err)), s2)
    | ((envs1, none), s2) =>
      let data1 : Datamodel.DependerAppData :=
        { data with DependerEnvData := data.DependerEnvData.map (fun _ => envs1) }
      let za2 : ZkApp :=
        { za1 with
          DependerAppData := some (GoMap.set (za1.DependerAppData.getD []) data1.Name data1) }
      match GoMap.get (data1.DependerEnvData.getD []) data1.Name with
      | none => ((za2, data1, .error .nilDereference), s2)
      | some ded =>
        let secGroupStr := c.marshalSecurityGroup ded.SecurityGroup
        let mapData := c.marshalDataMap ded.DataMap
        let encDataStr := c.Encrypt mapData
        let dep : EnvDepData :=
          { ID := 0, Enviroment := ded.Name, SecGroup := secGroupStr, DataMap := mapData,
            EncryptedData := encDataStr, App := "", Instance := "" }
        let s3 := (c.DbInsertDep dep s2).2
        let appDep : AppDepData :=
          { ID := 0, DepApp := data1.Name, EnvDepDataId := d.insertedDepID s3, App := za2.Name }
        let s4 := (d.DbInsertAppDep appDep s3).2
        match za2.Save c s4 with
        | (err, s5) => ((za2, data1, .ok err), s5)

/-- Modelled from the spec: the SQL shadow store of the dependency data over a `World`
(an external collaborator): the rows of the dependency table are kept, rows of the
app-dependency table are not, and decryption is left as the identity, like encryption. -/
def World.depCollab : DepCollab World where
  DbDeleteDeps := fun env app w =>
    (none, { w with deps := w.deps.filter (fun r => !(r.Enviroment == env && r.App == app)) })
  DbSelectDep := fun env app w =>
    match w.deps.find? (fun r => r.Enviroment == env && r.App == app) with
    | some r => ((r, none), w)
    | none => ((⟨0, "", "", "", "", "", ""⟩, some "sql: no rows in result set"), w)
  DecryptDependerEnvData := fun r => r
  insertedDepID := fun w => w.deps.length
  DbInsertAppDep := fun _ w => (none, w)

end Datamodel

/-! ## rpc: the items a listing selects before sorting -/

namespace Rpc

variable {σ : Type}

/-- Reading of "the items selected before sorting" for `ListContainersExecutor`: with
all three fields empty, the whole listing for a super user and what the filter loop
keeps otherwise; else the instances of the app, sha and env. -/
def ListContainersExecutor.selected (c : Collab σ) (arg : ManagerListContainersArg) (s : σ) :
    List String :=
  if arg.App = "" ∧ arg.Sha = "" ∧ arg.Env = "" then
    match c.AuthorizeSuperUser arg.ManagerAuthArg (c.ListAllInstances s).2 with
    | (none, _) => (c.ListAllInstances s).1.1
    | (some _, s2) =>
      (ListContainersExecutor.filterAllowed c
        (GetAllowedApps c arg.ManagerAuthArg arg.ManagerAuthArg.User s2).1
        (c.ListAllInstances s).1.1
        ([], (GetAllowedApps c arg.ManagerAuthArg arg.ManagerAuthArg.User s2).2)).1
  else (c.ListInstances arg.App arg.Sha arg.Env s).1.1

/-- Reading of "the items selected before sorting" for `ListEnvsExecutor`. -/
def ListEnvsExecutor.selected (c : Collab σ) (arg : ManagerListEnvsArg) (s : σ) : List String :=
  if arg.App = "" ∨ arg.Sha = "" then (c.ListEnvs s).1.1
  else (c.ListAppEnvs arg.App arg.Sha s).1.1

/-- Reading of "the items selected before sorting" for `ListAppsExecutor`: every listed
app for a super user, the allowed ones otherwise. -/
def ListAppsExecutor.selected (c : Collab σ) (arg : ManagerListAppsArg) (s : σ) : List String :=
  match c.AuthorizeSuperUser arg.ManagerAuthArg (c.ListApps s).2 with
  | (none, _) => (c.ListApps s).1.1
  | (some _, s2) =>
    (c.ListApps s).1.1.filter
      (fun app => allowed (GetAllowedApps c arg.ManagerAuthArg arg.ManagerAuthArg.User s2).1 app)

/-- Reading of "the items selected before sorting" for `ListAllowedAppsExecutor`: the
one item `all` when authorization is skipped, else the keys of the map of allowed apps
whose value is true. -/
def ListAllowedAppsExecutor.selected (c : Collab σ) (run : Run σ) (ldap : LdapConfig)
    (arg : ManagerListAllowedAppsArg) (s : σ) : List String :=
  if ldap.SkipAuthorization then ["all"]
  else
    let r := run _ "ListAllowedApps-IsSuperUser"
      (IsSuperUserExecutor.task c ldap ⟨arg.ManagerAuthArg⟩) ⟨false⟩ s
    let user :=
      if r.1.1.IsSuperUser = true ∧ arg.User ≠ "" then arg.User else arg.ManagerAuthArg.User
    ((GetAllowedApps c arg.ManagerAuthArg user r.2).1.filter (fun e => e.2)).map Prod.fst

end Rpc

/-! ## rpc/rpc.go: Init -/

namespace Rpc

variable {σ : Type}

/-- Go `strings.Split(s, sep)` for a separator of one character, on the characters of
`s`: the fields between the separators, one field more than there are separators. -/
def Split : List Char → Char → List (List Char)
  | [], _ => [[]]
  | c :: rest, sep =>
    if c = sep then [] :: Split rest sep
    else
      match Split rest sep with
      | [] => [[c]]
      | field :: fields => (c :: field) :: fields

/-- The package-level variables that `Init` assigns, with `Tracker.ResultDuration` of
atlantis/common. -/
structure InitGlobals where
  lAddr : String
  lPort : String
  CPUSharesIncrement : Nat
  MemoryLimitIncrement : Nat
  ResultDuration : Nat
  deriving DecidableEq, Repr

/-- Collaborators of `Init` whose code lives elsewhere. -/
structure InitCollab (σ : Type) where
  /-- `LoadEnvs()`. -/
  LoadEnvs : σ → Option Error × σ
  /-- `supervisor.Init(port)`. -/
  supervisorInit : String → σ → σ
  /-- `manager.Init(lPort)`. -/
  managerInit : String → σ → σ
  /-- The server set-up that ends in `tls.Listen("tcp", lAddr, config)`, whose error
  `Init` returns. -/
  tlsListen : String → σ → Option Error × σ

/-- Function `Init(listenAddr, supervisorPort, cpuIncr, memIncr, resDuration)`. Returns
the package-level variables as they stand when the call ends, with the error, or with
the panic of the index expression `strings.Split(lAddr, ":")[1]`. -/
def Init (ic : InitCollab σ) (listenAddr : String) (supervisorPort cpuIncr memIncr : Nat)
    (resDuration : Nat) (g : InitGlobals) (s : σ) :
    (InitGlobals × Except Panic (Option Error)) × σ :=
  match ic.LoadEnvs s with
  | (some err, s1) => ((g, .ok (some err)), s1)
  | (none, s1) =>
    let g1 : InitGlobals :=
      { g with CPUSharesIncrement := cpuIncr, MemoryLimitIncrement := memIncr,
               ResultDuration := resDuration, lAddr := listenAddr }
    match (Split g1.lAddr.data ':')[1]? with
    | none => ((g1, .error .indexOutOfRange), s1)
    | some port =>
      let g2 : InitGlobals := { g1 with lPort := String.mk port }
      let s2 := ic.supervisorInit (toString supervisorPort) s1
      let s3 := ic.managerInit g2.lPort s2
      match ic.tlsListen g2.lAddr s3 with
      | (err, s4) => ((g2, .ok err), s4)

/-- Collaborators of `Init` that record their calls, for concrete runs. -/
def InitCollab.recording : InitCollab (List String) where
  LoadEnvs := fun log => (none, log ++ ["LoadEnvs"])
  supervisorInit := fun port log => log ++ ["supervisor.Init " ++ port]
  managerInit := fun port log => log ++ ["manager.Init " ++ port]
  tlsListen := fun addr log => (none, log ++ ["tls.Listen " ++ addr])

end Rpc

/-! # Theorems -/

namespace Datamodel

variable {σ : Type}

/-- When the record read from the coordination store has both dependency maps, the
first half of `GetApp` performs the read only. -/
theorem GetApp.readZk_of_maps (c : Collab σ) (name : String) (s : σ)
    (he : (c.getJson (c.GetBaseAppPath name) ZkApp.zero s).1.1.DependerEnvData.isSome)
    (ha : (c.getJson (c.GetBaseAppPath name) ZkApp.zero s).1.1.DependerAppData.isSome) :
    GetApp.readZk c name s =
      ((c.getJson (c.GetBaseAppPath name) ZkApp.zero s).1.1,
        (c.getJson (c.GetBaseAppPath name) ZkApp.zero s).2) := by
  unfold GetApp.readZk
  rcases hj : c.getJson (c.GetBaseAppPath name) ZkApp.zero s with ⟨⟨za, e⟩, s1⟩
  rw [hj] at he ha
  simp only at he ha
  have he1 : za.DependerEnvData.isNone = false := by
    cases h : za.DependerEnvData <;> simp_all
  have ha1 : za.DependerAppData.isNone = false := by
    cases h : za.DependerAppData <;> simp_all
  simp [he1, ha1]

/-- The state in which `GetApp` ends is the state its SQL lookup returns. -/
theorem GetApp_state (c : Collab σ) (name : String) (s : σ) :
    (GetApp c name s).2 = (c.DbGet name (GetApp.readZk c name s).2).2 := by
  unfold GetApp
  rcases hr : GetApp.readZk c name s with ⟨za, s3⟩
  rcases hd : c.DbGet name s3 with ⟨⟨obj, e⟩, s4⟩
  cases obj <;> cases e <;> simp [hd]

/-- C1 (as amended): for an existing app (`GetApp` succeeds with record `za0`), a call
of `CreateOrUpdateApp` whose `internal` or `nonAtlantis` flag differs from the flag of
`za0` returns a non-nil error and performs no `Save` of its own: the state it ends in
is the state `s1` in which the `GetApp` lookup ended. When the record read from the
coordination store has both dependency maps (so that `GetApp` saves nothing either),
`s1` is the state after the two reads `getJson` and `DbMap.Get`. -/
theorem CreateOrUpdateApp_flag_change_rejected (c : Collab σ) (nonAtlantis internal : Bool)
    (name repo root email : String) (s s1 : σ) (za0 : ZkApp)
    (hget : GetApp c name s = ((some za0, none), s1))
    (hflag : za0.Internal ≠ internal ∨ za0.NonAtlantis ≠ nonAtlantis) :
    (∃ err, CreateOrUpdateApp c nonAtlantis internal name repo root email s =
      (.ok ({ za0 with Name := name, Repo := repo, Root := root, Email := email }, some err),
        s1)) ∧
    ((c.getJson (c.GetBaseAppPath name) ZkApp.zero s).1.1.DependerEnvData.isSome →
      (c.getJson (c.GetBaseAppPath name) ZkApp.zero s).1.1.DependerAppData.isSome →
      s1 = (c.DbGet name (c.getJson (c.GetBaseAppPath name) ZkApp.zero s).2).2) := by
  constructor
  · unfold CreateOrUpdateApp
    rw [hget]
    by_cases hi : za0.Internal = internal
    · have hn : za0.NonAtlantis ≠ nonAtlantis := by
        rcases hflag with h | h
        · exact absurd hi h
        · exact h
      simp [hi, hn]
    · simp [hi]
  · intro he ha
    have h1 := GetApp_state c name s
    rw [hget, GetApp.readZk_of_maps c name s he ha] at h1
    exact h1

/-- Witness for C1 (as amended): on the sample store, registering `a` again as an
internal app is refused and the store is left as it was. -/
theorem CreateOrUpdateApp_flag_change_rejected_witness :
    GetApp World.collab "a" World.sample =
      ((some ⟨false, false, "a", "e1", "r1", "/1", some [], some []⟩, none), World.sample) ∧
    (∃ err, CreateOrUpdateApp World.collab false true "a" "r2" "/2" "e2" World.sample =
      (.ok (⟨false, false, "a", "e2", "r2", "/2", some [], some []⟩, some err),
        World.sample)) :=
  ⟨by decide,
   (CreateOrUpdateApp_flag_change_rejected World.collab false true "a" "r2" "/2" "e2"
      World.sample World.sample ⟨false, false, "a", "e1", "r1", "/1", some [], some []⟩
      (by decide) (Or.inl (by decide))).1⟩

/-- C1, counterexample to the claim as stated: in the store `World.legacy` app `a`
exists (`GetApp` succeeds) with `Internal = false`, both in its coordination-store
record and in its SQL row. `CreateOrUpdateApp` with `internal = true` returns an error,
yet `Save` has run inside `GetApp`: the stored SQL row has changed from
`(e1, r1, /1)` to `(e0, r0, /0)` and the coordination-store record was rewritten. -/
theorem CreateOrUpdateApp_flag_change_counterexample :
    (GetApp World.collab "a" World.legacy).1 =
      (some ⟨false, false, "a", "e0", "r0", "/0", some [], some []⟩, none) ∧
    World.legacy.apps = [⟨"a", false, false, "e1", "r1", "/1"⟩] ∧
    (CreateOrUpdateApp World.collab false true "a" "r2" "/2" "e2" World.legacy).1 =
      .ok (⟨false, false, "a", "e2", "r2", "/2", some [], some []⟩,
        some ("apps may not change from internal to external (and visa versa). " ++
          "please unregister and reregister.")) ∧
    (CreateOrUpdateApp World.collab false true "a" "r2" "/2" "e2" World.legacy).2.apps =
      [⟨"a", false, false, "e0", "r0", "/0"⟩] ∧
    (CreateOrUpdateApp World.collab false true "a" "r2" "/2" "e2" World.legacy).2 ≠
      World.legacy := by
  refine ⟨by decide, by decide, by rfl, by decide, by decide⟩

/-- C2: for a record with `NonAtlantis = false`, `Delete` first calls
`ReclaimRouterPortsForApp(za.Internal, za.Name)`; if that fails, `Delete` returns the
same error in the state the reclaim left (neither the SQL delete nor the recursive
delete of the coordination-store record has run); if it succeeds, the SQL delete and
the recursive delete follow, in that order. For `NonAtlantis = true` the two deletes run
from the initial state and the result does not depend on the reclaim operation at all. -/
theorem Delete_reclaims_first (c : Collab σ) (za : ZkApp) (s : σ) :
    (za.NonAtlantis = false →
      (∀ err s1, c.ReclaimRouterPortsForApp za.Internal za.Name s = (some err, s1) →
        za.Delete c s = (some err, s1)) ∧
      (∀ s1, c.ReclaimRouterPortsForApp za.Internal za.Name s = (none, s1) →
        za.Delete c s =
          c.RecursiveDelete (c.GetBaseAppPath za.Name)
            (c.DbDelete ⟨za.Name, false, false, "", "", ""⟩ s1).2)) ∧
    (za.NonAtlantis = true →
      za.Delete c s =
        c.RecursiveDelete (c.GetBaseAppPath za.Name)
          (c.DbDelete ⟨za.Name, false, false, "", "", ""⟩ s).2 ∧
      ∀ reclaim : Bool → String → σ → Option Error × σ,
        za.Delete { c with ReclaimRouterPortsForApp := reclaim } s = za.Delete c s) := by
  refine ⟨fun hna => ⟨fun err s1 h => ?_, fun s1 h => ?_⟩, fun hna => ⟨?_, fun reclaim => ?_⟩⟩
  · simp [ZkApp.Delete, hna, h]
  · simp [ZkApp.Delete, hna, h, ZkApp.path]
  · simp [ZkApp.Delete, hna, ZkApp.path]
  · simp [ZkApp.Delete, hna, ZkApp.path]

/-- Witness for C2: with the coordination store unreachable the reclaim for app `a`
fails; `Delete` returns that error and both the SQL row and the coordination-store
record of `a` are still there. -/
theorem Delete_reclaims_first_witness :
    World.collab.ReclaimRouterPortsForApp false "a" World.down =
      (some "ConnectionError", World.down) ∧
    ZkApp.Delete World.collab ⟨false, false, "a", "e1", "r1", "/1", some [], some []⟩
      World.down = (some "ConnectionError", World.down) :=
  ⟨by decide,
   ((Delete_reclaims_first World.collab
      ⟨false, false, "a", "e1", "r1", "/1", some [], some []⟩ World.down).1 rfl).1
      "ConnectionError" World.down (by decide)⟩

/-- C3: if `GetEnv(data.Name)` fails, `AddDependerEnvData(data)` returns that error,
the entries of `za.DependerEnvData` are those it had (a nil map has become the empty
map), `data` is untouched and the state is the one `GetEnv` left (no SQL insert, no
`Save`). If `GetEnv` succeeds, then after the call `za.DependerEnvData[data.Name]` is
the record `data` points to, whatever `Save` returns. -/
theorem AddDependerEnvData_checks_env (c : Collab σ) (za : ZkApp)
    (data : Datamodel.DependerEnvData) (s : σ) :
    (∀ err s1, c.GetEnv data.Name s = (some err, s1) →
      za.AddDependerEnvData c data s =
        (({ za with DependerEnvData := some (za.DependerEnvData.getD []) }, data, some err),
          s1)) ∧
    (∀ s1, c.GetEnv data.Name s = (none, s1) →
      (za.AddDependerEnvData c data s).1.2.1 = c.EncryptDependerEnvData data ∧
      (za.AddDependerEnvData c data s).1.1.DependerEnvData.bind
          (fun m => GoMap.get m (za.AddDependerEnvData c data s).1.2.1.Name) =
        some (za.AddDependerEnvData c data s).1.2.1) := by
  refine ⟨fun err s1 h => ?_, fun s1 h => ?_⟩
  · cases za with
    | mk na i n e r ro envData appData =>
      cases envData <;> simp [ZkApp.AddDependerEnvData, h]
  · simp [ZkApp.AddDependerEnvData, h, GoMap.get, GoMap.set]

/-- Witness for C3: on the sample store the environment `prod` exists and `staging`
does not. Adding a dependency entry for `staging` fails with the error of `GetEnv`
and leaves record and store as they were; adding one for `prod` stores the entry. -/
theorem AddDependerEnvData_checks_env_witness :
    World.collab.GetEnv "staging" World.sample = (some "NotFound", World.sample) ∧
    ZkApp.AddDependerEnvData World.collab
        ⟨false, false, "a", "e1", "r1", "/1", some [], some []⟩ ⟨"staging", [], "", []⟩
        World.sample =
      ((⟨false, false, "a", "e1", "r1", "/1", some [], some []⟩, ⟨"staging", [], "", []⟩,
        some "NotFound"), World.sample) ∧
    World.collab.GetEnv "prod" World.sample = (none, World.sample) ∧
    (ZkApp.AddDependerEnvData World.collab
        ⟨false, false, "a", "e1", "r1", "/1", some [], some []⟩ ⟨"prod", [], "", []⟩
        World.sample).1.1.DependerEnvData = some [("prod", ⟨"prod", [], "", []⟩)] :=
  ⟨by decide,
   (AddDependerEnvData_checks_env World.collab
      ⟨false, false, "a", "e1", "r1", "/1", some [], some []⟩ ⟨"staging", [], "", []⟩
      World.sample).1 "NotFound" World.sample (by decide),
   by decide, by decide⟩

end Datamodel

/-! ## Strings: occurrence -/

/-- A string occurs in whatever is built around it. -/
theorem Contains.of_append (a b d : String) : Contains (a ++ b ++ d) b := by
  unfold Contains
  exact ⟨a.data, d.data, by simp [String.data_append]⟩

/-- A string occurs in itself. -/
theorem Contains.refl (a : String) : Contains a a := List.infix_refl a.data

/-- Occurrence in a part is occurrence in the whole. -/
theorem Contains.append_left (a b sub : String) (h : Contains a sub) :
    Contains (a ++ b) sub := by
  unfold Contains at *
  rw [String.data_append]
  exact List.IsInfix.trans h (List.infix_append' [] a.data b.data)

/-- Occurrence in a part is occurrence in the whole. -/
theorem Contains.append_right (a b sub : String) (h : Contains b sub) :
    Contains (a ++ b) sub := by
  unfold Contains at *
  rw [String.data_append]
  exact List.IsInfix.trans h (List.suffix_append a.data b.data).isInfix

/-! ## Sprintf on a format without directives in its prefix -/

/-- Characters other than `%` are copied to the output. -/
theorem Sprintf.go_plain (pre rest : List Char) (args : List FmtArg) (h : '%' ∉ pre) :
    Sprintf.go (pre ++ rest) args = (Sprintf.go rest args).map (fun out => pre ++ out) := by
  induction pre with
  | nil => simp
  | cons ch cs ih =>
    have h1 : ch ≠ '%' := fun e => h (by simp [e])
    have h2 : '%' ∉ cs := fun e => h (by simp [e])
    rw [List.cons_append]
    conv_lhs => rw [Sprintf.go.eq_def]
    simp [h1, ih h2, Option.map_map, Function.comp_def]

/-- A format `"[" + user + tail` whose `user` holds no `%` and whose `tail` lies in the
modelled fragment prints a string in which `user` occurs. -/
theorem Sprintf_user (user tail : String) (args : List FmtArg) (h : '%' ∉ user.data)
    (ht : (Sprintf.go tail.data args).isSome) :
    Mentions (Sprintf ("[" ++ user ++ tail) args) user := by
  obtain ⟨out, hout⟩ := Option.isSome_iff_exists.mp ht
  refine ⟨String.mk ('[' :: user.data ++ out), ?_, ?_⟩
  · have h0 : '%' ∉ '[' :: user.data := by
      intro hm
      rcases List.mem_cons.mp hm with e | e
      · exact absurd e (by decide)
      · exact h e
    have := Sprintf.go_plain ('[' :: user.data) tail.data args h0
    simp only [Sprintf, String.data_append]
    show Option.map String.mk (Sprintf.go ('[' :: user.data ++ tail.data) args) = _
    rw [this, hout]
    rfl
  · exact ⟨['['], out, by simp⟩

namespace Rpc

variable {σ : Type}

/-- C4, the code evaluated: for every request and state, `Execute` of CreateTeam,
DeleteTeam, AddTeamEmail, RemoveTeamEmail, AddTeamAdmin, RemoveTeamAdmin and
AddTeamMember returns an error whose message contains "supported", leaving reply and
state untouched; `RemoveTeamMemberExecutor.Execute` also returns an error and touches
nothing, but its message is "Modify Team memeber is no longer supporte", in which the
text "supported" does not occur. -/
theorem team_write_executors_Execute (s : σ) (ta : ManagerTeamArg) (tr : ManagerTeamReply)
    (ea : ManagerEmailArg) (er : ManagerEmailReply) (aa : ManagerModifyTeamAdminArg)
    (ar : ManagerModifyTeamAdminReply) (ma : ManagerTeamMemberArg)
    (mr : ManagerTeamMemberReply) :
    (∃ msg, CreateTeamExecutor.Execute ta tr s = ((tr, some msg), s) ∧
      Contains msg "supported") ∧
    (∃ msg, DeleteTeamExecutor.Execute ta tr s = ((tr, some msg), s) ∧
      Contains msg "supported") ∧
    (∃ msg, AddTeamEmailExecutor.Execute ea er s = ((er, some msg), s) ∧
      Contains msg "supported") ∧
    (∃ msg, RemoveTeamEmailExecutor.Execute ea er s = ((er, some msg), s) ∧
      Contains msg "supported") ∧
    (∃ msg, AddTeamAdminExecutor.Execute aa ar s = ((ar, some msg), s) ∧
      Contains msg "supported") ∧
    (∃ msg, RemoveTeamAdminExecutor.Execute aa ar s = ((ar, some msg), s) ∧
      Contains msg "supported") ∧
    (∃ msg, AddTeamMemberExecutor.Execute ma mr s = ((mr, some msg), s) ∧
      Contains msg "supported") ∧
    (RemoveTeamMemberExecutor.Execute ma mr s =
        ((mr, some "Modify Team memeber is no longer supporte"), s) ∧
      ¬ Contains "Modify Team memeber is no longer supporte" "supported") := by
  refine ⟨⟨_, rfl, by decide⟩, ⟨_, rfl, by decide⟩, ⟨_, rfl, by decide⟩, ⟨_, rfl, by decide⟩,
    ⟨_, rfl, by decide⟩, ⟨_, rfl, by decide⟩, ⟨_, rfl, by decide⟩, rfl, by decide⟩

/-- C5, the code evaluated: for every action and argument, `ModifyTeamEmail` and
`ModifyTeamAdmin` return an error whose message contains "supported", while
`ModifyTeamMember` returns nil (success), in each case leaving reply and state
untouched. -/
theorem ModifyTeam_helpers (s : σ) (action : Int) (ea : ManagerEmailArg)
    (er : ManagerEmailReply) (aa : ManagerModifyTeamAdminArg)
    (ar : ManagerModifyTeamAdminReply) (ma : ManagerTeamMemberArg)
    (mr : ManagerTeamMemberReply) :
    (∃ msg, ModifyTeamEmail action ea er s = ((er, some msg), s) ∧
      Contains msg "no longer supported") ∧
    (∃ msg, ModifyTeamAdmin action aa ar s = ((ar, some msg), s) ∧
      Contains msg "no longer supported") ∧
    ModifyTeamMember action ma mr s = ((mr, none), s) := by
  refine ⟨⟨_, rfl, by decide⟩, ⟨_, rfl, by decide⟩, rfl⟩

/-! ## checkRole -/

/-- Lines of a concatenation. -/
theorem unlines_append (a b : List String) : unlines (a ++ b) = unlines a ++ unlines b := by
  induction a with
  | nil => simp [unlines]
  | cons n ns ih => simp [unlines, ih, String.append_assoc]

/-- Every name occurs in the lines built from a list holding it. -/
theorem Contains.unlines_of_mem (l : List String) (n : String) (h : n ∈ l) :
    Contains (unlines l) n := by
  induction l with
  | nil => simp at h
  | cons m ms ih =>
    rcases List.mem_cons.mp h with rfl | h1
    · have := Contains.of_append "" n ("\n" ++ unlines ms)
      simpa [unlines, String.append_assoc] using this
    · exact Contains.append_right _ _ _ (ih h1)

/-- With reads that leave the state alone, the inner loop of `checkRole` appends the
lines of the region's managers that are readable and have the role. -/
theorem checkRole.scanRegion_eq (c : Collab σ) (role rType region : String)
    (hread : ∀ r h t, (c.GetManager r h t).2 = t) (ms : List String) (acc : String) (s : σ) :
    checkRole.scanRegion c role rType region ms (acc, s) =
      (acc ++ unlines (ms.filterMap (checkRole.candidate c role rType s region)), s) := by
  induction ms generalizing acc with
  | nil => simp [checkRole.scanRegion, unlines]
  | cons m rest ih =>
    rcases hg : c.GetManager region m s with ⟨r, s1⟩
    have hs : s1 = s := by
      have := hread region m s
      rw [hg] at this
      exact this
    subst hs
    cases r with
    | error e => simp [checkRole.scanRegion, hg, ih, checkRole.candidate]
    | ok zm =>
      by_cases hr : c.HasRole zm role rType = true
      · simp [checkRole.scanRegion, hg, ih, checkRole.candidate, hr, unlines,
          String.append_assoc]
      · simp [checkRole.scanRegion, hg, ih, checkRole.candidate, hr]

/-- With reads that leave the state alone, the scan of `checkRole` appends the lines of
all listed managers that are readable and have the role. -/
theorem checkRole.scan_eq (c : Collab σ) (role rType : String)
    (hread : ∀ r h t, (c.GetManager r h t).2 = t) (managers : List (String × List String))
    (acc : String) (s : σ) :
    checkRole.scan c role rType managers (acc, s) =
      (acc ++ unlines (checkRole.managersWithRole c role rType s managers), s) := by
  induction managers generalizing acc with
  | nil => simp [checkRole.scan, checkRole.managersWithRole, unlines]
  | cons rm rest ih =>
    rcases rm with ⟨region, rManagers⟩
    simp [checkRole.scan, checkRole.managersWithRole, checkRole.scanRegion_eq c role rType
      region hread, ih, unlines_append, String.append_assoc]

/-- Membership in the reference list: the CNames of the listed managers whose record
is readable and has the role. -/
theorem checkRole.mem_managersWithRole (c : Collab σ) (role rType : String) (s : σ)
    (managers : List (String × List String)) (n : String) :
    n ∈ checkRole.managersWithRole c role rType s managers ↔
      ∃ region rManagers manager zm, (region, rManagers) ∈ managers ∧ manager ∈ rManagers ∧
        (c.GetManager region manager s).1 = .ok zm ∧ c.HasRole zm role rType = true ∧
        zm.ManagerCName = n := by
  induction managers with
  | nil => simp [checkRole.managersWithRole]
  | cons rm rest ih =>
    rcases rm with ⟨region, rManagers⟩
    simp only [checkRole.managersWithRole, List.mem_append, List.mem_filterMap, ih,
      List.mem_cons]
    constructor
    · rintro (⟨m, hm, hc⟩ | ⟨r, rs, m, zm, hmem, hm, hg, hr, hn⟩)
      · unfold checkRole.candidate at hc
        cases hg : (c.GetManager region m s).1 with
        | error e => simp [hg] at hc
        | ok zm =>
          by_cases hr : c.HasRole zm role rType = true
          · simp [hg, hr] at hc
            exact ⟨region, rManagers, m, zm, Or.inl rfl, hm, hg, hr, hc⟩
          · simp [hg, hr] at hc
      · exact ⟨r, rs, m, zm, Or.inr hmem, hm, hg, hr, hn⟩
    · rintro ⟨r, rs, m, zm, hmem | hmem, hm, hg, hr, hn⟩
      · left
        simp only [Prod.mk.injEq] at hmem
        obtain ⟨rfl, rfl⟩ := hmem
        exact ⟨m, hm, by simp [checkRole.candidate, hg, hr, hn]⟩
      · exact Or.inr ⟨r, rs, m, zm, hmem, hm, hg, hr, hn⟩

/-- C6: `checkRole(role, rType)` returns nil exactly when this manager's own record
can be read and has the role. When the record is readable (and reading a manager
record leaves the state alone) but lacks the role and the listing of managers
succeeds, the error message is the fixed sentence naming `rType` and `role` followed
by one line per listed manager whose record is readable and has the role, holding its
CName, and nothing else; so it contains `rType`, `role` and each of those CNames. -/
theorem checkRole_spec (c : Collab σ) (role rType : String) (s : σ) :
    ((checkRole c role rType s).1 = none ↔
      ∃ zm, (c.GetManager c.Region c.Host s).1 = .ok zm ∧ c.HasRole zm role rType = true) ∧
    ((∀ r h t, (c.GetManager r h t).2 = t) →
      ∀ zm s1 managers s2, c.GetManager c.Region c.Host s = (.ok zm, s1) →
        c.HasRole zm role rType = false → c.ListManagers s1 = (.ok managers, s2) →
        ∃ msg, checkRole c role rType s = (some msg, s2) ∧
          msg = "This manager does not have the ability to " ++ rType ++ " " ++ role ++
            ". Please try one of these:\n" ++
            unlines (checkRole.managersWithRole c role rType s2 managers) ∧
          Contains msg rType ∧ Contains msg role ∧
          (∀ n, n ∈ checkRole.managersWithRole c role rType s2 managers → Contains msg n) ∧
          (∀ n, n ∈ checkRole.managersWithRole c role rType s2 managers ↔
            ∃ region rManagers manager zm1, (region, rManagers) ∈ managers ∧
              manager ∈ rManagers ∧ (c.GetManager region manager s2).1 = .ok zm1 ∧
              c.HasRole zm1 role rType = true ∧ zm1.ManagerCName = n)) := by
  constructor
  · unfold checkRole
    rcases hg : c.GetManager c.Region c.Host s with ⟨r, s1⟩
    cases r with
    | error e => simp
    | ok zm =>
      by_cases hr : c.HasRole zm role rType = true
      · simp [hr]
      · have hr1 : c.HasRole zm role rType = false := by simpa using hr
        rcases hl : c.ListManagers s1 with ⟨l, s2⟩
        cases l with
        | error e => simp [hr1, hl]
        | ok managers => simp [hr1, hl]
  · intro hread zm s1 managers s2 hg hr hl
    refine ⟨_, ?_, rfl, ?_, ?_, ?_, ?_⟩
    · unfold checkRole
      simp [hg, hr, hl, checkRole.scan_eq c role rType hread, String.append_assoc]
    · exact Contains.append_left _ _ _ (Contains.append_left _ _ _
        (Contains.append_left _ _ _ (Contains.append_left _ _ _
          (Contains.append_right _ _ _ (Contains.refl rType)))))
    · exact Contains.append_left _ _ _ (Contains.append_left _ _ _
        (Contains.append_right _ _ _ (Contains.refl role)))
    · intro n hn
      exact Contains.append_right _ _ _ (Contains.unlines_of_mem _ n hn)
    · intro n
      exact checkRole.mem_managersWithRole c role rType s2 managers n

/-- Reading a manager record of a fleet leaves the fleet as it is. -/
theorem Fleet.collab_GetManager_state (region host r h : String) (f : Fleet) :
    ((Fleet.collab region host id).GetManager r h f).2 = f := by
  simp only [Fleet.collab]
  split
  · split <;> rfl
  · rfl

/-- Witness for C6: in the sample fleet manager `m1` lacks `permissions`/`write`; the
error lists `m2` and `m4`, not `m1` (no role) and not `m3` (no readable record). -/
theorem checkRole_spec_witness :
    (Fleet.collab "us-east-1" "m1" id).GetManager "us-east-1" "m1" Fleet.sample =
      (.ok ⟨"us-east-1", "m1", "m1.example.com", [("permissions", [("read", true)])]⟩,
        Fleet.sample) ∧
    checkRole (Fleet.collab "us-east-1" "m1" id) "permissions" "write" Fleet.sample =
      (some ("This manager does not have the ability to write permissions. " ++
        "Please try one of these:\nm2.example.com\nm4.example.com\n"), Fleet.sample) := by
  refine ⟨rfl, ?_⟩
  obtain ⟨msg, h1, h2, _⟩ :=
    (checkRole_spec (Fleet.collab "us-east-1" "m1" id) "permissions" "write" Fleet.sample).2
      (fun r h t => Fleet.collab_GetManager_state "us-east-1" "m1" r h t)
      ⟨"us-east-1", "m1", "m1.example.com", [("permissions", [("read", true)])]⟩
      Fleet.sample Fleet.sample.listing Fleet.sample rfl (by decide) rfl
  rw [h1, h2]
  decide

/-! ## Descriptions -/

/-- C7 (as amended): the description of every executor of `containers.go`, `ldap.go`
and `maintenance.go` other than Idle and the five team listers contains the acting
user: for every request where the description is built by concatenation
(GetContainer, ListShas, ListApps), and for every request whose acting user holds no
`%` where the user is spliced into a `Sprintf` format. Idle, ListTeams,
ListTeamEmails, ListTeamAdmins, ListTeamMembers and ListTeamApps return a fixed label. -/
theorem Description_mentions_user :
    (∀ arg : ManagerGetContainerArg,
      Contains (GetContainerExecutor.Description arg) arg.ManagerAuthArg.User) ∧
    (∀ arg : ManagerListShasArg,
      Contains (ListShasExecutor.Description arg) arg.ManagerAuthArg.User) ∧
    (∀ arg : ManagerListAppsArg,
      Contains (ListAppsExecutor.Description arg) arg.ManagerAuthArg.User) ∧
    (∀ auth : ManagerAuthArg, '%' ∉ auth.User.data →
      (∀ app sha env, Mentions (ListContainersExecutor.Description ⟨auth, app, sha, env⟩)
        auth.User) ∧
      (∀ app sha, Mentions (ListEnvsExecutor.Description ⟨auth, app, sha⟩) auth.User) ∧
      (∀ id m, Mentions (ContainerMaintenanceExecutor.Description ⟨auth, id, m⟩) auth.User) ∧
      (∀ user team, Mentions (CreateTeamExecutor.Description ⟨auth, user, team⟩) auth.User) ∧
      (∀ user team, Mentions (DeleteTeamExecutor.Description ⟨auth, user, team⟩) auth.User) ∧
      (∀ team email, Mentions (AddTeamEmailExecutor.Description ⟨auth, team, email⟩)
        auth.User) ∧
      (∀ team email, Mentions (RemoveTeamEmailExecutor.Description ⟨auth, team, email⟩)
        auth.User) ∧
      (∀ team user, Mentions (AddTeamAdminExecutor.Description ⟨auth, team, user⟩)
        auth.User) ∧
      (∀ team user, Mentions (RemoveTeamAdminExecutor.Description ⟨auth, team, user⟩)
        auth.User) ∧
      (∀ team user, Mentions (AddTeamMemberExecutor.Description ⟨auth, team, user⟩)
        auth.User) ∧
      (∀ team user, Mentions (RemoveTeamMemberExecutor.Description ⟨auth, team, user⟩)
        auth.User) ∧
      (∀ app team, Mentions (AllowAppExecutor.Description ⟨auth, app, team⟩) auth.User) ∧
      (∀ app team, Mentions (DisallowAppExecutor.Description ⟨auth, app, team⟩) auth.User) ∧
      (∀ app user, Mentions (IsAppAllowedExecutor.Description ⟨auth, app, user⟩)
        auth.User) ∧
      (∀ user, Mentions (ListAllowedAppsExecutor.Description ⟨auth, user⟩) auth.User) ∧
      (∀ team, Mentions (IsTeamAdminExecutor.Description ⟨auth, team⟩) auth.User) ∧
      Mentions (IsSuperUserExecutor.Description ⟨auth⟩) auth.User) ∧
    (∀ arg, IdleExecutor.Description arg = "Idle?") ∧
    (∀ arg, ListTeamsExecutor.Description arg = "ListTeams") ∧
    (∀ arg, ListTeamEmailsExecutor.Description arg = "ListTeamEmails") ∧
    (∀ arg, ListTeamAdminsExecutor.Description arg = "ListTeamAdmins") ∧
    (∀ arg, ListTeamMembersExecutor.Description arg = "ListTeamMembers") ∧
    (∀ arg, ListTeamAppsExecutor.Description arg = "ListTeamApps") := by
  refine ⟨fun arg => ?_, fun arg => ?_, fun arg => ?_, fun auth h => ?_,
    fun _ => rfl, fun _ => rfl, fun _ => rfl, fun _ => rfl, fun _ => rfl, fun _ => rfl⟩
  · exact Contains.append_left _ _ _ (Contains.of_append "[" _ "] ")
  · exact Contains.append_left _ _ _ (Contains.of_append "[" _ "] ")
  · exact Contains.of_append "[" _ "] ListApps"
  · refine ⟨fun app sha env => Sprintf_user _ _ _ h rfl, fun app sha => ?_,
      fun id m => Sprintf_user _ _ _ h rfl, fun user team => Sprintf_user _ _ _ h rfl,
      fun user team => Sprintf_user _ _ _ h rfl, fun team email => Sprintf_user _ _ _ h rfl,
      fun team email => Sprintf_user _ _ _ h rfl, fun team user => Sprintf_user _ _ _ h rfl,
      fun team user => Sprintf_user _ _ _ h rfl, fun team user => Sprintf_user _ _ _ h rfl,
      fun team user => Sprintf_user _ _ _ h rfl, fun app team => Sprintf_user _ _ _ h rfl,
      fun app team => Sprintf_user _ _ _ h rfl, fun app user => Sprintf_user _ _ _ h rfl,
      fun user => Sprintf_user _ _ _ h rfl, fun team => Sprintf_user _ _ _ h rfl,
      Sprintf_user _ _ _ h rfl⟩
    unfold ListEnvsExecutor.Description
    split
    · exact Sprintf_user _ _ _ h rfl
    · exact ⟨_, rfl, Contains.of_append "[" _ "] All"⟩

/-- Witness for C7 (as amended): the description of a CreateTeam request by `alice`. -/
theorem Description_mentions_user_witness :
    '%' ∉ "alice".data ∧
    Mentions (CreateTeamExecutor.Description ⟨⟨"alice", "pw"⟩, "bob", "ops"⟩) "alice" :=
  ⟨by decide, (Description_mentions_user.2.2.2.1 ⟨"alice", "pw"⟩ (by decide)).2.2.2.1 "bob" "ops"⟩

/-- C7, counterexample to the claim as stated: the description of a ListTeams request
by `alice` is "ListTeams", in which `alice` does not occur. -/
theorem Description_counterexample :
    ListTeamsExecutor.Description ⟨⟨"alice", "pw"⟩⟩ = "ListTeams" ∧
    ¬ Contains (ListTeamsExecutor.Description ⟨⟨"alice", "pw"⟩⟩) "alice" := by
  decide

/-- The acting user is part of the `Sprintf` format: a user holding `%` is read as a
directive. For the user `%%` the CreateTeam description is "[%] bob : ops", in which
`%%` does not occur. -/
theorem Description_percent_user :
    CreateTeamExecutor.Description ⟨⟨"%%", "pw"⟩, "bob", "ops"⟩ = some "[%] bob : ops" ∧
    ¬ Contains "[%] bob : ops" "%%" := by
  decide

/-! ## Reply status of the container executors -/

/-- Whatever the collaborators return, `ListAppsExecutor.Execute` returns nil and sets
the status to `StatusOk`. -/
theorem ListAppsExecutor.Execute_result (c : Collab σ) (arg : ManagerListAppsArg)
    (reply : ManagerListAppsReply) (s : σ) :
    (ListAppsExecutor.Execute c arg reply s).1.2 = none ∧
    (ListAppsExecutor.Execute c arg reply s).1.1.Status = StatusOk := by
  unfold ListAppsExecutor.Execute
  rcases hl : c.ListApps s with ⟨⟨apps, e⟩, s1⟩
  rcases ha : c.AuthorizeSuperUser arg.ManagerAuthArg s1 with ⟨err, s2⟩
  cases err <;> simp [ha]

/-- C8, the code evaluated: whatever `datamodel.ListApps()` returns, in particular
when it returns an error, `ListAppsExecutor.Execute` returns nil and sets
`reply.Status` to `StatusOk`, because the error of the listing is overwritten by the
result of `AuthorizeSuperUser` before it is looked at. On the sample fleet with the
coordination store down the listing fails with a connection error and `Execute`
answers with an empty list, status `StatusOk` and a nil error. -/
theorem ListAppsExecutor_Execute_swallows_error :
    (∀ (τ : Type) (c : Collab τ) (arg : ManagerListAppsArg) (reply : ManagerListAppsReply)
        (s : τ),
      (ListAppsExecutor.Execute c arg reply s).1.2 = none ∧
      (ListAppsExecutor.Execute c arg reply s).1.1.Status = StatusOk) ∧
    ((Fleet.collab "us-east-1" "m1" id).ListApps { Fleet.sample with up := false }).1 =
      ([], some "ConnectionError") ∧
    (ListAppsExecutor.Execute (Fleet.collab "us-east-1" "m1" id) ⟨⟨"alice", "pw"⟩⟩ ⟨[], ""⟩
      { Fleet.sample with up := false }).1 = (⟨[], StatusOk⟩, none) :=
  ⟨fun _ c arg reply s => ListAppsExecutor.Execute_result c arg reply s,
   by decide, by decide⟩

/-- C9 (as amended): for GetContainer, ListContainers, ListEnvs, ListShas and ListApps,
after `Execute` the reply status is `StatusOk` when `Execute` returned nil, and
`StatusError` when it returned an error that a collaborator reported. When the error
is an empty-field validation error (GetContainer with empty ContainerID, ListShas with
empty App, ListContainers with some but not all of App, Sha, Env empty), reply and
state are left as they were. ListEnvs and ListApps have no validation. -/
theorem Execute_status (c : Collab σ) (s : σ) :
    (∀ (arg : ManagerGetContainerArg) (reply : ManagerGetContainerReply),
      ((GetContainerExecutor.Execute c arg reply s).1.2 = none →
        (GetContainerExecutor.Execute c arg reply s).1.1.Status = StatusOk) ∧
      (arg.ContainerID ≠ "" → (GetContainerExecutor.Execute c arg reply s).1.2 ≠ none →
        (GetContainerExecutor.Execute c arg reply s).1.1.Status = StatusError) ∧
      (arg.ContainerID = "" →
        GetContainerExecutor.Execute c arg reply s =
          ((reply, some "Container ID is empty"), s))) ∧
    (∀ (arg : ManagerListContainersArg) (reply : ManagerListContainersReply),
      ((ListContainersExecutor.Execute c arg reply s).1.2 = none →
        (ListContainersExecutor.Execute c arg reply s).1.1.Status = StatusOk) ∧
      ((arg.App = "" ∧ arg.Sha = "" ∧ arg.Env = "") ∨
          (arg.App ≠ "" ∧ arg.Sha ≠ "" ∧ arg.Env ≠ "") →
        (ListContainersExecutor.Execute c arg reply s).1.2 ≠ none →
        (ListContainersExecutor.Execute c arg reply s).1.1.Status = StatusError) ∧
      (¬ (arg.App = "" ∧ arg.Sha = "" ∧ arg.Env = "") →
        (arg.App = "" ∨ arg.Sha = "" ∨ arg.Env = "") →
        ∃ err, err ∈ ["App is empty", "Sha is empty", "Environment is empty"] ∧
          ListContainersExecutor.Execute c arg reply s = ((reply, some err), s))) ∧
    (∀ (arg : ManagerListEnvsArg) (reply : ManagerListEnvsReply),
      ((ListEnvsExecutor.Execute c arg reply s).1.2 = none →
        (ListEnvsExecutor.Execute c arg reply s).1.1.Status = StatusOk) ∧
      ((ListEnvsExecutor.Execute c arg reply s).1.2 ≠ none →
        (ListEnvsExecutor.Execute c arg reply s).1.1.Status = StatusError)) ∧
    (∀ (arg : ManagerListShasArg) (reply : ManagerListShasReply),
      ((ListShasExecutor.Execute c arg reply s).1.2 = none →
        (ListShasExecutor.Execute c arg reply s).1.1.Status = StatusOk) ∧
      (arg.App ≠ "" → (ListShasExecutor.Execute c arg reply s).1.2 ≠ none →
        (ListShasExecutor.Execute c arg reply s).1.1.Status = StatusError) ∧
      (arg.App = "" →
        ListShasExecutor.Execute c arg reply s = ((reply, some "App is empty"), s))) ∧
    (∀ (arg : ManagerListAppsArg) (reply : ManagerListAppsReply),
      ((ListAppsExecutor.Execute c arg reply s).1.2 = none →
        (ListAppsExecutor.Execute c arg reply s).1.1.Status = StatusOk) ∧
      ((ListAppsExecutor.Execute c arg reply s).1.2 ≠ none →
        (ListAppsExecutor.Execute c arg reply s).1.1.Status = StatusError)) := by
  refine ⟨fun arg reply => ?_, fun arg reply => ?_, fun arg reply => ?_, fun arg reply => ?_,
    fun arg reply => ?_⟩
  · unfold GetContainerExecutor.Execute
    by_cases hid : arg.ContainerID = ""
    · simp [hid]
    · rcases hg : c.GetInstance arg.ContainerID s with ⟨r, s1⟩
      cases r with
      | error e => simp [hid]
      | ok inst =>
        rcases hs : c.supervisorGet inst.Host arg.ContainerID s1 with ⟨⟨ih, e⟩, s2⟩
        cases e <;> simp [hid, hs]
  · unfold ListContainersExecutor.Execute
    by_cases hall : arg.App = "" ∧ arg.Sha = "" ∧ arg.Env = ""
    · rw [if_pos hall]
      rcases hl : c.ListAllInstances s with ⟨⟨ids, e⟩, s1⟩
      cases e with
      | some err => simp [hall]
      | none =>
        rcases ha : c.AuthorizeSuperUser arg.ManagerAuthArg s1 with ⟨e2, s2⟩
        cases e2 <;> simp [hall, ha]
    · rw [if_neg hall]
      by_cases h1 : arg.App = ""
      · simp [h1]
        intro a b
        exact absurd ⟨h1, a, b⟩ hall
      · by_cases h2 : arg.Sha = ""
        · simp [hall, h1, h2]
        · by_cases h3 : arg.Env = ""
          · simp [hall, h1, h2, h3]
          · rcases hl : c.ListInstances arg.App arg.Sha arg.Env s with ⟨⟨ids, e⟩, s1⟩
            cases e <;> simp [hall, h1, h2, h3]
  · unfold ListEnvsExecutor.Execute
    by_cases h : arg.App = "" ∨ arg.Sha = ""
    · rcases hl : c.ListEnvs s with ⟨⟨envs, e⟩, s1⟩
      cases e <;> simp [h, hl]
    · rcases hl : c.ListAppEnvs arg.App arg.Sha s with ⟨⟨envs, e⟩, s1⟩
      cases e <;> simp [h, hl]
  · unfold ListShasExecutor.Execute
    by_cases h : arg.App = ""
    · simp [h]
    · rcases hl : c.ListShas arg.App s with ⟨⟨shas, e⟩, s1⟩
      cases e <;> simp [h]
  · exact ⟨fun _ => (ListAppsExecutor.Execute_result c arg reply s).2,
      fun h => absurd (ListAppsExecutor.Execute_result c arg reply s).1 h⟩

/-- Witness for C9 (as amended), on the sample fleet with a zero-valued reply:
GetContainer for the instance `c1` returns nil with status `StatusOk`; with the store
down it returns a connection error with status `StatusError`. -/
theorem Execute_status_witness :
    (GetContainerExecutor.Execute (Fleet.collab "us-east-1" "m1" id) ⟨⟨"alice", "pw"⟩, "c1"⟩
      ⟨none, ""⟩ Fleet.sample).1.2 = none ∧
    (GetContainerExecutor.Execute (Fleet.collab "us-east-1" "m1" id) ⟨⟨"alice", "pw"⟩, "c1"⟩
      ⟨none, ""⟩ Fleet.sample).1.1.Status = StatusOk ∧
    (GetContainerExecutor.Execute (Fleet.collab "us-east-1" "m1" id) ⟨⟨"alice", "pw"⟩, "c1"⟩
      ⟨none, ""⟩ { Fleet.sample with up := false }).1.2 = some "ConnectionError" ∧
    (GetContainerExecutor.Execute (Fleet.collab "us-east-1" "m1" id) ⟨⟨"alice", "pw"⟩, "c1"⟩
      ⟨none, ""⟩ { Fleet.sample with up := false }).1.1.Status = StatusError :=
  ⟨by decide,
   ((Execute_status (Fleet.collab "us-east-1" "m1" id) Fleet.sample).1
      ⟨⟨"alice", "pw"⟩, "c1"⟩ ⟨none, ""⟩).1 (by decide),
   by decide,
   ((Execute_status (Fleet.collab "us-east-1" "m1" id) { Fleet.sample with up := false }).1
      ⟨⟨"alice", "pw"⟩, "c1"⟩ ⟨none, ""⟩).2.1 (by decide) (by decide)⟩

/-- C9, counterexample to the claim as stated: GetContainer with an empty ContainerID,
started from the zero-valued reply, returns the error "Container ID is empty" and
leaves the status at the zero value `""`, which is not `StatusError`. -/
theorem Execute_status_counterexample :
    (GetContainerExecutor.Execute (Fleet.collab "us-east-1" "m1" id) ⟨⟨"alice", "pw"⟩, ""⟩
      ⟨none, ""⟩ Fleet.sample).1 = (⟨none, ""⟩, some "Container ID is empty") ∧
    (GetContainerExecutor.Execute (Fleet.collab "us-east-1" "m1" id) ⟨⟨"alice", "pw"⟩, ""⟩
      ⟨none, ""⟩ Fleet.sample).1.1.Status ≠ StatusError := by
  decide

/-! ## Validation before any collaborator -/

/-- C10: a request missing a required field is rejected with reply and state exactly
as they were, for every behaviour of the collaborators (so none of them was called):
GetContainer and ContainerMaintenance with an empty ContainerID, ListShas with an
empty App, ListContainers with some but not all of App, Sha, Env empty. -/
theorem validation_precedes_collaborators (c : Collab σ) (s : σ) :
    (∀ (arg : ManagerGetContainerArg) (reply : ManagerGetContainerReply),
      arg.ContainerID = "" →
      GetContainerExecutor.Execute c arg reply s =
        ((reply, some "Container ID is empty"), s)) ∧
    (∀ (arg : ManagerContainerMaintenanceArg) (reply : ManagerContainerMaintenanceReply),
      arg.ContainerID = "" →
      ContainerMaintenanceExecutor.Execute c arg reply s =
        ((reply, some "Please specify a container id."), s)) ∧
    (∀ (arg : ManagerListShasArg) (reply : ManagerListShasReply), arg.App = "" →
      ListShasExecutor.Execute c arg reply s = ((reply, some "App is empty"), s)) ∧
    (∀ (arg : ManagerListContainersArg) (reply : ManagerListContainersReply),
      (arg.App = "" ∨ arg.Sha = "" ∨ arg.Env = "") →
      ¬ (arg.App = "" ∧ arg.Sha = "" ∧ arg.Env = "") →
      ListContainersExecutor.Execute c arg reply s =
        ((reply, some (if arg.App = "" then "App is empty"
          else if arg.Sha = "" then "Sha is empty" else "Environment is empty")), s)) := by
  refine ⟨fun arg reply h => ?_, fun arg reply h => ?_, fun arg reply h => ?_,
    fun arg reply hsome hall => ?_⟩
  · simp [GetContainerExecutor.Execute, h]
  · simp [ContainerMaintenanceExecutor.Execute, h]
  · simp [ListShasExecutor.Execute, h]
  · unfold ListContainersExecutor.Execute
    rw [if_neg hall]
    by_cases h1 : arg.App = ""
    · simp [h1]
    · by_cases h2 : arg.Sha = ""
      · simp [h1, h2]
      · have h3 : arg.Env = "" := by
          rcases hsome with h | h | h
          · exact absurd h h1
          · exact absurd h h2
          · exact h
        simp [h1, h2, h3]

/-- Witness for C10, on the sample fleet with every collaborator call counted: a
ListContainers request with App set and Sha, Env empty is rejected with "Sha is
empty"; the reply is untouched and the call counter still reads zero. -/
theorem validation_precedes_collaborators_witness :
    ListContainersExecutor.Execute (Fleet.collab "us-east-1" "m1" Fleet.count)
        ⟨⟨"alice", "pw"⟩, "app", "", ""⟩ ⟨["old"], "OK"⟩ Fleet.sample =
      ((⟨["old"], "OK"⟩, some "Sha is empty"), Fleet.sample) ∧
    Fleet.sample.calls = 0 :=
  ⟨(validation_precedes_collaborators (Fleet.collab "us-east-1" "m1" Fleet.count)
      Fleet.sample).2.2.2 ⟨⟨"alice", "pw"⟩, "app", "", ""⟩ ⟨["old"], "OK"⟩
      (Or.inr (Or.inl rfl)) (by decide), rfl⟩

end Rpc

namespace Datamodel

/-! ## Save and the upsert -/

/-- C11, the code evaluated: `Save` on a record whose `Name` is empty first calls
`setJson` on the path of the empty name; if that write fails, `Save` returns the error
of the write, and if it succeeds `Save` returns "Trying to save app with no name"
after the record has been written to the coordination store (and after the SQL
lookup; no SQL insert or update follows). On the sample store the write adds a node at
`/atlantis/apps/`; with the store down the error is the connection error. -/
theorem Save_empty_name_writes_first :
    (∀ (τ : Type) (c : Collab τ) (za : ZkApp) (s : τ),
      ZkApp.Save c { za with Name := "" } s =
        match c.setJson (c.GetBaseAppPath "") { za with Name := "" } s with
        | (some err, s1) => (some err, s1)
        | (none, s1) => (some "Trying to save app with no name", (c.DbGet "" s1).2)) ∧
    ZkApp.Save World.collab ⟨false, false, "", "e", "r", "/", some [], some []⟩ World.sample =
      (some "Trying to save app with no name",
        { World.sample with
          zk := ("/atlantis/apps/", ⟨false, false, "", "e", "r", "/", some [], some []⟩) ::
            World.sample.zk }) ∧
    ZkApp.Save World.collab ⟨false, false, "", "e", "r", "/", some [], some []⟩ World.down =
      (some "ConnectionError", World.down) := by
  refine ⟨fun τ c za s => ?_, by decide, by decide⟩
  unfold ZkApp.Save ZkApp.path
  rcases c.setJson (c.GetBaseAppPath "") { za with Name := "" } s with ⟨e, s1⟩
  cases e <;> simp

/-- Two stores with the same fields are equal. -/
theorem World.eq_of_fields (a b : World) (h1 : a.zk = b.zk) (h2 : a.apps = b.apps)
    (h3 : a.deps = b.deps) (h4 : a.envs = b.envs) (h5 : a.reachable = b.reachable) :
    a = b := by
  cases a
  cases b
  simp_all

/-- A `Save` that returns nil ran on a reachable store, for a record with a name, and
left the store `World.saved`. -/
theorem World.Save_eq_none (za : ZkApp) (w w1 : World)
    (h : za.Save World.collab w = (none, w1)) :
    w.reachable = true ∧ za.Name ≠ "" ∧ w1 = World.saved za w := by
  unfold ZkApp.Save ZkApp.path at h
  simp only [World.collab] at h
  by_cases hr : w.reachable = true
  · by_cases hn : za.Name = ""
    · simp [hr, hn] at h
    · refine ⟨hr, hn, ?_⟩
      cases hf : w.apps.find? (fun a => a.Name == za.Name) with
      | none =>
        have hany : w.apps.any (fun a => a.Name == za.Name) = false := by
          rw [List.any_eq_false]
          intro a ha
          have := List.find?_eq_none.mp hf a ha
          simpa using this
        simp [hr, hn, hf, hany] at h
        simp [World.saved, hf, ← h, ZkApp.row, hr]
      | some r =>
        simp [hr, hn, hf] at h
        simp [World.saved, hf, ← h, ZkApp.row, hr]
  · simp [hr] at h

/-- On a reachable store `Save` of a named record returns nil and leaves `World.saved`. -/
theorem World.Save_of_reachable (za : ZkApp) (w : World) (hr : w.reachable = true)
    (hn : za.Name ≠ "") : za.Save World.collab w = (none, World.saved za w) := by
  unfold ZkApp.Save ZkApp.path
  simp only [World.collab]
  cases hf : w.apps.find? (fun a => a.Name == za.Name) with
  | none =>
    have hany : w.apps.any (fun a => a.Name == za.Name) = false := by
      rw [List.any_eq_false]
      intro a ha
      have := List.find?_eq_none.mp hf a ha
      simpa using this
    simp [hr, hn, hf, hany, World.saved, ZkApp.row]
  | some r => simp [hr, hn, hf, World.saved, ZkApp.row]

/-- Reading a key just written gives the value written. -/
theorem GoMap.get_set {V : Type} (m : GoMap V) (k : String) (v : V) :
    GoMap.get (GoMap.set m k v) k = some v := by
  simp [GoMap.get, GoMap.set]

/-- Writing the same value under the same key twice is writing it once. -/
theorem GoMap.set_set {V : Type} (m : GoMap V) (k : String) (v : V) :
    GoMap.set (GoMap.set m k v) k v = GoMap.set m k v := by
  simp [GoMap.set, GoMap.delete, List.filter_filter]

/-- After a save, the SQL lookup by name finds the row of the saved record. -/
theorem World.saved_find (za : ZkApp) (w : World) :
    (World.saved za w).apps.find? (fun a => a.Name == za.Name) = some za.row := by
  unfold World.saved
  cases hf : w.apps.find? (fun a => a.Name == za.Name) with
  | none =>
    simp only [Option.isSome_none, Bool.false_eq_true, ↓reduceIte]
    rw [List.find?_append, hf]
    simp [ZkApp.row]
  | some r =>
    simp only [Option.isSome_some, ↓reduceIte]
    have hr := List.find?_some hf
    have : ∀ l : List App, ∀ r, l.find? (fun a => a.Name == za.Name) = some r →
        (l.map (fun a => if a.Name == za.Name then za.row else a)).find?
          (fun a => a.Name == za.Name) = some za.row := by
      intro l
      induction l with
      | nil => simp
      | cons a as ih =>
        intro r h
        by_cases ha : a.Name = za.Name
        · simp [ha, ZkApp.row]
        · have hb : (a.Name == za.Name) = false := by simpa using ha
          rw [List.find?_cons, hb] at h
          rw [List.map_cons, List.find?_cons]
          simp only [hb, Bool.false_eq_true, ↓reduceIte]
          exact ih r h
    exact this w.apps r hf

/-- Saving the same record twice leaves the store of the first save. -/
theorem World.saved_saved (za : ZkApp) (w : World) :
    World.saved za (World.saved za w) = World.saved za w := by
  have hfind := World.saved_find za w
  have hzk : (World.saved za (World.saved za w)).zk = (World.saved za w).zk := by
    simp [World.saved, GoMap.set_set]
  have happs : (World.saved za (World.saved za w)).apps = (World.saved za w).apps := by
    show (if ((World.saved za w).apps.find? (fun a => a.Name == za.Name)).isSome then _ else _) = _
    rw [hfind]
    simp only [Option.isSome_some, ↓reduceIte]
    unfold World.saved
    cases hf : w.apps.find? (fun a => a.Name == za.Name) with
    | none =>
      simp only [Option.isSome_none, Bool.false_eq_true, ↓reduceIte, List.map_append]
      have hno : ∀ a ∈ w.apps, ¬ a.Name = za.Name := by
        intro a ha
        have := List.find?_eq_none.mp hf a ha
        simpa using this
      have : w.apps.map (fun a => if a.Name == za.Name then za.row else a) = w.apps := by
        conv_rhs => rw [← List.map_id w.apps]
        apply List.map_congr_left
        intro a ha
        simp [hno a ha]
      rw [this]
      simp [ZkApp.row]
    | some r =>
      simp only [Option.isSome_some, ↓reduceIte, List.map_map]
      apply List.map_congr_left
      intro a ha
      by_cases h : a.Name = za.Name <;> simp [h, ZkApp.row]
  exact World.eq_of_fields _ _ hzk happs rfl rfl rfl

/-- A record `GetApp` returns with a nil error has two empty dependency maps. -/
theorem GetApp_ok_maps {σ : Type} (c : Collab σ) (name : String) (s s1 : σ) (za0 : ZkApp)
    (h : GetApp c name s = ((some za0, none), s1)) :
    za0.DependerEnvData = some [] ∧ za0.DependerAppData = some [] := by
  unfold GetApp at h
  rcases hr : GetApp.readZk c name s with ⟨za, s3⟩
  rw [hr] at h
  rcases hd : c.DbGet name s3 with ⟨⟨obj, e⟩, s4⟩
  simp only [hd] at h
  cases obj <;> cases e <;> simp at h
  rcases h with ⟨h1, -⟩
  subst h1
  exact ⟨rfl, rfl⟩

/-- Right after a save of a record with empty dependency maps, `GetApp` returns that
record and changes nothing. -/
theorem World.GetApp_saved (za : ZkApp) (w : World) (hr : w.reachable = true)
    (he : za.DependerEnvData = some []) (ha : za.DependerAppData = some []) :
    GetApp World.collab za.Name (World.saved za w) = ((some za, none), World.saved za w) := by
  have hget : GoMap.get (World.saved za w).zk ("/atlantis/apps/" ++ za.Name) = some za := by
    simp [World.saved, GoMap.get_set]
  have hreach : (World.saved za w).reachable = true := hr
  have hjson : World.collab.getJson (World.collab.GetBaseAppPath za.Name) ZkApp.zero
      (World.saved za w) = ((za, none), World.saved za w) := by
    simp [World.collab, hreach, hget]
  have hread : GetApp.readZk World.collab za.Name (World.saved za w) =
      (za, World.saved za w) := by
    rw [GetApp.readZk_of_maps] <;> simp [hjson, he, ha]
  unfold GetApp
  rw [hread]
  have hdb : World.collab.DbGet za.Name (World.saved za w) =
      ((some za.row, none), World.saved za w) := by
    simp [World.collab, World.saved_find]
  simp only [hdb]
  cases za
  simp_all [ZkApp.row]

/-- C12: `CreateOrUpdateApp` is an idempotent upsert on a store that returns what was
last saved (`World.collab`). If a call succeeds (nil error) with record `za` and store
`w1`, then the name is non-empty, `za` carries exactly the arguments (with empty
dependency maps), and the same call repeated on `w1` succeeds again, returns the same
record and leaves the store `w1` unchanged. -/
theorem CreateOrUpdateApp_idempotent (nonAtlantis internal : Bool)
    (name repo root email : String) (w w1 : World) (za : ZkApp)
    (h : CreateOrUpdateApp World.collab nonAtlantis internal name repo root email w =
      (.ok (za, none), w1)) :
    name ≠ "" ∧
    za = ⟨nonAtlantis, internal, name, email, repo, root, some [], some []⟩ ∧
    CreateOrUpdateApp World.collab nonAtlantis internal name repo root email w1 =
      (.ok (za, none), w1) := by
  have key : ∀ (zb : ZkApp) (s1 : World),
      zb = ⟨nonAtlantis, internal, name, email, repo, root, some [], some []⟩ →
      zb.Save World.collab s1 = (none, w1) →
      name ≠ "" ∧
      CreateOrUpdateApp World.collab nonAtlantis internal name repo root email w1 =
        (.ok (zb, none), w1) := by
    intro zb s1 hzb hsave
    obtain ⟨hr, hn, hw1⟩ := World.Save_eq_none zb s1 w1 hsave
    have hname : zb.Name = name := by rw [hzb]
    have hg := World.GetApp_saved zb s1 hr (by rw [hzb]) (by rw [hzb])
    rw [← hw1, hname] at hg
    refine ⟨hname ▸ hn, ?_⟩
    unfold CreateOrUpdateApp
    rw [hg]
    have hs : zb.Save World.collab w1 = (none, w1) := by
      rw [World.Save_of_reachable zb w1 (by rw [hw1]; exact hr) hn, hw1, World.saved_saved]
    subst hzb
    simp only [ne_eq, not_true_eq_false, ↓reduceIte]
    rw [hs]
  unfold CreateOrUpdateApp at h
  rcases hg : GetApp World.collab name w with ⟨⟨o, e⟩, s1⟩
  rw [hg] at h
  cases e with
  | some err =>
    simp only at h
    rcases hs : ZkApp.Save World.collab
      ⟨nonAtlantis, internal, name, email, repo, root, some [], some []⟩ s1 with ⟨e2, s2⟩
    rw [hs] at h
    cases e2 with
    | some err2 => simp at h
    | none =>
      simp at h
      obtain ⟨hza, hw⟩ := h
      subst hw
      have := key _ s1 rfl hs
      exact ⟨this.1, hza.symm, hza ▸ this.2⟩
  | none =>
    cases o with
    | none => simp at h
    | some za0 =>
      obtain ⟨hme, hma⟩ := GetApp_ok_maps World.collab name w s1 za0 hg
      obtain ⟨na0, i0, n0, e0, r0, ro0, env0, app0⟩ := za0
      simp only at hme hma
      subst hme hma
      simp only at h
      by_cases hi : i0 = internal
      · by_cases hna : na0 = nonAtlantis
        · subst hi hna
          simp only [ne_eq, not_true_eq_false, ↓reduceIte] at h
          rcases hs : ZkApp.Save World.collab
            ⟨na0, i0, name, email, repo, root, some [], some []⟩ s1 with ⟨e2, s2⟩
          rw [hs] at h
          cases e2 with
          | some err2 => simp at h
          | none =>
            simp at h
            obtain ⟨hza, hw⟩ := h
            subst hw
            have := key _ s1 rfl hs
            exact ⟨this.1, hza.symm, hza ▸ this.2⟩
        · simp [hi, hna] at h
      · simp [hi] at h


/-- Witness for C12: registering app `b` on the sample store succeeds and leaves the
store `World.registered`; the repeated call returns the same record and the same store. -/
theorem CreateOrUpdateApp_idempotent_witness :
    CreateOrUpdateApp World.collab false true "b" "git://b" "/" "b@example.com" World.sample =
      (.ok (⟨false, true, "b", "b@example.com", "git://b", "/", some [], some []⟩, none),
        World.registered) ∧
    CreateOrUpdateApp World.collab false true "b" "git://b" "/" "b@example.com"
        World.registered =
      (.ok (⟨false, true, "b", "b@example.com", "git://b", "/", some [], some []⟩, none),
        World.registered) :=
  ⟨rfl, (CreateOrUpdateApp_idempotent false true "b" "git://b" "/" "b@example.com"
    World.sample World.registered _ rfl).2.2⟩

end Datamodel

namespace Rpc

variable {σ : Type}

/-! ## The idle check -/

/-- C19: for every argument `IdleExecutor.AllowDuringMaintenance` returns true and
`IdleExecutor.Authorize` returns nil without touching the state; `IdleExecutor.Execute`
returns nil with the reply status `StatusOk` and `reply.Idle` equal to `Tracker.Idle(t)`,
having called nothing but `Tracker.Idle`; and among the executor types of
`containers.go`, `ldap.go` and `maintenance.go` only `IdleExecutor` declares
`AllowDuringMaintenance`. -/
theorem IdleExecutor_spec (idle : Task → σ → Bool × σ) (t : Task) (arg : ManagerIdleArg)
    (reply : ManagerIdleReply) (s : σ) :
    IdleExecutor.AllowDuringMaintenance arg = true ∧
    IdleExecutor.Authorize arg s = (none, s) ∧
    IdleExecutor.Execute idle t arg reply s =
      ((⟨(idle t s).1, StatusOk⟩, none), (idle t s).2) ∧
    (∀ e : Executor, e.AllowDuringMaintenance ≠ none ↔ e = .Idle) ∧
    Executor.Idle.AllowDuringMaintenance = some true := by
  refine ⟨rfl, rfl, rfl, fun e => ?_, rfl⟩
  cases e <;> simp [Executor.AllowDuringMaintenance]

end Rpc

namespace Constant

/-! ## AppRegexp -/

/-- A run of class characters at the head of the input is a match there. -/
theorem AppRegexp.matchPrefix_isSome (c : Char) (cs : List Char) :
    (AppRegexp.matchPrefix (c :: cs)).isSome = AppRegexp.inClass c := by
  unfold AppRegexp.matchPrefix
  cases h : AppRegexp.inClass c <;> simp [List.takeWhile, h]

/-- The unanchored search succeeds exactly when some character is in the class. -/
theorem AppRegexp.find_isSome (s : List Char) :
    (AppRegexp.find s).isSome = s.any AppRegexp.inClass := by
  induction s with
  | nil => rfl
  | cons c cs ih =>
    have hp := AppRegexp.matchPrefix_isSome c cs
    unfold AppRegexp.find
    cases hm : AppRegexp.matchPrefix (c :: cs) with
    | some run =>
      rw [hm] at hp
      simp [← hp]
    | none =>
      rw [hm] at hp
      simp [← hp, ih]

/-- C20, the code evaluated: `AppRegexp` has no anchors, so a string matches as soon as
one of its characters is an ASCII letter, a digit or `-`. Every well-formed name
matches, but so do `a.b` and `svc.v1.prod`, which contain the separator `.`; only
strings without any class character (such as `...` or the empty string) are rejected. -/
theorem AppRegexp_matches_substring :
    (∀ s : String, AppRegexp.MatchString s = true ↔
      ∃ c, c ∈ s.data ∧ AppRegexp.inClass c = true) ∧
    (∀ s : String, AppRegexp.wellFormed s = true → AppRegexp.MatchString s = true) ∧
    AppRegexp.inClass '.' = false ∧
    AppRegexp.MatchString "a.b" = true ∧ AppRegexp.wellFormed "a.b" = false ∧
    AppRegexp.FindString "a.b" = "a" ∧
    AppRegexp.MatchString "svc.v1.prod" = true ∧
    AppRegexp.MatchString "..." = false ∧ AppRegexp.MatchString "" = false := by
  refine ⟨fun s => ?_, fun s h => ?_, by decide, by decide, by decide, by decide, by decide,
    by decide, by decide⟩
  · unfold AppRegexp.MatchString
    rw [AppRegexp.find_isSome]
    simp [List.any_eq_true]
  · unfold AppRegexp.MatchString
    rw [AppRegexp.find_isSome]
    unfold AppRegexp.wellFormed at h
    cases hd : s.data with
    | nil => simp [hd] at h
    | cons c cs =>
      simp [hd] at h
      simp [h.1]

end Constant

namespace Datamodel

/-! ## Router ports -/


/-- A port found for a pair is an entry of the table. -/
theorem portOf_some_mem (m : List ((String × String) × Nat)) (app env : String) (p : Nat)
    (h : portOf m app env = some p) : ((app, env), p) ∈ m := by
  unfold portOf at h
  cases hf : m.find? (fun e => e.1 == (app, env)) with
  | none => simp [hf] at h
  | some e =>
    simp [hf] at h
    have h1 := List.find?_some hf
    have h2 := List.mem_of_find?_eq_some hf
    simp at h1
    rcases e with ⟨k, q⟩
    simp at h h1
    subst h h1
    exact h2

/-- A pair has no port exactly when it is not a key of the table. -/
theorem portOf_none_iff (m : List ((String × String) × Nat)) (app env : String) :
    portOf m app env = none ↔ (app, env) ∉ m.map Prod.fst := by
  unfold portOf
  simp [List.find?_eq_none]
  constructor
  · intro h p hp
    exact h _ _ p hp rfl rfl
  · intro h a e p hp ha he
    subst ha he
    exact h p hp

/-- With one entry per pair, an entry of the table is what the lookup finds. -/
theorem portOf_of_mem (m : List ((String × String) × Nat)) (app env : String) (p : Nat)
    (hk : (m.map Prod.fst).Nodup) (h : ((app, env), p) ∈ m) : portOf m app env = some p := by
  cases hq : portOf m app env with
  | none =>
    have := (portOf_none_iff m app env).mp hq
    exact absurd (List.mem_map_of_mem Prod.fst h) this
  | some q =>
    have hm := portOf_some_mem m app env q hq
    have := List.inj_on_of_nodup_map hk hm h rfl
    simp at this
    rw [this]

/-- The port the scan returns lies in the range and is not assigned. -/
theorem lowestFree_some (min max : Nat) (m : List ((String × String) × Nat)) (p : Nat)
    (h : lowestFree min max m = some p) :
    min ≤ p ∧ p ≤ max ∧ p ∉ m.map Prod.snd := by
  unfold lowestFree at h
  have h1 := List.find?_some h
  have h2 := List.mem_of_find?_eq_some h
  rw [List.mem_range'_1] at h2
  simp at h1
  refine ⟨h2.1, by omega, ?_⟩
  simp
  intro a e hmem
  exact h1 a e p hmem rfl

/-- When the scan finds nothing, every port of the range is assigned. -/
theorem lowestFree_none (min max : Nat) (m : List ((String × String) × Nat))
    (h : lowestFree min max m = none) (p : Nat) (h1 : min ≤ p) (h2 : p ≤ max) :
    p ∈ m.map Prod.snd := by
  unfold lowestFree at h
  rw [List.find?_eq_none] at h
  have := h p (by rw [List.mem_range'_1]; omega)
  simp at this
  obtain ⟨a, e, hm⟩ := this
  exact List.mem_map.mpr ⟨((a, e), p), hm, rfl⟩

/-- A table with fewer entries than the range has ports leaves a port free. -/
theorem lowestFree_isSome (min max : Nat) (m : List ((String × String) × Nat))
    (hlen : m.length < max + 1 - min) :
    ∃ p, lowestFree min max m = some p := by
  cases h : lowestFree min max m with
  | some p => exact ⟨p, rfl⟩
  | none =>
    exfalso
    have hsub : List.range' min (max + 1 - min) ⊆ m.map Prod.snd := by
      intro p hp
      rw [List.mem_range'_1] at hp
      exact lowestFree_none min max m h p hp.1 (by omega)
    have hle := (List.subperm_of_subset (List.nodup_range' min (max + 1 - min)) hsub).length_le
    simp at hle
    omega

/-- A well-formed table with as many entries as the range has ports leaves none free. -/
theorem lowestFree_full (min max : Nat) (m : List ((String × String) × Nat))
    (hok : PortsOk min max m) (hlen : m.length = max + 1 - min) :
    lowestFree min max m = none := by
  cases h : lowestFree min max m with
  | none => rfl
  | some p =>
    exfalso
    obtain ⟨h1, h2, h3⟩ := lowestFree_some min max m p h
    have hsub : m.map Prod.snd ⊆ List.range' min (max + 1 - min) := by
      intro q hq
      obtain ⟨e, he, rfl⟩ := List.mem_map.mp hq
      have := hok.2.2 e he
      rw [List.mem_range'_1]
      omega
    have hsp := List.subperm_of_subset hok.2.1 hsub
    have hperm := hsp.perm_of_length_le (by simp [hlen])
    have : p ∈ List.range' min (max + 1 - min) := by
      rw [List.mem_range'_1]; omega
    exact h3 (hperm.symm.subset this)

/-- Adding a new pair with the port the scan returned keeps the table well-formed. -/
theorem PortsOk.append (min max : Nat) (m : List ((String × String) × Nat))
    (app env : String) (p : Nat) (hok : PortsOk min max m)
    (hk : portOf m app env = none) (hp : lowestFree min max m = some p) :
    PortsOk min max (m ++ [((app, env), p)]) := by
  obtain ⟨h1, h2, h3⟩ := lowestFree_some min max m p hp
  have hk1 := (portOf_none_iff m app env).mp hk
  refine ⟨?_, ?_, ?_⟩
  · rw [List.map_append, List.nodup_append]
    refine ⟨hok.1, by simp, ?_⟩
    intro k hk2 hk3
    simp at hk3
    subst hk3
    exact hk1 hk2
  · rw [List.map_append, List.nodup_append]
    refine ⟨hok.2.1, by simp, ?_⟩
    intro q hq2 hq3
    simp at hq3
    subst hq3
    exact h3 hq2
  · intro e he
    rcases List.mem_append.mp he with he | he
    · exact hok.2.2 e he
    · simp at he
      subst he
      exact ⟨h1, h2⟩

/-- Removing entries keeps the table well-formed. -/
theorem PortsOk.filter (min max : Nat) (m : List ((String × String) × Nat))
    (f : (String × String) × Nat → Bool) (hok : PortsOk min max m) :
    PortsOk min max (m.filter f) := by
  refine ⟨?_, ?_, ?_⟩
  · exact (List.filter_sublist m).map Prod.fst |>.nodup hok.1
  · exact (List.filter_sublist m).map Prod.snd |>.nodup hok.2.1
  · intro e he
    exact hok.2.2 e (List.mem_of_mem_filter he)

/-- The port tables after one of them is replaced. -/
theorem RouterPorts.ports_setPorts (st : RouterPorts) (scope scope1 : Bool)
    (m : List ((String × String) × Nat)) :
    (st.setPorts scope m).ports scope1 = if scope1 = scope then m else st.ports scope1 := by
  cases scope <;> cases scope1 <;> simp [RouterPorts.setPorts, RouterPorts.ports]

/-- Replacing tries leaves the port tables alone. -/
theorem RouterPorts.ports_setTries (st : RouterPorts) (scope scope1 : Bool)
    (t : List ((String × String) × List String)) :
    (st.setTries scope t).ports scope1 = st.ports scope1 := by
  cases scope <;> cases scope1 <;> simp [RouterPorts.setTries, RouterPorts.ports]

/-- Replacing a port table leaves the range alone. -/
theorem RouterPorts.range_setPorts (st : RouterPorts) (scope : Bool)
    (m : List ((String × String) × Nat)) :
    (st.setPorts scope m).MinRouterPort = st.MinRouterPort ∧
    (st.setPorts scope m).MaxRouterPort = st.MaxRouterPort := by
  cases scope <;> simp [RouterPorts.setPorts]

/-- Replacing tries leaves the range alone. -/
theorem RouterPorts.range_setTries (st : RouterPorts) (scope : Bool)
    (t : List ((String × String) × List String)) :
    (st.setTries scope t).MinRouterPort = st.MinRouterPort ∧
    (st.setTries scope t).MaxRouterPort = st.MaxRouterPort := by
  cases scope <;> simp [RouterPorts.setTries]


/-- A reservation keeps the store well-formed and its range unchanged. -/
theorem ReserveRouterPort_ok (scope : Bool) (app env : String) (st : RouterPorts)
    (hok : st.Ok) :
    (ReserveRouterPort scope app env st).2.Ok ∧
    (ReserveRouterPort scope app env st).2.MinRouterPort = st.MinRouterPort ∧
    (ReserveRouterPort scope app env st).2.MaxRouterPort = st.MaxRouterPort := by
  unfold ReserveRouterPort
  cases hk : portOf (st.ports scope) app env with
  | some p => exact ⟨hok, rfl, rfl⟩
  | none =>
    cases hp : lowestFree st.MinRouterPort st.MaxRouterPort (st.ports scope) with
    | none => exact ⟨hok, rfl, rfl⟩
    | some p =>
      simp only
      have hr := RouterPorts.range_setPorts st scope (st.ports scope ++ [((app, env), p)])
      refine ⟨?_, hr.1, hr.2⟩
      intro scope1
      rw [hr.1, hr.2, RouterPorts.ports_setPorts]
      by_cases hs : scope1 = scope
      · simp only [hs, ↓reduceIte]
        exact PortsOk.append _ _ _ app env p (hok scope) hk hp
      · simp only [hs, ↓reduceIte]
        exact hok scope1

/-- Removing entries of one scope keeps the store well-formed. -/
theorem Reclaim_ok (scope : Bool) (f : (String × String) × Nat → Bool) (st : RouterPorts)
    (hok : st.Ok) : (st.setPorts scope ((st.ports scope).filter f)).Ok := by
  intro scope1
  have hr := RouterPorts.range_setPorts st scope ((st.ports scope).filter f)
  rw [hr.1, hr.2, RouterPorts.ports_setPorts]
  by_cases hs : scope1 = scope
  · simp only [hs, ↓reduceIte]
    exact PortsOk.filter _ _ _ f (hok scope)
  · simp only [hs, ↓reduceIte]
    exact hok scope1

/-- A reservation with trie update keeps the store well-formed and its range unchanged. -/
theorem ReserveRouterPortAndUpdateTrie_ok (scope : Bool) (app sha env : String)
    (st : RouterPorts) (hok : st.Ok) :
    (ReserveRouterPortAndUpdateTrie scope app sha env st).2.Ok ∧
    (ReserveRouterPortAndUpdateTrie scope app sha env st).2.MinRouterPort =
      st.MinRouterPort ∧
    (ReserveRouterPortAndUpdateTrie scope app sha env st).2.MaxRouterPort =
      st.MaxRouterPort := by
  have h := ReserveRouterPort_ok scope app env st hok
  unfold ReserveRouterPortAndUpdateTrie
  rcases hr : ReserveRouterPort scope app env st with ⟨r, st1⟩
  rw [hr] at h
  cases r with
  | error e => exact h
  | ok pc =>
    rcases pc with ⟨port, created⟩
    simp only
    have hrange := RouterPorts.range_setTries st1 scope
      (((app, env), if (trieRules st1 scope app env).contains (CreatePoolName app sha env)
          then trieRules st1 scope app env
          else trieRules st1 scope app env ++ [CreatePoolName app sha env]) ::
        (st1.tries scope).filter (fun t => !(t.1 == (app, env))))
    refine ⟨?_, hrange.1.trans h.2.1, hrange.2.trans h.2.2⟩
    intro scope1
    rw [hrange.1, hrange.2, RouterPorts.ports_setTries]
    exact h.1 scope1

/-- Every operation keeps the store well-formed and its range unchanged. -/
theorem RouterOp.apply_ok (op : RouterOp) (st : RouterPorts) (hok : st.Ok) :
    (op.apply st).Ok ∧ (op.apply st).MinRouterPort = st.MinRouterPort ∧
    (op.apply st).MaxRouterPort = st.MaxRouterPort := by
  cases op with
  | reserve scope app env => exact ReserveRouterPort_ok scope app env st hok
  | reserveAndUpdateTrie scope app sha env =>
    exact ReserveRouterPortAndUpdateTrie_ok scope app sha env st hok
  | reclaimApp scope app =>
    exact ⟨Reclaim_ok scope _ st hok, (RouterPorts.range_setPorts st scope _).1,
      (RouterPorts.range_setPorts st scope _).2⟩
  | reclaimEnv scope env =>
    exact ⟨Reclaim_ok scope _ st hok, (RouterPorts.range_setPorts st scope _).1,
      (RouterPorts.range_setPorts st scope _).2⟩

/-- Every sequence of operations keeps the store well-formed and its range unchanged. -/
theorem RouterPorts.run_ok (ops : List RouterOp) (st : RouterPorts) (hok : st.Ok) :
    (st.run ops).Ok ∧ (st.run ops).MinRouterPort = st.MinRouterPort ∧
    (st.run ops).MaxRouterPort = st.MaxRouterPort := by
  induction ops generalizing st with
  | nil => exact ⟨hok, rfl, rfl⟩
  | cons op rest ih =>
    have h1 := RouterOp.apply_ok op st hok
    have h2 := ih (op.apply st) h1.1
    exact ⟨h2.1, h2.2.1.trans h1.2.1, h2.2.2.trans h1.2.2⟩

/-- The empty store is well-formed. -/
theorem RouterPorts.empty_ok (min max : Nat) : (RouterPorts.empty min max).Ok := by
  intro scope
  cases scope <;> simp [RouterPorts.empty, RouterPorts.ports, PortsOk]


/-- Lookup in a table extended by one entry at the end. -/
theorem portOf_append_single (m : List ((String × String) × Nat)) (app env : String) (p : Nat)
    (a e : String) :
    portOf (m ++ [((app, env), p)]) a e =
      match portOf m a e with
      | some q => some q
      | none => if (app, env) = (a, e) then some p else none := by
  unfold portOf
  rw [List.find?_append]
  cases hf : m.find? (fun x => x.1 == (a, e)) with
  | some x => simp
  | none =>
    by_cases hk : (app, env) = (a, e)
    · simp [hk]
    · simp [hk]

/-- After a successful reservation the pair holds the returned port; the reservation
reports `created` when the pair held none before. -/
theorem ReserveRouterPort_again (scope : Bool) (app env : String) (st st1 : RouterPorts)
    (p : Nat) (c : Bool) (h : ReserveRouterPort scope app env st = (.ok (p, c), st1)) :
    portOf (st1.ports scope) app env = some p ∧
    (HasRouterPortForAppEnv scope app env st = false → c = true) := by
  unfold ReserveRouterPort at h
  unfold HasRouterPortForAppEnv
  cases hk : portOf (st.ports scope) app env with
  | some q =>
    simp [hk] at h
    obtain ⟨⟨h1, h2⟩, h3⟩ := h
    subst h1 h3
    simp [hk]
  | none =>
    cases hp : lowestFree st.MinRouterPort st.MaxRouterPort (st.ports scope) with
    | none => simp [hk, hp] at h
    | some q =>
      simp [hk, hp] at h
      obtain ⟨⟨h1, h2⟩, h3⟩ := h
      subst h1 h3
      refine ⟨?_, fun _ => h2⟩
      rw [RouterPorts.ports_setPorts]
      simp [portOf_append_single, hk]

/-- Reserving for a pair that holds a port returns that port, `created = false`, and
changes nothing. -/
theorem ReserveRouterPort_of_port (scope : Bool) (app env : String) (st : RouterPorts)
    (p : Nat) (h : portOf (st.ports scope) app env = some p) :
    ReserveRouterPort scope app env st = (.ok (p, false), st) := by
  unfold ReserveRouterPort
  simp [h]

/-- C13: if a reservation for `(scope, app, env)` succeeds with port `p`, the same
reservation repeated right after returns `p` again with `created = false` and changes
nothing; and the first one reports `created = true` when the pair held no port before.
The same holds for `ReserveRouterPortAndUpdateTrie`, whatever sha the second call
names: same port, `created = false`. -/
theorem reserve_twice_same_port (scope : Bool) (app env : String) (st : RouterPorts) :
    (∀ p c st1, ReserveRouterPort scope app env st = (.ok (p, c), st1) →
      (HasRouterPortForAppEnv scope app env st = false → c = true) ∧
      ReserveRouterPort scope app env st1 = (.ok (p, false), st1)) ∧
    (∀ sha sha2 p c st1,
      ReserveRouterPortAndUpdateTrie scope app sha env st = (.ok (p, c), st1) →
      (HasRouterPortForAppEnv scope app env st = false → c = true) ∧
      ∃ st2, ReserveRouterPortAndUpdateTrie scope app sha2 env st1 = (.ok (p, false), st2)) := by
  constructor
  · intro p c st1 h
    obtain ⟨h1, h2⟩ := ReserveRouterPort_again scope app env st st1 p c h
    exact ⟨h2, ReserveRouterPort_of_port scope app env st1 p h1⟩
  · intro sha sha2 p c st1 h
    unfold ReserveRouterPortAndUpdateTrie at h
    rcases hr : ReserveRouterPort scope app env st with ⟨r, sta⟩
    rw [hr] at h
    cases r with
    | error e => simp at h
    | ok pc =>
      rcases pc with ⟨port, created⟩
      simp only [Prod.mk.injEq, Except.ok.injEq] at h
      obtain ⟨⟨hp, hc⟩, hst⟩ := h
      obtain ⟨h1, h2⟩ := ReserveRouterPort_again scope app env st sta port created hr
      have h3 : portOf (st1.ports scope) app env = some port := by
        rw [← hst, RouterPorts.ports_setTries]
        exact h1
      refine ⟨fun hno => hc ▸ h2 hno, ?_⟩
      unfold ReserveRouterPortAndUpdateTrie
      rw [ReserveRouterPort_of_port scope app env st1 port h3]
      simp only [hp]
      exact ⟨_, rfl⟩

/-- C14: in every store reached from the empty store with range `[min, max]` by
reservations and reclaims, every assigned port of a scope lies in `[min, max]` (every
entry of the table, and so the port of every pair that holds one, also when it is the
only one), and two different `(app, env)` pairs that hold a port in the same scope hold
different ports. -/
theorem ports_distinct_in_range (min max : Nat) (ops : List RouterOp) (scope : Bool) :
    (∀ e ∈ ((RouterPorts.empty min max).run ops).ports scope, min ≤ e.2 ∧ e.2 ≤ max) ∧
    (∀ app env p,
      portOf (((RouterPorts.empty min max).run ops).ports scope) app env = some p →
      min ≤ p ∧ p ≤ max) ∧
    (∀ app1 env1 app2 env2 p1 p2,
      portOf (((RouterPorts.empty min max).run ops).ports scope) app1 env1 = some p1 →
      portOf (((RouterPorts.empty min max).run ops).ports scope) app2 env2 = some p2 →
      (app1, env1) ≠ (app2, env2) → p1 ≠ p2) := by
  obtain ⟨hok, hmin, hmax⟩ := RouterPorts.run_ok ops _ (RouterPorts.empty_ok min max)
  have hs := hok scope
  rw [hmin, hmax] at hs
  have hmin0 : (RouterPorts.empty min max).MinRouterPort = min := rfl
  have hmax0 : (RouterPorts.empty min max).MaxRouterPort = max := rfl
  rw [hmin0, hmax0] at hs
  refine ⟨fun e he => hs.2.2 e he, ?_, ?_⟩
  · intro app env p h
    exact hs.2.2 _ (portOf_some_mem _ _ _ _ h)
  · intro app1 env1 app2 env2 p1 p2 h1 h2 hne hp
    have m1 := portOf_some_mem _ _ _ _ h1
    have m2 := portOf_some_mem _ _ _ _ h2
    subst hp
    have := List.inj_on_of_nodup_map hs.2.1 m1 m2 rfl
    simp at this
    exact hne (by simp [this.1, this.2])

/-- With a free port left, reserving for a pair without a port succeeds with `created`. -/
theorem ReserveRouterPort_fresh (scope : Bool) (app env : String) (st : RouterPorts)
    (hk : portOf (st.ports scope) app env = none)
    (hlen : (st.ports scope).length < st.MaxRouterPort + 1 - st.MinRouterPort) :
    ∃ p, ReserveRouterPort scope app env st =
      (.ok (p, true), st.setPorts scope (st.ports scope ++ [((app, env), p)])) := by
  obtain ⟨p, hp⟩ := lowestFree_isSome st.MinRouterPort st.MaxRouterPort (st.ports scope) hlen
  exact ⟨p, by simp [ReserveRouterPort, hk, hp]⟩

/-- With every port of the range assigned, reserving for a pair without a port fails. -/
theorem ReserveRouterPort_full (scope : Bool) (app env : String) (st : RouterPorts)
    (hok : st.Ok) (hk : portOf (st.ports scope) app env = none)
    (hlen : (st.ports scope).length = st.MaxRouterPort + 1 - st.MinRouterPort) :
    ReserveRouterPort scope app env st = (.error "CapacityExhausted", st) := by
  have hp := lowestFree_full st.MinRouterPort st.MaxRouterPort (st.ports scope) (hok scope) hlen
  simp [ReserveRouterPort, hk, hp]

/-- Reserving for distinct new pairs that fit into the range: each reservation succeeds
with `created`, and exactly these pairs hold a port in addition. -/
theorem reserveAll_fresh (scope : Bool) (keys : List (String × String)) (st : RouterPorts)
    (hok : st.Ok) (hnd : keys.Nodup)
    (hnew : ∀ k ∈ keys, portOf (st.ports scope) k.1 k.2 = none)
    (hlen : (st.ports scope).length + keys.length ≤ st.MaxRouterPort + 1 - st.MinRouterPort) :
    (∀ r ∈ (reserveAll scope keys st).1, ∃ p, r = .ok (p, true)) ∧
    (reserveAll scope keys st).1.length = keys.length ∧
    (reserveAll scope keys st).2.Ok ∧
    (reserveAll scope keys st).2.MinRouterPort = st.MinRouterPort ∧
    (reserveAll scope keys st).2.MaxRouterPort = st.MaxRouterPort ∧
    ((reserveAll scope keys st).2.ports scope).length =
      (st.ports scope).length + keys.length ∧
    (∀ a e, portOf ((reserveAll scope keys st).2.ports scope) a e = none ↔
      portOf (st.ports scope) a e = none ∧ (a, e) ∉ keys) := by
  induction keys generalizing st with
  | nil => simp [reserveAll, hok]
  | cons k rest ih =>
    rcases k with ⟨app, env⟩
    have hk := hnew (app, env) (List.mem_cons_self _ _)
    simp only [List.length_cons] at hlen
    obtain ⟨p, hp⟩ := ReserveRouterPort_fresh scope app env st hk (by omega)
    have hok1 := ReserveRouterPort_ok scope app env st hok
    rw [hp] at hok1
    simp only at hok1
    have hports : (st.setPorts scope (st.ports scope ++ [((app, env), p)])).ports scope =
        st.ports scope ++ [((app, env), p)] := by
      rw [RouterPorts.ports_setPorts]; simp
    have hnd1 := (List.nodup_cons.mp hnd)
    have hnew1 : ∀ k ∈ rest,
        portOf ((st.setPorts scope (st.ports scope ++ [((app, env), p)])).ports scope)
          k.1 k.2 = none := by
      intro k hkr
      rw [hports, portOf_append_single, hnew k (List.mem_cons_of_mem _ hkr)]
      have : (app, env) ≠ (k.1, k.2) := by
        intro he
        apply hnd1.1
        rw [he]
        exact hkr
      simp [this]
    have hlen1 : ((st.setPorts scope (st.ports scope ++ [((app, env), p)])).ports scope).length
        + rest.length ≤
        (st.setPorts scope (st.ports scope ++ [((app, env), p)])).MaxRouterPort + 1 -
          (st.setPorts scope (st.ports scope ++ [((app, env), p)])).MinRouterPort := by
      rw [hports, hok1.2.1, hok1.2.2]
      simp only [List.length_append, List.length_cons, List.length_nil]
      omega
    have h := ih _ hok1.1 hnd1.2 hnew1 hlen1
    have hdef : reserveAll scope ((app, env) :: rest) st =
        (Except.ok (p, true) ::
          (reserveAll scope rest
            (st.setPorts scope (st.ports scope ++ [((app, env), p)]))).1,
          (reserveAll scope rest
            (st.setPorts scope (st.ports scope ++ [((app, env), p)]))).2) := by
      simp [reserveAll, hp]
    rw [hdef]
    obtain ⟨h1, h2, h3, h4, h5, h6, h7⟩ := h
    refine ⟨?_, ?_, h3, h4.trans hok1.2.1, h5.trans hok1.2.2, ?_, ?_⟩
    · intro r hr
      rcases List.mem_cons.mp hr with hr | hr
      · exact ⟨p, hr⟩
      · exact h1 r hr
    · simp [h2]
    · show ((reserveAll scope rest
          (st.setPorts scope (st.ports scope ++ [((app, env), p)]))).2.ports scope).length = _
      rw [h6, hports]
      simp only [List.length_append, List.length_cons, List.length_nil]
      omega
    · intro a e
      show portOf ((reserveAll scope rest
          (st.setPorts scope (st.ports scope ++ [((app, env), p)]))).2.ports scope) a e = none ↔ _
      rw [h7 a e, hports, portOf_append_single]
      cases hq : portOf (st.ports scope) a e with
      | some q => simp
      | none =>
        by_cases hae : (app, env) = (a, e)
        · simp [hae]
        · simp only [hae, ↓reduceIte, true_and, List.mem_cons, not_or]
          constructor
          · intro hr
            exact ⟨fun h => hae h.symm, hr⟩
          · intro hr
            exact hr.2

/-- C15: in a well-formed store whose scope has no port assigned, let `keys` be as many
distinct `(app, env)` pairs as the range `[MinRouterPort, MaxRouterPort]` has ports.
Reserving for them one after the other succeeds every time (with `created = true`);
a reservation for any further pair then fails with the capacity error and changes
nothing; and after reclaiming the ports of an env (or an app) that holds one, a
reservation for a pair without a port succeeds again. -/
theorem capacity_boundary (scope : Bool) (st : RouterPorts)
    (keys : List (String × String)) (hok : st.Ok) (hfree : st.ports scope = [])
    (hnd : keys.Nodup) (hlen : keys.length = st.MaxRouterPort + 1 - st.MinRouterPort) :
    (∀ r ∈ (reserveAll scope keys st).1, ∃ p, r = .ok (p, true)) ∧
    (reserveAll scope keys st).1.length = keys.length ∧
    (∀ app env, (app, env) ∉ keys →
      ReserveRouterPort scope app env (reserveAll scope keys st).2 =
        (.error "CapacityExhausted", (reserveAll scope keys st).2)) ∧
    (∀ env app1, (app1, env) ∈ keys → ∀ app env1,
      HasRouterPortForAppEnv scope app env1
        (ReclaimRouterPortsForEnv scope env (reserveAll scope keys st).2).2 = false →
      ∃ p st1, ReserveRouterPort scope app env1
        (ReclaimRouterPortsForEnv scope env (reserveAll scope keys st).2).2 =
          (.ok (p, true), st1)) ∧
    (∀ app env1, (app, env1) ∈ keys → ∀ app1 env,
      HasRouterPortForAppEnv scope app1 env
        (ReclaimRouterPortsForApp scope app (reserveAll scope keys st).2).2 = false →
      ∃ p st1, ReserveRouterPort scope app1 env
        (ReclaimRouterPortsForApp scope app (reserveAll scope keys st).2).2 =
          (.ok (p, true), st1)) := by
  have hnew : ∀ k ∈ keys, portOf (st.ports scope) k.1 k.2 = none := by
    intro k _
    simp [hfree, portOf]
  obtain ⟨h1, h2, h3, h4, h5, h6, h7⟩ :=
    reserveAll_fresh scope keys st hok hnd hnew (by simp [hfree, hlen])
  have hfull : ((reserveAll scope keys st).2.ports scope).length =
      (reserveAll scope keys st).2.MaxRouterPort + 1 -
        (reserveAll scope keys st).2.MinRouterPort := by
    rw [h6, h4, h5, hfree]
    simp [hlen]
  have hreclaim : ∀ (f : (String × String) × Nat → Bool),
      (∃ x ∈ (reserveAll scope keys st).2.ports scope, f x = false) → ∀ app env,
      portOf (((reserveAll scope keys st).2.setPorts scope
        (((reserveAll scope keys st).2.ports scope).filter f)).ports scope) app env = none →
      ∃ p st1, ReserveRouterPort scope app env
        ((reserveAll scope keys st).2.setPorts scope
          (((reserveAll scope keys st).2.ports scope).filter f)) = (.ok (p, true), st1) := by
    intro f hex app env hno
    have hlt : (((reserveAll scope keys st).2.ports scope).filter f).length <
        ((reserveAll scope keys st).2.ports scope).length := by
      rw [List.length_filter_lt_length_iff_exists]
      obtain ⟨x, hx, hfx⟩ := hex
      exact ⟨x, hx, by simp [hfx]⟩
    have hr := RouterPorts.range_setPorts (reserveAll scope keys st).2 scope
      (((reserveAll scope keys st).2.ports scope).filter f)
    obtain ⟨p, hp⟩ := ReserveRouterPort_fresh scope app env _ hno (by
      rw [hr.1, hr.2, RouterPorts.ports_setPorts]
      simp only [↓reduceIte]
      omega)
    exact ⟨p, _, hp⟩
  have hmem : ∀ a e, (a, e) ∈ keys →
      ∃ q, ((a, e), q) ∈ (reserveAll scope keys st).2.ports scope := by
    intro a e hk
    cases hq : portOf ((reserveAll scope keys st).2.ports scope) a e with
    | none => exact absurd hk ((h7 a e).mp hq).2
    | some q => exact ⟨q, portOf_some_mem _ _ _ _ hq⟩
  refine ⟨h1, h2, ?_, ?_, ?_⟩
  · intro app env hk
    apply ReserveRouterPort_full scope app env _ h3 _ hfull
    rw [h7]
    exact ⟨by simp [hfree, portOf], hk⟩
  · intro env app1 hk app env1 hno
    obtain ⟨q, hq⟩ := hmem app1 env hk
    unfold HasRouterPortForAppEnv at hno
    unfold ReclaimRouterPortsForEnv at hno ⊢
    apply hreclaim _ ⟨_, hq, by simp⟩
    cases hx : portOf _ app env1 with
    | none => rfl
    | some v => rw [hx] at hno; simp at hno
  · intro app env1 hk app1 env hno
    obtain ⟨q, hq⟩ := hmem app env1 hk
    unfold HasRouterPortForAppEnv at hno
    unfold ReclaimRouterPortsForApp at hno ⊢
    apply hreclaim _ ⟨_, hq, by simp⟩
    cases hx : portOf _ app1 env with
    | none => rfl
    | some v => rw [hx] at hno; simp at hno


/-- Lookup is unchanged by a removal that keeps the entries of the pair. -/
theorem portOf_filter (m : List ((String × String) × Nat)) (f : (String × String) × Nat → Bool)
    (app env : String) (hf : ∀ x ∈ m, x.1 = (app, env) → f x = true) :
    portOf (m.filter f) app env = portOf m app env := by
  unfold portOf
  rw [List.find?_filter]
  congr 1
  induction m with
  | nil => rfl
  | cons x xs ih =>
    have ih1 := ih (fun y hy => hf y (List.mem_cons_of_mem _ hy))
    by_cases hx : x.1 = (app, env)
    · have := hf x (List.mem_cons_self _ _) hx
      simp [List.find?_cons, this, hx]
    · have hb : (x.1 == (app, env)) = false := by simpa using hx
      have hd : decide (f x = true ∧ false = true) = false := by simp
      rw [List.find?_cons, List.find?_cons, hb, hd]
      exact ih1

/-- Lookup finds nothing after a removal that drops the entries of the pair. -/
theorem portOf_filter_none (m : List ((String × String) × Nat))
    (f : (String × String) × Nat → Bool) (app env : String)
    (hf : ∀ x ∈ m, x.1 = (app, env) → f x = false) :
    portOf (m.filter f) app env = none := by
  rw [portOf_none_iff]
  intro h
  obtain ⟨x, hx, hk⟩ := List.mem_map.mp h
  have h1 := List.mem_filter.mp hx
  have := hf x h1.1 hk
  rw [h1.2] at this
  exact absurd this (by simp)

/-- C16: `ReclaimRouterPortsForEnv(scope, env)` returns nil and leaves in the table of
that scope exactly the mappings whose env differs from `env`: afterwards
`HasRouterPortForAppEnv` is false for every pair with that env, every pair with
another env holds the port it held, and the table of the other scope is unchanged.
`ReclaimRouterPortsForApp(scope, app)` does the same by app. -/
theorem reclaim_scoping (scope : Bool) (st : RouterPorts) :
    (∀ env,
      (ReclaimRouterPortsForEnv scope env st).1 = none ∧
      ((ReclaimRouterPortsForEnv scope env st).2.ports scope =
        (st.ports scope).filter (fun e => !(e.1.2 == env))) ∧
      (∀ app, HasRouterPortForAppEnv scope app env
        (ReclaimRouterPortsForEnv scope env st).2 = false) ∧
      (∀ app env1, env1 ≠ env →
        portOf ((ReclaimRouterPortsForEnv scope env st).2.ports scope) app env1 =
          portOf (st.ports scope) app env1) ∧
      (ReclaimRouterPortsForEnv scope env st).2.ports (!scope) = st.ports (!scope)) ∧
    (∀ app,
      (ReclaimRouterPortsForApp scope app st).1 = none ∧
      ((ReclaimRouterPortsForApp scope app st).2.ports scope =
        (st.ports scope).filter (fun e => !(e.1.1 == app))) ∧
      (∀ env, HasRouterPortForAppEnv scope app env
        (ReclaimRouterPortsForApp scope app st).2 = false) ∧
      (∀ app1 env, app1 ≠ app →
        portOf ((ReclaimRouterPortsForApp scope app st).2.ports scope) app1 env =
          portOf (st.ports scope) app1 env) ∧
      (ReclaimRouterPortsForApp scope app st).2.ports (!scope) = st.ports (!scope)) := by
  constructor
  · intro env
    have hp : (ReclaimRouterPortsForEnv scope env st).2.ports scope =
        (st.ports scope).filter (fun e => !(e.1.2 == env)) := by
      simp [ReclaimRouterPortsForEnv, RouterPorts.ports_setPorts]
    refine ⟨rfl, hp, ?_, ?_, ?_⟩
    · intro app
      unfold HasRouterPortForAppEnv
      rw [hp, portOf_filter_none]
      · rfl
      · intro x _ hx
        simp [hx]
    · intro app env1 hne
      rw [hp, portOf_filter]
      intro x _ hx
      simp [hx, hne]
    · simp [ReclaimRouterPortsForEnv, RouterPorts.ports_setPorts]
  · intro app
    have hp : (ReclaimRouterPortsForApp scope app st).2.ports scope =
        (st.ports scope).filter (fun e => !(e.1.1 == app)) := by
      simp [ReclaimRouterPortsForApp, RouterPorts.ports_setPorts]
    refine ⟨rfl, hp, ?_, ?_, ?_⟩
    · intro env
      unfold HasRouterPortForAppEnv
      rw [hp, portOf_filter_none]
      · rfl
      · intro x _ hx
        simp [hx]
    · intro app1 env hne
      rw [hp, portOf_filter]
      intro x _ hx
      simp [hx, hne]
    · simp [ReclaimRouterPortsForApp, RouterPorts.ports_setPorts]

/-- The tries of a scope after they are replaced. -/
theorem RouterPorts.tries_setTries (st : RouterPorts) (scope : Bool)
    (t : List ((String × String) × List String)) : (st.setTries scope t).tries scope = t := by
  cases scope <;> simp [RouterPorts.setTries, RouterPorts.tries]

/-- Replacing a port table leaves the tries alone. -/
theorem RouterPorts.tries_setPorts (st : RouterPorts) (scope scope1 : Bool)
    (m : List ((String × String) × Nat)) :
    (st.setPorts scope m).tries scope1 = st.tries scope1 := by
  cases scope <;> cases scope1 <;> simp [RouterPorts.setPorts, RouterPorts.tries]

/-- For fixed app and env, different shas give different pool names. -/
theorem CreatePoolName_sha_injective (app sha sha2 env : String)
    (h : CreatePoolName app sha env = CreatePoolName app sha2 env) : sha = sha2 := by
  unfold CreatePoolName at h
  have hd := congrArg String.data h
  simp only [String.data_append, List.append_assoc] at hd
  have h1 := List.append_cancel_left (List.append_cancel_left hd)
  have h3 := List.append_cancel_right h1
  exact String.ext h3

/-- On an empty table the scan returns the lowest port of a non-empty range. -/
theorem lowestFree_nil (min max : Nat) (h : min ≤ max) : lowestFree min max [] = some min := by
  unfold lowestFree
  have : max + 1 - min = (max - min) + 1 := by omega
  rw [this, List.range'_succ]
  simp

/-- C17: on a scope without ports and tries, with a non-empty range,
`ReserveRouterPortAndUpdateTrie(scope, app, sha, env)` returns `MinRouterPort` as a
decimal string with `created = true` and leaves the `(app, env)` trie with exactly one
rule; a second call for the same `(app, env)` with a different sha returns the same
port with `created = false` and leaves the trie with exactly two rules. -/
theorem trie_growth (scope : Bool) (app sha sha2 env : String) (st : RouterPorts)
    (hrange : st.MinRouterPort ≤ st.MaxRouterPort) (hports : st.ports scope = [])
    (htries : st.tries scope = []) (hsha : sha2 ≠ sha) :
    ∃ st1 st2,
      ReserveRouterPortAndUpdateTrie scope app sha env st =
        (.ok (toString st.MinRouterPort, true), st1) ∧
      (trieRules st1 scope app env).length = 1 ∧
      ReserveRouterPortAndUpdateTrie scope app sha2 env st1 =
        (.ok (toString st.MinRouterPort, false), st2) ∧
      (trieRules st2 scope app env).length = 2 := by
  have hres : ReserveRouterPort scope app env st =
      (.ok (st.MinRouterPort, true),
        st.setPorts scope [((app, env), st.MinRouterPort)]) := by
    simp [ReserveRouterPort, hports, portOf, lowestFree_nil _ _ hrange]
  have hr0 : trieRules (st.setPorts scope [((app, env), st.MinRouterPort)]) scope app env =
      [] := by
    simp [trieRules, RouterPorts.tries_setPorts, htries]
  have h1 : ReserveRouterPortAndUpdateTrie scope app sha env st =
      (.ok (toString st.MinRouterPort, true),
        (st.setPorts scope [((app, env), st.MinRouterPort)]).setTries scope
          [((app, env), [CreatePoolName app sha env])]) := by
    simp [ReserveRouterPortAndUpdateTrie, hres, hr0, RouterPorts.tries_setPorts, htries]
  have hrules1 : trieRules ((st.setPorts scope [((app, env), st.MinRouterPort)]).setTries scope
      [((app, env), [CreatePoolName app sha env])]) scope app env =
      [CreatePoolName app sha env] := by
    simp [trieRules, RouterPorts.tries_setTries]
  have hport1 : portOf (((st.setPorts scope [((app, env), st.MinRouterPort)]).setTries scope
      [((app, env), [CreatePoolName app sha env])]).ports scope) app env =
      some st.MinRouterPort := by
    simp [RouterPorts.ports_setTries, RouterPorts.ports_setPorts, portOf]
  have hne : CreatePoolName app sha2 env ≠ CreatePoolName app sha env :=
    fun h => hsha (CreatePoolName_sha_injective app sha2 sha env h)
  have h2 : ReserveRouterPortAndUpdateTrie scope app sha2 env
      ((st.setPorts scope [((app, env), st.MinRouterPort)]).setTries scope
        [((app, env), [CreatePoolName app sha env])]) =
      (.ok (toString st.MinRouterPort, false),
        ((st.setPorts scope [((app, env), st.MinRouterPort)]).setTries scope
          [((app, env), [CreatePoolName app sha env])]).setTries scope
          [((app, env), [CreatePoolName app sha env, CreatePoolName app sha2 env])]) := by
    unfold ReserveRouterPortAndUpdateTrie
    rw [ReserveRouterPort_of_port _ _ _ _ _ hport1]
    simp [hrules1, RouterPorts.tries_setTries, Ne.symm hne, hne]
  refine ⟨_, _, h1, by rw [hrules1]; rfl, h2, ?_⟩
  simp [trieRules, RouterPorts.tries_setTries]

/-- Witness for C13: on the test store (range 65533..65535, nothing assigned) the
first reservation for `svc`/`prod` creates port 65533 and the second returns it. -/
theorem reserve_twice_same_port_witness :
    ReserveRouterPort true "svc" "prod" RouterPorts.test =
      (.ok (65533, true),
        RouterPorts.test.setPorts true [(("svc", "prod"), 65533)]) ∧
    ReserveRouterPort true "svc" "prod"
        (RouterPorts.test.setPorts true [(("svc", "prod"), 65533)]) =
      (.ok (65533, false), RouterPorts.test.setPorts true [(("svc", "prod"), 65533)]) :=
  ⟨rfl, ((reserve_twice_same_port true "svc" "prod" RouterPorts.test).1 65533 true _ rfl).2⟩

/-- Witness for C14: after a single reservation for `svc`/`prod` the pair holds 65533,
a port of the range; after a second one for `svc2`/`prod` the two pairs hold 65533 and
65534, two different ports. -/
theorem ports_distinct_in_range_witness :
    portOf (((RouterPorts.empty 65533 65535).run [.reserve true "svc" "prod"]).ports true)
      "svc" "prod" = some 65533 ∧
    (65533 ≤ 65533 ∧ 65533 ≤ 65535) ∧
    portOf (((RouterPorts.empty 65533 65535).run
      [.reserve true "svc" "prod", .reserve true "svc2" "prod"]).ports true) "svc" "prod" =
      some 65533 ∧
    portOf (((RouterPorts.empty 65533 65535).run
      [.reserve true "svc" "prod", .reserve true "svc2" "prod"]).ports true) "svc2" "prod" =
      some 65534 ∧
    65533 ≠ 65534 :=
  ⟨by decide,
   (ports_distinct_in_range 65533 65535 [.reserve true "svc" "prod"] true).2.1
     "svc" "prod" 65533 (by decide),
   by decide, by decide,
   (ports_distinct_in_range 65533 65535
     [.reserve true "svc" "prod", .reserve true "svc2" "prod"] true).2.2
     "svc" "prod" "svc2" "prod" 65533 65534 (by decide) (by decide) (by decide)⟩

/-- Witness for C15: on the test store three pairs fill the range 65533..65535 and a
reservation for a fourth pair fails. -/
theorem capacity_boundary_witness :
    (reserveAll true [("app", "env"), ("app2", "env"), ("app3", "env2")] RouterPorts.test).1 =
      [.ok (65533, true), .ok (65534, true), .ok (65535, true)] ∧
    ReserveRouterPort true "app4" "env3"
        (reserveAll true [("app", "env"), ("app2", "env"), ("app3", "env2")]
          RouterPorts.test).2 =
      (.error "CapacityExhausted",
        (reserveAll true [("app", "env"), ("app2", "env"), ("app3", "env2")]
          RouterPorts.test).2) :=
  ⟨rfl, (capacity_boundary true RouterPorts.test
    [("app", "env"), ("app2", "env"), ("app3", "env2")] (RouterPorts.empty_ok 65533 65535) rfl
    (by decide) rfl).2.2.1 "app4" "env3" (by decide)⟩

/-- Witness for C16: reclaiming env `env` in the internal scope keeps the port of
`app3`/`env2`. -/
theorem reclaim_scoping_witness :
    portOf ((ReclaimRouterPortsForEnv true "env"
      (reserveAll true [("app", "env"), ("app2", "env"), ("app3", "env2")]
        RouterPorts.test).2).2.ports true) "app3" "env2" = some 65535 :=
  ((reclaim_scoping true (reserveAll true [("app", "env"), ("app2", "env"), ("app3", "env2")]
      RouterPorts.test).2).1 "env").2.2.2.1 "app3" "env2" (by decide) ▸ (by decide)

/-- Witness for C17: on the test store the first call for `app`/`sha`/`env` returns
"65533" and leaves one rule, the second call with `sha2` returns "65533" and leaves two. -/
theorem trie_growth_witness :
    ∃ st1 st2,
      ReserveRouterPortAndUpdateTrie true "app" "sha" "env" RouterPorts.test =
        (.ok ("65533", true), st1) ∧
      (trieRules st1 true "app" "env").length = 1 ∧
      ReserveRouterPortAndUpdateTrie true "app" "sha2" "env" st1 =
        (.ok ("65533", false), st2) ∧
      (trieRules st2 true "app" "env").length = 2 :=
  trie_growth true "app" "sha" "sha2" "env" RouterPorts.test (by decide) rfl rfl (by decide)

/-- Searching a filtered list for something the filter keeps is searching the list. -/
theorem List.find?_filter_of_imp {α : Type} (p q : α → Bool) (l : List α)
    (h : ∀ x, q x = true → p x = true) : (l.filter p).find? q = l.find? q := by
  induction l with
  | nil => rfl
  | cons x xs ih =>
    cases hq : q x with
    | true =>
      have hp := h x hq
      rw [List.filter_cons_of_pos hp, List.find?_cons, List.find?_cons, hq]
    | false =>
      cases hp : p x with
      | true => rw [List.filter_cons_of_pos hp, List.find?_cons, List.find?_cons, hq, ih]
      | false =>
        rw [List.filter_cons_of_neg (by simp [hp]), List.find?_cons, hq, ih]

/-- Deleting a key leaves the other keys as they were. -/
theorem GoMap.get_delete_ne {V : Type} (m : GoMap V) (k k1 : String) (h : k1 ≠ k) :
    GoMap.get (GoMap.delete m k) k1 = GoMap.get m k1 := by
  simp only [GoMap.get, GoMap.delete]
  rw [List.find?_filter_of_imp]
  intro x hx
  simp at hx
  simp [hx, h]

/-- Setting a key leaves the other keys as they were. -/
theorem GoMap.get_set_ne {V : Type} (m : GoMap V) (k k1 : String) (v : V) (h : k1 ≠ k) :
    GoMap.get (GoMap.set m k v) k1 = GoMap.get m k1 := by
  have hb : (k == k1) = false := by simpa using (Ne.symm h)
  have := GoMap.get_delete_ne m k k1 h
  simp only [GoMap.get, GoMap.set, List.find?_cons, hb] at this ⊢
  exact this

/-- A deleted key is absent. -/
theorem GoMap.get_delete {V : Type} (m : GoMap V) (k : String) :
    GoMap.get (GoMap.delete m k) k = none := by
  simp [GoMap.get, GoMap.delete, List.find?_eq_none]

/-- A key is absent exactly when it is not among the keys of the map. -/
theorem GoMap.get_none_iff {V : Type} (m : GoMap V) (k : String) :
    GoMap.get m k = none ↔ k ∉ m.map Prod.fst := by
  simp [GoMap.get, List.find?_eq_none]
  constructor
  · intro h v hv
    exact h k v hv rfl
  · intro h a v hv ha
    subst ha
    exact h v hv

/-- Replacing the pool records of a scope changes that scope only. -/
theorem PoolStore.pools_setPools (st : PoolStore) (scope scope1 : Bool) (m : GoMap Pool) :
    (st.setPools scope m).pools scope1 = if scope1 = scope then m else st.pools scope1 := by
  cases scope <;> cases scope1 <;> simp [PoolStore.setPools, PoolStore.pools]

/-- Replacing pool records leaves the instance records alone. -/
theorem PoolStore.instances_setPools (st : PoolStore) (scope : Bool) (m : GoMap Pool) :
    (st.setPools scope m).instances = st.instances := by
  cases scope <;> simp [PoolStore.setPools]

/-- Adding an entry to a pool leaves the instance records alone. -/
theorem addToPool_instances (st : PoolStore) (i : PoolInstance) :
    (addToPool st i).instances = st.instances := by
  unfold addToPool
  cases hg : GoMap.get (st.pools i.Internal) i.poolName <;>
    simp [hg, PoolStore.instances_setPools]

/-- Removing an entry from a pool leaves the instance records alone. -/
theorem deleteFromPool_instances (st : PoolStore) (i : PoolInstance) :
    (deleteFromPool st i).instances = st.instances := by
  unfold deleteFromPool
  cases hg : GoMap.get (st.pools i.Internal) i.poolName with
  | none => simp [hg]
  | some pool =>
    simp only [hg]
    split <;> simp [PoolStore.instances_setPools]

/-- The pool records after adding one entry: only the pool of the instance changes. -/
theorem addToPool_get (st : PoolStore) (i : PoolInstance) (scope : Bool) (name : String) :
    GoMap.get ((addToPool st i).pools scope) name =
      if scope = i.Internal ∧ name = i.poolName then
        some (match GoMap.get (st.pools i.Internal) i.poolName with
          | some pool =>
            { pool with
              Hosts := if pool.Hosts.contains i.address then pool.Hosts
                       else pool.Hosts ++ [i.address] }
          | none => ⟨i.poolName, PoolConfig.default, [i.address]⟩)
      else GoMap.get (st.pools scope) name := by
  unfold addToPool
  by_cases hs : scope = i.Internal
  · by_cases hn : name = i.poolName
    · subst hs hn
      cases hg : GoMap.get (st.pools i.Internal) i.poolName <;>
        simp [hg, PoolStore.pools_setPools, GoMap.get_set]
    · subst hs
      cases hg : GoMap.get (st.pools i.Internal) i.poolName <;>
        simp [hg, PoolStore.pools_setPools, GoMap.get_set_ne _ _ _ _ hn, hn]
  · cases hg : GoMap.get (st.pools i.Internal) i.poolName <;>
      simp [hg, PoolStore.pools_setPools, hs]

/-- The pool records after removing one entry: only the pool of the instance changes. -/
theorem deleteFromPool_get (st : PoolStore) (i : PoolInstance) (scope : Bool)
    (name : String) :
    GoMap.get ((deleteFromPool st i).pools scope) name =
      if scope = i.Internal ∧ name = i.poolName then
        match GoMap.get (st.pools i.Internal) i.poolName with
        | some pool =>
          if (pool.Hosts.filter (fun a => !(a == i.address))).isEmpty then none
          else some { pool with Hosts := pool.Hosts.filter (fun a => !(a == i.address)) }
        | none => none
      else GoMap.get (st.pools scope) name := by
  unfold deleteFromPool
  by_cases hs : scope = i.Internal
  · by_cases hn : name = i.poolName
    · subst hs hn
      cases hg : GoMap.get (st.pools i.Internal) i.poolName with
      | none => simp [hg]
      | some pool =>
        simp only [hg, and_self, ↓reduceIte]
        split <;> simp [PoolStore.pools_setPools, GoMap.get_set, GoMap.get_delete]
    · subst hs
      cases hg : GoMap.get (st.pools i.Internal) i.poolName with
      | none => simp [hg, hn]
      | some pool =>
        simp only [hg, hn, and_false, ↓reduceIte]
        split <;>
          simp [PoolStore.pools_setPools, GoMap.get_set_ne _ _ _ _ hn,
            GoMap.get_delete_ne _ _ _ hn]
  · cases hg : GoMap.get (st.pools i.Internal) i.poolName with
    | none => simp [hg, hs]
    | some pool =>
      simp only [hg, hs, false_and, ↓reduceIte]
      split <;> simp [PoolStore.pools_setPools, hs]

/-- The entries of a pool after adding one instance: those before, and the address of the
instance in its own pool. -/
theorem addToPool_hosts (st : PoolStore) (i : PoolInstance) (scope : Bool) (name a : String) :
    a ∈ poolHosts (addToPool st i) scope name ↔
      a ∈ poolHosts st scope name ∨
        (i.Internal = scope ∧ i.poolName = name ∧ i.address = a) := by
  unfold poolHosts
  rw [addToPool_get]
  by_cases hk : scope = i.Internal ∧ name = i.poolName
  · obtain ⟨hs, hn⟩ := hk
    subst hs hn
    simp only [and_self, ↓reduceIte, true_and]
    cases hg : GoMap.get (st.pools i.Internal) i.poolName with
    | none =>
      simp only [List.mem_singleton, List.not_mem_nil, false_or]
      exact eq_comm
    | some pool =>
      simp only
      by_cases hc : pool.Hosts.contains i.address = true
      · simp only [hc, ↓reduceIte]
        constructor
        · exact Or.inl
        · rintro (h | h)
          · exact h
          · subst h
            simpa using hc
      · simp only [hc, Bool.false_eq_true, ↓reduceIte, List.mem_append, List.mem_singleton]
        exact or_congr Iff.rfl eq_comm
  · simp only [hk, ↓reduceIte]
    constructor
    · exact Or.inl
    · rintro (h | ⟨h1, h2, -⟩)
      · exact h
      · exact absurd ⟨h1.symm, h2.symm⟩ hk

/-- The entries of a pool after removing one instance: those before, without the address
of the instance in its own pool. -/
theorem deleteFromPool_hosts (st : PoolStore) (i : PoolInstance) (scope : Bool)
    (name a : String) :
    a ∈ poolHosts (deleteFromPool st i) scope name ↔
      a ∈ poolHosts st scope name ∧
        ¬ (i.Internal = scope ∧ i.poolName = name ∧ i.address = a) := by
  unfold poolHosts
  rw [deleteFromPool_get]
  by_cases hk : scope = i.Internal ∧ name = i.poolName
  · obtain ⟨hs, hn⟩ := hk
    subst hs hn
    simp only [and_self, ↓reduceIte, true_and]
    cases hg : GoMap.get (st.pools i.Internal) i.poolName with
    | none => simp
    | some pool =>
      simp only
      by_cases he : (pool.Hosts.filter (fun a => !(a == i.address))).isEmpty = true
      · simp only [he, ↓reduceIte, List.not_mem_nil, false_iff, not_and, not_not]
        intro ha
        have h0 : pool.Hosts.filter (fun a => !(a == i.address)) = [] := by
          simpa using he
        rw [List.filter_eq_nil_iff] at h0
        have := h0 a ha
        simp only [Bool.not_eq_true', Bool.not_eq_false, beq_iff_eq, Bool.not_eq_eq_eq_not,
          Bool.not_true, beq_eq_false_iff_ne, ne_eq, not_not] at this
        exact this.symm
      · simp only [he, Bool.false_eq_true, ↓reduceIte, List.mem_filter, Bool.not_eq_true',
          beq_eq_false_iff_ne, ne_eq]
        exact and_congr Iff.rfl (not_congr eq_comm)
  · simp only [hk, ↓reduceIte]
    constructor
    · intro h
      exact ⟨h, fun hx => hk ⟨hx.1.symm, hx.2.1.symm⟩⟩
    · exact fun h => h.1

/-- Adding an entry keeps the invariant of the pool records. -/
theorem addToPool_ok (st : PoolStore) (i : PoolInstance) (hok : st.Ok) :
    (addToPool st i).Ok := by
  intro scope name pool hget
  rw [addToPool_get] at hget
  by_cases hk : scope = i.Internal ∧ name = i.poolName
  · obtain ⟨hs, hn⟩ := hk
    subst hs hn
    simp only [and_self, ↓reduceIte, Option.some.injEq] at hget
    cases hg : GoMap.get (st.pools i.Internal) i.poolName with
    | none =>
      rw [hg] at hget
      subst hget
      exact ⟨rfl, by simp, rfl⟩
    | some p0 =>
      rw [hg] at hget
      have h0 := hok _ _ _ hg
      subst hget
      refine ⟨h0.1, ?_, h0.2.2⟩
      simp only
      split
      · exact h0.2.1
      · simp
  · simp only [hk, ↓reduceIte] at hget
    exact hok _ _ _ hget

/-- Removing an entry keeps the invariant of the pool records. -/
theorem deleteFromPool_ok (st : PoolStore) (i : PoolInstance) (hok : st.Ok) :
    (deleteFromPool st i).Ok := by
  intro scope name pool hget
  rw [deleteFromPool_get] at hget
  by_cases hk : scope = i.Internal ∧ name = i.poolName
  · obtain ⟨hs, hn⟩ := hk
    subst hs hn
    simp only [and_self, ↓reduceIte] at hget
    cases hg : GoMap.get (st.pools i.Internal) i.poolName with
    | none => rw [hg] at hget; simp at hget
    | some p0 =>
      rw [hg] at hget
      have h0 := hok _ _ _ hg
      simp only at hget
      by_cases he : (p0.Hosts.filter (fun a => !(a == i.address))).isEmpty = true
      · simp [he] at hget
      · simp only [he, Bool.false_eq_true, ↓reduceIte, Option.some.injEq] at hget
        subst hget
        refine ⟨h0.1, ?_, h0.2.2⟩
        simpa using he
  · simp only [hk, ↓reduceIte] at hget
    exact hok _ _ _ hget

/-- Adding the entries of a list of instances: the invariant is kept, the instance records
are untouched, and each pool gains exactly the addresses of its instances in the list. -/
theorem foldl_addToPool (is : List PoolInstance) (st : PoolStore) (hok : st.Ok) :
    (is.foldl addToPool st).Ok ∧ (is.foldl addToPool st).instances = st.instances ∧
    ∀ scope name a, a ∈ poolHosts (is.foldl addToPool st) scope name ↔
      a ∈ poolHosts st scope name ∨
        ∃ i ∈ is, i.Internal = scope ∧ i.poolName = name ∧ i.address = a := by
  induction is generalizing st with
  | nil => simp [hok]
  | cons i rest ih =>
    obtain ⟨h1, h2, h3⟩ := ih (addToPool st i) (addToPool_ok st i hok)
    refine ⟨h1, h2.trans (addToPool_instances st i), ?_⟩
    intro scope name a
    rw [List.foldl_cons, h3, addToPool_hosts]
    simp only [List.mem_cons, exists_eq_or_imp]
    tauto

/-- Removing the entries of a list of instances: the invariant is kept, the instance
records are untouched, and each pool loses exactly the addresses of its instances in the
list. -/
theorem foldl_deleteFromPool (is : List PoolInstance) (st : PoolStore) (hok : st.Ok) :
    (is.foldl deleteFromPool st).Ok ∧
    (is.foldl deleteFromPool st).instances = st.instances ∧
    ∀ scope name a, a ∈ poolHosts (is.foldl deleteFromPool st) scope name ↔
      a ∈ poolHosts st scope name ∧
        ¬ ∃ i ∈ is, i.Internal = scope ∧ i.poolName = name ∧ i.address = a := by
  induction is generalizing st with
  | nil => simp [hok]
  | cons i rest ih =>
    obtain ⟨h1, h2, h3⟩ := ih (deleteFromPool st i) (deleteFromPool_ok st i hok)
    refine ⟨h1, h2.trans (deleteFromPool_instances st i), ?_⟩
    intro scope name a
    rw [List.foldl_cons, h3, deleteFromPool_hosts]
    simp only [List.mem_cons, exists_eq_or_imp]
    rw [not_or, and_assoc]

/-- With unique IDs, looking an ID up finds the one instance that carries it. -/
theorem find_instance_iff (instances : List PoolInstance) (id : String) (i : PoolInstance)
    (hids : (instances.map PoolInstance.ID).Nodup) :
    instances.find? (fun j => j.ID == id) = some i ↔ i ∈ instances ∧ i.ID = id := by
  constructor
  · intro h
    have h1 := List.find?_some h
    exact ⟨List.mem_of_find?_eq_some h, by simpa using h1⟩
  · rintro ⟨hm, hid⟩
    cases hf : instances.find? (fun j => j.ID == id) with
    | none =>
      have := List.find?_eq_none.mp hf i hm
      simp [hid] at this
    | some j =>
      have h1 := List.find?_some hf
      have hj := List.mem_of_find?_eq_some hf
      have : j.ID = i.ID := by simp at h1; rw [h1, hid]
      rw [List.inj_on_of_nodup_map hids hj hm this]

/-- With unique IDs, the instances a list of IDs resolves to are the recorded instances
whose ID is in the list. -/
theorem resolveInstances_mem (instances : List PoolInstance) (ids : List String)
    (is : List PoolInstance) (hids : (instances.map PoolInstance.ID).Nodup)
    (h : resolveInstances instances ids = some is) (i : PoolInstance) :
    i ∈ is ↔ i ∈ instances ∧ i.ID ∈ ids := by
  induction ids generalizing is with
  | nil =>
    simp [resolveInstances] at h
    subst h
    simp
  | cons id rest ih =>
    unfold resolveInstances at h
    cases hf : instances.find? (fun j => j.ID == id) with
    | none => simp [hf] at h
    | some j =>
      cases hr : resolveInstances instances rest with
      | none => simp [hf, hr] at h
      | some js =>
        simp [hf, hr] at h
        subst h
        have hj := (find_instance_iff instances id j hids).mp hf
        rw [List.mem_cons, ih js hr, List.mem_cons]
        constructor
        · rintro (h1 | h1)
          · subst h1
            exact ⟨hj.1, Or.inl hj.2⟩
          · exact ⟨h1.1, Or.inr h1.2⟩
        · rintro ⟨h1, h2 | h2⟩
          · left
            have := (find_instance_iff instances id i hids).mpr ⟨h1, h2⟩
            rw [hf] at this
            exact (Option.some.inj this).symm
          · exact Or.inr ⟨h1, h2⟩

/-- Two lists that agree after being joined at a separator that neither left part contains
agree part by part. -/
theorem List.split_at_separator {α : Type} (c : α) (l1 l2 r1 r2 : List α)
    (h : l1 ++ c :: r1 = l2 ++ c :: r2) (h1 : c ∉ l1) (h2 : c ∉ l2) :
    l1 = l2 ∧ r1 = r2 := by
  induction l1 generalizing l2 with
  | nil =>
    cases l2 with
    | nil => simpa using h
    | cons y ys =>
      simp at h
      exact absurd (List.mem_cons_self _ _) (h.1 ▸ h2)
  | cons x xs ih =>
    cases l2 with
    | nil =>
      simp at h
      exact absurd (List.mem_cons_self _ _) (h.1 ▸ h1)
    | cons y ys =>
      simp at h
      obtain ⟨hxy, hrest⟩ := h
      have := ih ys hrest (fun hm => h1 (List.mem_cons_of_mem _ hm))
        (fun hm => h2 (List.mem_cons_of_mem _ hm))
      exact ⟨by rw [hxy, this.1], this.2⟩

/-- Pool names tell (app, sha, env) triples apart when apps and shas do not contain the
separator. -/
theorem CreatePoolName_injective (app sha env app1 sha1 env1 : String)
    (h : CreatePoolName app sha env = CreatePoolName app1 sha1 env1)
    (ha : '.' ∉ app.data) (hs : '.' ∉ sha.data) (ha1 : '.' ∉ app1.data)
    (hs1 : '.' ∉ sha1.data) : app = app1 ∧ sha = sha1 ∧ env = env1 := by
  unfold CreatePoolName at h
  have hd := congrArg String.data h
  simp only [String.data_append, List.append_assoc] at hd
  simp only [List.singleton_append] at hd
  obtain ⟨e1, e2⟩ := List.split_at_separator '.' _ _ _ _ hd ha ha1
  obtain ⟨e3, e4⟩ := List.split_at_separator '.' _ _ _ _ e2 hs hs1
  exact ⟨String.ext e1, String.ext e3, String.ext e4⟩

/-- A store without pools satisfies the invariant of the pool records. -/
theorem PoolStore.ok_of_empty (st : PoolStore) (h1 : st.internalPools = [])
    (h2 : st.externalPools = []) : st.Ok := by
  intro scope name pool h
  cases scope <;> simp [PoolStore.pools, h1, h2, GoMap.get] at h

/-- A store without pools has no pool entries. -/
theorem poolHosts_of_empty (st : PoolStore) (h1 : st.internalPools = [])
    (h2 : st.externalPools = []) (scope : Bool) (name : String) :
    poolHosts st scope name = [] := by
  cases scope <;> simp [poolHosts, PoolStore.pools, h1, h2, GoMap.get]

/-- After a successful `AddToPool` and then a successful `DeleteFromPool` on a store
without pools, the entries of every pool are the addresses of its instances that were
added and not deleted, and the invariant of the pool records holds. -/
theorem AddToPool_then_DeleteFromPool (st st1 st2 : PoolStore) (added deleted : List String)
    (h1 : st.internalPools = []) (h2 : st.externalPools = [])
    (hids : (st.instances.map PoolInstance.ID).Nodup)
    (haddr : ∀ i ∈ st.instances, ∀ j ∈ st.instances, i.address = j.address → i = j)
    (hadd : AddToPool added st = (none, st1))
    (hdel : DeleteFromPool deleted st1 = (none, st2)) :
    st2.Ok ∧ ∀ scope name a, a ∈ poolHosts st2 scope name ↔
      ∃ i ∈ st.instances, i.ID ∈ added ∧ i.ID ∉ deleted ∧
        i.Internal = scope ∧ i.poolName = name ∧ i.address = a := by
  unfold AddToPool at hadd
  cases hr : resolveInstances st.instances added with
  | none => simp [hr] at hadd
  | some is =>
    simp only [hr, Prod.mk.injEq, true_and] at hadd
    obtain ⟨ok1, inst1, hosts1⟩ := foldl_addToPool is st (PoolStore.ok_of_empty st h1 h2)
    rw [hadd] at ok1 inst1 hosts1
    unfold DeleteFromPool at hdel
    rw [inst1] at hdel
    cases hr2 : resolveInstances st.instances deleted with
    | none => simp [hr2] at hdel
    | some js =>
      simp only [hr2, Prod.mk.injEq, true_and] at hdel
      obtain ⟨ok2, _, hosts2⟩ := foldl_deleteFromPool js st1 ok1
      rw [hdel] at ok2 hosts2
      refine ⟨ok2, ?_⟩
      intro scope name a
      rw [hosts2, hosts1, poolHosts_of_empty st h1 h2]
      have mi := resolveInstances_mem st.instances added is hids hr
      have mj := resolveInstances_mem st.instances deleted js hids hr2
      constructor
      · rintro ⟨h | ⟨i, hi, hs, hn, ha⟩, hnot⟩
        · simp at h
        · obtain ⟨him, hid⟩ := (mi i).mp hi
          refine ⟨i, him, hid, ?_, hs, hn, ha⟩
          intro hd
          exact hnot ⟨i, (mj i).mpr ⟨him, hd⟩, hs, hn, ha⟩
      · rintro ⟨i, him, hid, hnd, hs, hn, ha⟩
        refine ⟨Or.inr ⟨i, (mi i).mpr ⟨him, hid⟩, hs, hn, ha⟩, ?_⟩
        rintro ⟨j, hj, _, _, hja⟩
        obtain ⟨hjm, hjd⟩ := (mj j).mp hj
        have : j = i := haddr j hjm i him (hja.trans ha.symm)
        rw [this] at hjd
        exact hnd hjd

/-- Membership in `poolMembers`, spelled out. -/
theorem mem_poolMembers (st : PoolStore) (added deleted : List String) (scope : Bool)
    (app sha env : String) (i : PoolInstance) :
    i ∈ poolMembers st added deleted scope app sha env ↔
      i ∈ st.instances ∧ i.Internal = scope ∧ i.App = app ∧ i.Sha = sha ∧ i.Env = env ∧
        i.ID ∈ added ∧ i.ID ∉ deleted := by
  simp [poolMembers, and_assoc]

/-- C18 (as amended): from a store with no pool, in which instance IDs are unique, no two
instances share an address and the apps and shas hold no separator `.`, after
`AddToPool(added)` and then `DeleteFromPool(deleted)` have both returned nil, the pool
named `CreatePoolName(app, sha, env)` of a scope (`app` and `sha` without `.`) has as
hosts exactly the addresses of the instances of that scope and (app, sha, env) that were
added and not deleted, under its own name and with a non-empty configuration, when there
is such an instance; when there is none, `GetPool` fails and the name is not in
`ListPools`. -/
theorem pool_convergence (st st1 st2 : PoolStore) (added deleted : List String)
    (scope : Bool) (app sha env : String)
    (hempty : st.internalPools = [] ∧ st.externalPools = [])
    (hids : (st.instances.map PoolInstance.ID).Nodup)
    (haddr : ∀ i ∈ st.instances, ∀ j ∈ st.instances, i.address = j.address → i = j)
    (hdot : ∀ i ∈ st.instances, '.' ∉ i.App.data ∧ '.' ∉ i.Sha.data)
    (hname : '.' ∉ app.data ∧ '.' ∉ sha.data)
    (hadd : AddToPool added st = (none, st1))
    (hdel : DeleteFromPool deleted st1 = (none, st2)) :
    (poolMembers st added deleted scope app sha env ≠ [] →
      ∃ pool, GetPool scope (CreatePoolName app sha env) st2 = .ok pool ∧
        pool.Name = CreatePoolName app sha env ∧
        (∀ a, a ∈ pool.Hosts ↔
          ∃ i ∈ poolMembers st added deleted scope app sha env, i.address = a) ∧
        pool.Config.HealthzEvery ≠ "" ∧ pool.Config.HealthzTimeout ≠ "" ∧
        pool.Config.RequestTimeout ≠ "") ∧
    (poolMembers st added deleted scope app sha env = [] →
      GetPool scope (CreatePoolName app sha env) st2 = .error "NotFound" ∧
      CreatePoolName app sha env ∉ ListPools scope st2) := by
  obtain ⟨ok2, hosts⟩ :=
    AddToPool_then_DeleteFromPool st st1 st2 added deleted hempty.1 hempty.2 hids haddr
      hadd hdel
  have hmem : ∀ a, a ∈ poolHosts st2 scope (CreatePoolName app sha env) ↔
      ∃ i ∈ poolMembers st added deleted scope app sha env, i.address = a := by
    intro a
    rw [hosts]
    constructor
    · rintro ⟨i, him, hid, hnd, hs, hn, ha⟩
      obtain ⟨e1, e2, e3⟩ := CreatePoolName_injective _ _ _ _ _ _ hn
        (hdot i him).1 (hdot i him).2 hname.1 hname.2
      exact ⟨i, (mem_poolMembers _ _ _ _ _ _ _ i).mpr ⟨him, hs, e1, e2, e3, hid, hnd⟩, ha⟩
    · rintro ⟨i, hi, ha⟩
      obtain ⟨him, hs, e1, e2, e3, hid, hnd⟩ := (mem_poolMembers _ _ _ _ _ _ _ i).mp hi
      refine ⟨i, him, hid, hnd, hs, ?_, ha⟩
      rw [PoolInstance.poolName, e1, e2, e3]
  constructor
  · intro hne
    obtain ⟨i, hi⟩ := List.exists_mem_of_ne_nil _ hne
    have hin : i.address ∈ poolHosts st2 scope (CreatePoolName app sha env) :=
      (hmem _).mpr ⟨i, hi, rfl⟩
    cases hg : GoMap.get (st2.pools scope) (CreatePoolName app sha env) with
    | none => simp [poolHosts, hg] at hin
    | some pool =>
      obtain ⟨hn, _, hc⟩ := ok2 scope _ pool hg
      refine ⟨pool, by simp [GetPool, hg], hn, ?_, ?_⟩
      · intro a
        rw [← hmem a]
        simp [poolHosts, hg]
      · rw [hc]
        decide
  · intro hnil
    have hg : GoMap.get (st2.pools scope) (CreatePoolName app sha env) = none := by
      cases hg : GoMap.get (st2.pools scope) (CreatePoolName app sha env) with
      | none => rfl
      | some pool =>
        obtain ⟨_, hh, _⟩ := ok2 scope _ pool hg
        obtain ⟨a, ha⟩ := List.exists_mem_of_ne_nil _ hh
        have : a ∈ poolHosts st2 scope (CreatePoolName app sha env) := by
          simpa [poolHosts, hg] using ha
        obtain ⟨i, hi, _⟩ := (hmem a).mp this
        rw [hnil] at hi
        simp at hi
    refine ⟨by simp [GetPool, hg], ?_⟩
    exact (GoMap.get_none_iff _ _).mp hg

/-- Witness for C18: on the test store, adding `i1` and `i2` and then deleting `i2`
leaves the pool `app.sha.env` with the entry of `i1`. -/
theorem pool_convergence_witness :
    poolMembers PoolStore.test ["i1", "i2"] ["i2"] true "app" "sha" "env" ≠ [] ∧
    ((poolMembers PoolStore.test ["i1", "i2"] ["i2"] true "app" "sha" "env" ≠ [] →
      ∃ pool, GetPool true (CreatePoolName "app" "sha" "env")
          (DeleteFromPool ["i2"] (AddToPool ["i1", "i2"] PoolStore.test).2).2 = .ok pool ∧
        pool.Name = CreatePoolName "app" "sha" "env" ∧
        (∀ a, a ∈ pool.Hosts ↔
          ∃ i ∈ poolMembers PoolStore.test ["i1", "i2"] ["i2"] true "app" "sha" "env",
            i.address = a) ∧
        pool.Config.HealthzEvery ≠ "" ∧ pool.Config.HealthzTimeout ≠ "" ∧
        pool.Config.RequestTimeout ≠ "") ∧
    (poolMembers PoolStore.test ["i1", "i2"] ["i2"] true "app" "sha" "env" = [] →
      GetPool true (CreatePoolName "app" "sha" "env")
          (DeleteFromPool ["i2"] (AddToPool ["i1", "i2"] PoolStore.test).2).2 =
        .error "NotFound" ∧
      CreatePoolName "app" "sha" "env" ∉
        ListPools true (DeleteFromPool ["i2"] (AddToPool ["i1", "i2"] PoolStore.test).2).2)) :=
  ⟨by decide,
   pool_convergence PoolStore.test (AddToPool ["i1", "i2"] PoolStore.test).2
    (DeleteFromPool ["i2"] (AddToPool ["i1", "i2"] PoolStore.test).2).2
    ["i1", "i2"] ["i2"] true "app" "sha" "env" ⟨rfl, rfl⟩ (by decide) (by decide)
    (by decide) (by decide) rfl rfl⟩


/-- C18, counterexample to the claim as stated. With `.` in the names, the instances of
(`a.b`, `c`, `e`) and (`a`, `b.c`, `e`) share the pool `a.b.c.e`: after both are added
the pool of (`a.b`, `c`, `e`) holds `h1:1` and `h2:2`, while the only added instance of
that triple is at `h1:1`. With a shared address, after two instances at `h:1` are added
and one is deleted, the pool is gone although one instance remains. -/
theorem pool_convergence_counterexample :
    ((AddToPool ["d1", "d2"] PoolStore.dotted).1 = none ∧
      (DeleteFromPool [] (AddToPool ["d1", "d2"] PoolStore.dotted).2).1 = none ∧
      GetPool true (CreatePoolName "a.b" "c" "e")
          (DeleteFromPool [] (AddToPool ["d1", "d2"] PoolStore.dotted).2).2 =
        .ok ⟨"a.b.c.e", PoolConfig.default, ["h1:1", "h2:2"]⟩ ∧
      (poolMembers PoolStore.dotted ["d1", "d2"] [] true "a.b" "c" "e").map
        PoolInstance.address = ["h1:1"]) ∧
    ((AddToPool ["s1", "s2"] PoolStore.sharedAddress).1 = none ∧
      (DeleteFromPool ["s2"] (AddToPool ["s1", "s2"] PoolStore.sharedAddress).2).1 = none ∧
      GetPool true (CreatePoolName "app" "sha" "env")
          (DeleteFromPool ["s2"] (AddToPool ["s1", "s2"] PoolStore.sharedAddress).2).2 =
        .error "NotFound" ∧
      (poolMembers PoolStore.sharedAddress ["s1", "s2"] ["s2"] true "app" "sha" "env").map
        PoolInstance.address = ["h:1"]) :=
  ⟨⟨by decide, by decide, rfl, by decide⟩, ⟨by decide, by decide, rfl, by decide⟩⟩

end Datamodel

/-! ## Listing all containers -/

namespace Rpc

variable {σ : Type}

/-- The filter loop keeps a sublist of the ids it is given, after the ids it starts
with. -/
theorem ListContainersExecutor.filterAllowed_sublist (c : Collab σ) (allowedApps : GoMap Bool)
    (l acc : List String) (s : σ) :
    ∃ kept, kept.Sublist l ∧
      (ListContainersExecutor.filterAllowed c allowedApps l (acc, s)).1 = acc ++ kept := by
  induction l generalizing acc s with
  | nil => exact ⟨[], List.Sublist.refl _, by simp [ListContainersExecutor.filterAllowed]⟩
  | cons cid rest ih =>
    unfold ListContainersExecutor.filterAllowed
    rcases hg : c.GetInstance cid s with ⟨r, s1⟩
    cases r with
    | error e =>
      obtain ⟨kept, hk, he⟩ := ih acc s1
      exact ⟨kept, hk.cons _, by simpa using he⟩
    | ok inst =>
      by_cases ha : allowed allowedApps inst.App = true
      · obtain ⟨kept, hk, he⟩ := ih (acc ++ [cid]) s1
        exact ⟨cid :: kept, hk.cons₂ _, by simp [ha, he]⟩
      · obtain ⟨kept, hk, he⟩ := ih acc s1
        exact ⟨kept, hk.cons _, by simp [ha, he]⟩

/-- When reading an instance record leaves the state alone, the filter loop keeps
exactly the visible ids, in order. -/
theorem ListContainersExecutor.filterAllowed_readonly (c : Collab σ)
    (allowedApps : GoMap Bool) (hro : ∀ cid s, (c.GetInstance cid s).2 = s)
    (l acc : List String) (s : σ) :
    ListContainersExecutor.filterAllowed c allowedApps l (acc, s) =
      (acc ++ l.filter (ListContainersExecutor.visible c allowedApps s), s) := by
  induction l generalizing acc with
  | nil => simp [ListContainersExecutor.filterAllowed]
  | cons cid rest ih =>
    unfold ListContainersExecutor.filterAllowed
    have h2 := hro cid s
    rcases hg : c.GetInstance cid s with ⟨r, s1⟩
    rw [hg] at h2
    simp only at h2
    subst h2
    cases r with
    | error e =>
      simp [ih, ListContainersExecutor.visible, hg]
    | ok inst =>
      by_cases ha : allowed allowedApps inst.App = true
      · simp [ih, ListContainersExecutor.visible, hg, ha]
      · simp [ih, ListContainersExecutor.visible, hg, ha]

/-- The ids of a sorted list are those of the list. -/
theorem sortStrings_perm (l : List String) : (sortStrings l).Perm l :=
  List.perm_insertionSort strLe l

/-- C21: when `ListContainersExecutor.Execute` is called with `App`, `Sha` and `Env` all
empty and `ListAllInstances` succeeds with `ids`, it returns nil and every ID of the reply
is one of `ids`. If `AuthorizeSuperUser` returns nil the reply holds `ids`, sorted;
otherwise, when reading an instance record leaves the state alone, the reply holds
exactly the IDs of `ids` whose instance record is readable and whose app is in
`GetAllowedApps(auth, auth.User)` (sorted). -/
theorem ListContainers_all_scoped (c : Collab σ) (arg : ManagerListContainersArg)
    (reply : ManagerListContainersReply) (s s1 : σ) (ids : List String)
    (hall : arg.App = "" ∧ arg.Sha = "" ∧ arg.Env = "")
    (hlist : c.ListAllInstances s = ((ids, none), s1)) :
    (ListContainersExecutor.Execute c arg reply s).1.2 = none ∧
    (∀ cid ∈ (ListContainersExecutor.Execute c arg reply s).1.1.ContainerIDs, cid ∈ ids) ∧
    (∀ s2, c.AuthorizeSuperUser arg.ManagerAuthArg s1 = (none, s2) →
      (ListContainersExecutor.Execute c arg reply s).1.1.ContainerIDs = sortStrings ids ∧
      (ListContainersExecutor.Execute c arg reply s).1.1.ContainerIDs.Perm ids) ∧
    (∀ e s2, c.AuthorizeSuperUser arg.ManagerAuthArg s1 = (some e, s2) →
      (∀ cid st, (c.GetInstance cid st).2 = st) →
      (ListContainersExecutor.Execute c arg reply s).1.1.ContainerIDs.Perm
        (ids.filter (ListContainersExecutor.visible c
          (GetAllowedApps c arg.ManagerAuthArg arg.ManagerAuthArg.User s2).1
          (GetAllowedApps c arg.ManagerAuthArg arg.ManagerAuthArg.User s2).2))) := by
  unfold ListContainersExecutor.Execute
  rw [if_pos hall]
  simp only [hlist]
  rcases ha : c.AuthorizeSuperUser arg.ManagerAuthArg s1 with ⟨err, s2⟩
  cases err with
  | none =>
    refine ⟨rfl, ?_, ?_, ?_⟩
    · intro cid hc
      exact (sortStrings_perm ids).subset hc
    · intro s2a _
      exact ⟨rfl, sortStrings_perm ids⟩
    · intro e s2a h
      simp at h
  | some e0 =>
    simp only
    refine ⟨trivial, ?_, ?_, ?_⟩
    · intro cid hc
      obtain ⟨kept, hk, he⟩ := ListContainersExecutor.filterAllowed_sublist c
        (GetAllowedApps c arg.ManagerAuthArg arg.ManagerAuthArg.User s2).1 ids []
        (GetAllowedApps c arg.ManagerAuthArg arg.ManagerAuthArg.User s2).2
      have := (sortStrings_perm _).subset hc
      rw [he] at this
      exact hk.subset (by simpa using this)
    · intro s2a h
      simp at h
    · intro e s2a h hro
      simp only [Prod.mk.injEq, Option.some.injEq] at h
      obtain ⟨_, h2⟩ := h
      subst h2
      rw [ListContainersExecutor.filterAllowed_readonly c _ hro]
      simpa using sortStrings_perm _

/-- On the fleet, with plain reads, reading an instance record leaves the state alone. -/
theorem Fleet.collab_GetInstance_state (region host cid : String) (f : Fleet) :
    ((Fleet.collab region host id).GetInstance cid f).2 = f := by
  simp only [Fleet.collab]
  split
  · split <;> rfl
  · rfl

/-- Witness for C21: on the sample fleet the listing is `c1`; `root`, a super user, gets
it, and `alice`, who is none, gets the visible part of it (`c1`, whose app her team is
allowed). -/
theorem ListContainers_all_scoped_witness :
    ((ListContainersExecutor.Execute (Fleet.collab "us-east-1" "m1" id)
        ⟨⟨"root", "pw"⟩, "", "", ""⟩ ⟨[], ""⟩ Fleet.sample).1.1.ContainerIDs = sortStrings ["c1"] ∧
     (ListContainersExecutor.Execute (Fleet.collab "us-east-1" "m1" id)
        ⟨⟨"root", "pw"⟩, "", "", ""⟩ ⟨[], ""⟩ Fleet.sample).1.1.ContainerIDs.Perm ["c1"]) ∧
    (ListContainersExecutor.Execute (Fleet.collab "us-east-1" "m1" id)
        ⟨⟨"alice", "pw"⟩, "", "", ""⟩ ⟨[], ""⟩ Fleet.sample).1.1.ContainerIDs.Perm
      (["c1"].filter (ListContainersExecutor.visible (Fleet.collab "us-east-1" "m1" id)
        (GetAllowedApps (Fleet.collab "us-east-1" "m1" id) ⟨"alice", "pw"⟩ "alice"
          Fleet.sample).1
        (GetAllowedApps (Fleet.collab "us-east-1" "m1" id) ⟨"alice", "pw"⟩ "alice"
          Fleet.sample).2)) ∧
    ["c1"].filter (ListContainersExecutor.visible (Fleet.collab "us-east-1" "m1" id)
        (GetAllowedApps (Fleet.collab "us-east-1" "m1" id) ⟨"alice", "pw"⟩ "alice"
          Fleet.sample).1
        (GetAllowedApps (Fleet.collab "us-east-1" "m1" id) ⟨"alice", "pw"⟩ "alice"
          Fleet.sample).2) = ["c1"] :=
  ⟨(ListContainers_all_scoped (Fleet.collab "us-east-1" "m1" id) ⟨⟨"root", "pw"⟩, "", "", ""⟩
      ⟨[], ""⟩ Fleet.sample Fleet.sample ["c1"] ⟨rfl, rfl, rfl⟩ rfl).2.2.1 Fleet.sample rfl,
   (ListContainers_all_scoped (Fleet.collab "us-east-1" "m1" id) ⟨⟨"alice", "pw"⟩, "", "", ""⟩
      ⟨[], ""⟩ Fleet.sample Fleet.sample ["c1"] ⟨rfl, rfl, rfl⟩ rfl).2.2.2 "Permission denied"
      Fleet.sample rfl (fun cid st => Fleet.collab_GetInstance_state _ _ cid st),
   by decide⟩

end Rpc

/-! ## GetApp and the SQL lookup -/

namespace Datamodel

variable {σ : Type}

/-- C22: the result of `GetApp(name)` is decided by the SQL lookup `DbMap.Get` alone (run
in the state the first half of `GetApp` leaves). It is a record with a nil error exactly
when the lookup returns a row and no error, and the record is then built from the row,
with empty dependency maps; when the lookup returns no row and no error the result is
the nil record with the error "No app with name: <name>"; when the lookup fails the
result is the coordination-store record with the error of the lookup. On the store
`World.withDeps`, whose coordination-store record of `a` carries dependency data, the
record returned for `a` has empty maps. -/
theorem GetApp_follows_sql (c : Collab σ) (name : String) (s : σ) :
    (∀ za, (GetApp c name s).1 = (some za, none) ↔
      ∃ app, (c.DbGet name (GetApp.readZk c name s).2).1 = (some app, none) ∧
        za = ⟨app.NonAtlantis, app.Internal, app.Name, app.Email, app.Repo, app.Root,
          some [], some []⟩) ∧
    (∀ za, (GetApp c name s).1 = (some za, none) →
      za.DependerEnvData = some [] ∧ za.DependerAppData = some []) ∧
    ((c.DbGet name (GetApp.readZk c name s).2).1 = (none, none) →
      (GetApp c name s).1 = (none, some ("No app with name: " ++ name))) ∧
    (∀ obj err, (c.DbGet name (GetApp.readZk c name s).2).1 = (obj, some err) →
      (GetApp c name s).1 = (some (GetApp.readZk c name s).1, some err)) ∧
    GetApp World.collab "a" World.withDeps =
      ((some ⟨false, false, "a", "e1", "r1", "/1", some [], some []⟩, none),
        World.withDeps) := by
  have key : ∀ za, (GetApp c name s).1 = (some za, none) ↔
      ∃ app, (c.DbGet name (GetApp.readZk c name s).2).1 = (some app, none) ∧
        za = ⟨app.NonAtlantis, app.Internal, app.Name, app.Email, app.Repo, app.Root,
          some [], some []⟩ := by
    intro za
    unfold GetApp
    rcases hd : c.DbGet name (GetApp.readZk c name s).2 with ⟨⟨obj, err⟩, s4⟩
    cases err with
    | some e => simp [hd]
    | none =>
      cases obj with
      | none => simp [hd]
      | some app =>
        simp only [hd, Prod.mk.injEq, Option.some.injEq, and_true]
        constructor
        · intro h
          exact ⟨app, rfl, h.symm⟩
        · rintro ⟨app1, h1, h2⟩
          rw [h2, ← h1]
  refine ⟨key, ?_, ?_, ?_, by decide⟩
  · intro za h
    obtain ⟨app, _, h2⟩ := (key za).mp h
    rw [h2]
    exact ⟨rfl, rfl⟩
  · intro h
    unfold GetApp
    rcases hd : c.DbGet name (GetApp.readZk c name s).2 with ⟨⟨obj, err⟩, s4⟩
    rw [hd] at h
    simp only [Prod.mk.injEq] at h
    obtain ⟨h1, h2⟩ := h
    subst h1
    subst h2
    simp only [hd]
  · intro obj err h
    unfold GetApp
    rcases hd : c.DbGet name (GetApp.readZk c name s).2 with ⟨⟨obj1, err1⟩, s4⟩
    rw [hd] at h
    simp only [Prod.mk.injEq] at h
    obtain ⟨h1, h2⟩ := h
    subst h1
    subst h2
    simp only [hd]

/-- Witness for C22: the sample store has no SQL row for `zzz`. -/
theorem GetApp_follows_sql_witness :
    (GetApp World.collab "zzz" World.sample).1 = (none, some "No app with name: zzz") :=
  (GetApp_follows_sql World.collab "zzz" World.sample).2.2.1 (by decide)

end Datamodel

/-! ## The team-admin permission checks -/

namespace Rpc

variable {σ : Type}

/-- The run modelled from the spec writes the reply through `Execute` only. -/
theorem Run.spec_writesThroughExecute (gate : σ → Option Error × σ) :
    Run.WritesThroughExecute (Run.spec gate) := by
  intro ρ name e reply s
  unfold Run.spec
  rcases hg : (if e.AllowDuringMaintenance = true then (none, s) else gate s) with ⟨g, s1⟩
  cases g with
  | some err => left; simp [hg]
  | none =>
    rcases ha : e.Authorize s1 with ⟨a, s2⟩
    cases a with
    | some err => left; simp [hg, ha]
    | none => right; exact ⟨⟨name, ""⟩, reply, s2, by simp [hg, ha]⟩

/-- After a run that writes the reply through `Execute` only, the reply of the
team-admin check says `IsAdmin = false`. -/
theorem IsTeamAdmin_run_false (run : Run σ) (hrun : Run.WritesThroughExecute run)
    (name : String) (req : ManagerTeamAdminArg) (s : σ) :
    (run _ name (IsTeamAdminExecutor.task req) ⟨false⟩ s).1.1.IsAdmin = false := by
  rcases hrun _ name (IsTeamAdminExecutor.task req) ⟨false⟩ s with h | ⟨t, r, s1, h⟩
  · rw [h]
  · rw [h]
    rfl

/-- C23: whatever `checkRole` and the nested task runs return, as long as a run writes
the reply through `Execute` only, `AddTeamAdminExecutor.Authorize` and
`RemoveTeamAdminExecutor.Authorize` return a non-nil error: the error of `checkRole`, or
"Permission denied" right after the team-admin check, because
`IsTeamAdminExecutor.Execute` sets `IsAdmin` to false whatever the request. The listing
of the team admins and the `maxTeamAdmins` check are never reached. -/
theorem team_admin_Authorize_never_nil (c : Collab σ) (run : Run σ)
    (SimpleAuthorize : ManagerAuthArg → σ → Option Error × σ)
    (hrun : Run.WritesThroughExecute run) (arg : ManagerModifyTeamAdminArg) (s : σ) :
    (∀ (t : Task) (req : ManagerTeamAdminArg) (reply : ManagerTeamAdminReply) (s0 : σ),
      IsTeamAdminExecutor.Execute t req reply s0 = ((⟨false⟩, none), s0)) ∧
    (AddTeamAdminExecutor.Authorize c run SimpleAuthorize arg s).1 ≠ none ∧
    (RemoveTeamAdminExecutor.Authorize c run arg s).1 ≠ none ∧
    AddTeamAdminExecutor.Authorize c run SimpleAuthorize arg s =
      (match checkRole c "permissions" "write" s with
        | (some err, s1) => (some err, s1)
        | (none, s1) =>
          (some "Permission denied",
            (run _ "AddTeamAdmin-IsTeamAdmin"
              (IsTeamAdminExecutor.task ⟨arg.ManagerAuthArg, arg.Team⟩) ⟨false⟩ s1).2)) ∧
    RemoveTeamAdminExecutor.Authorize c run arg s =
      (match checkRole c "permissions" "write" s with
        | (some err, s1) => (some err, s1)
        | (none, s1) =>
          (some "Permission denied",
            (run _ "RemoveTeamAdmin-IsTeamAdmin"
              (IsTeamAdminExecutor.task ⟨arg.ManagerAuthArg, arg.Team⟩) ⟨false⟩ s1).2)) := by
  have hadd : AddTeamAdminExecutor.Authorize c run SimpleAuthorize arg s =
      (match checkRole c "permissions" "write" s with
        | (some err, s1) => (some err, s1)
        | (none, s1) =>
          (some "Permission denied",
            (run _ "AddTeamAdmin-IsTeamAdmin"
              (IsTeamAdminExecutor.task ⟨arg.ManagerAuthArg, arg.Team⟩) ⟨false⟩ s1).2)) := by
    unfold AddTeamAdminExecutor.Authorize
    rcases hc : checkRole c "permissions" "write" s with ⟨e, s1⟩
    cases e with
    | some err => rfl
    | none =>
      have h := IsTeamAdmin_run_false run hrun "AddTeamAdmin-IsTeamAdmin"
        ⟨arg.ManagerAuthArg, arg.Team⟩ s1
      simp only [h, or_true, if_true]
  have hrem : RemoveTeamAdminExecutor.Authorize c run arg s =
      (match checkRole c "permissions" "write" s with
        | (some err, s1) => (some err, s1)
        | (none, s1) =>
          (some "Permission denied",
            (run _ "RemoveTeamAdmin-IsTeamAdmin"
              (IsTeamAdminExecutor.task ⟨arg.ManagerAuthArg, arg.Team⟩) ⟨false⟩ s1).2)) := by
    unfold RemoveTeamAdminExecutor.Authorize
    rcases hc : checkRole c "permissions" "write" s with ⟨e, s1⟩
    cases e with
    | some err => rfl
    | none =>
      have h := IsTeamAdmin_run_false run hrun "RemoveTeamAdmin-IsTeamAdmin"
        ⟨arg.ManagerAuthArg, arg.Team⟩ s1
      simp only [h, or_true, if_true]
  refine ⟨fun t req reply s0 => rfl, ?_, ?_, hadd, hrem⟩
  · rw [hadd]
    rcases checkRole c "permissions" "write" s with ⟨e, s1⟩
    cases e <;> simp
  · rw [hrem]
    rcases checkRole c "permissions" "write" s with ⟨e, s1⟩
    cases e <;> simp

/-- Witness for C23: on the sample fleet the manager `m2` has the role, the run is the
one modelled from the spec with an open gate, and the check of `alice` for `team-a`
ends with a non-nil error. -/
theorem team_admin_Authorize_never_nil_witness :
    (AddTeamAdminExecutor.Authorize (Fleet.collab "us-east-1" "m2" id)
      (Run.spec (fun s => (none, s))) (fun _ s => (none, s))
      ⟨⟨"alice", "pw"⟩, "team-a", "bob"⟩ Fleet.sample).1 ≠ none ∧
    (RemoveTeamAdminExecutor.Authorize (Fleet.collab "us-east-1" "m2" id)
      (Run.spec (fun s => (none, s))) ⟨⟨"alice", "pw"⟩, "team-a", "bob"⟩ Fleet.sample).1 ≠
        none ∧
    checkRole (Fleet.collab "us-east-1" "m2" id) "permissions" "write" Fleet.sample =
      (none, Fleet.sample) :=
  ⟨(team_admin_Authorize_never_nil (Fleet.collab "us-east-1" "m2" id)
      (Run.spec (fun s => (none, s))) (fun _ s => (none, s))
      (Run.spec_writesThroughExecute _) ⟨⟨"alice", "pw"⟩, "team-a", "bob"⟩ Fleet.sample).2.1,
   (team_admin_Authorize_never_nil (Fleet.collab "us-east-1" "m2" id)
      (Run.spec (fun s => (none, s))) (fun _ s => (none, s))
      (Run.spec_writesThroughExecute _) ⟨⟨"alice", "pw"⟩, "team-a", "bob"⟩ Fleet.sample).2.2.1,
   by decide⟩

end Rpc

/-! ## The allowed apps of a caller -/

namespace Rpc

variable {σ : Type}

/-- Marking an app as allowed: the allowed apps afterwards are that app and those
allowed before. -/
theorem allowed_set (m : GoMap Bool) (k x : String) :
    allowed (GoMap.set m k true) x = true ↔ x = k ∨ allowed m x = true := by
  unfold allowed
  by_cases h : x = k
  · subst h
    simp [Datamodel.GoMap.get_set]
  · rw [Datamodel.GoMap.get_set_ne m k x true h]
    simp [h]

/-- The inner loop of `GetAllowedApps` marks exactly the apps of the record. -/
theorem allowed_foldl_set (apps : List String) (acc : GoMap Bool) (x : String) :
    allowed (apps.foldl (fun r app => GoMap.set r app true) acc) x = true ↔
      allowed acc x = true ∨ x ∈ apps := by
  induction apps generalizing acc with
  | nil => simp
  | cons a rest ih =>
    rw [List.foldl_cons, ih, allowed_set, List.mem_cons]
    tauto

/-- The inner loop of `GetAllowedApps` keeps a map whose values are all true that way. -/
theorem allTrue_foldl_set (apps : List String) (acc : GoMap Bool)
    (h : ∀ e ∈ acc, e.2 = true) :
    ∀ e ∈ apps.foldl (fun r app => GoMap.set r app true) acc, e.2 = true := by
  induction apps generalizing acc with
  | nil => simpa using h
  | cons a rest ih =>
    rw [List.foldl_cons]
    apply ih
    intro e he
    simp only [GoMap.set, GoMap.delete, List.mem_cons, List.mem_filter] at he
    rcases he with he | he
    · rw [he]
    · exact h e he.1

/-- The outer loop of `GetAllowedApps` keeps a map whose values are all true that way. -/
theorem GetAllowedApps.loop_allTrue (c : Collab σ) (teams : List String)
    (acc : GoMap Bool × σ) (h : ∀ e ∈ acc.1, e.2 = true) :
    ∀ e ∈ (teams.foldl
      (fun (acc : GoMap Bool × σ) team =>
        match c.GetTeamapps team acc.2 with
        | (teamApps, s2) => (teamApps.Apps.foldl (fun r app => GoMap.set r app true) acc.1, s2))
      acc).1, e.2 = true := by
  induction teams generalizing acc with
  | nil => simpa using h
  | cons t rest ih =>
    rw [List.foldl_cons]
    apply ih
    exact allTrue_foldl_set _ _ h

/-- When reading a team-apps record leaves the state alone, the outer loop of
`GetAllowedApps` marks exactly the apps of the records of the teams. -/
theorem GetAllowedApps.loop_readonly (c : Collab σ)
    (hro : ∀ team st, (c.GetTeamapps team st).2 = st) (teams : List String)
    (acc : GoMap Bool) (s : σ) (x : String) :
    (teams.foldl
      (fun (acc : GoMap Bool × σ) team =>
        match c.GetTeamapps team acc.2 with
        | (teamApps, s2) => (teamApps.Apps.foldl (fun r app => GoMap.set r app true) acc.1, s2))
      (acc, s)).2 = s ∧
    (allowed (teams.foldl
      (fun (acc : GoMap Bool × σ) team =>
        match c.GetTeamapps team acc.2 with
        | (teamApps, s2) => (teamApps.Apps.foldl (fun r app => GoMap.set r app true) acc.1, s2))
      (acc, s)).1 x = true ↔
      allowed acc x = true ∨ ∃ team ∈ teams, x ∈ (c.GetTeamapps team s).1.Apps) := by
  induction teams generalizing acc with
  | nil => simp
  | cons t rest ih =>
    rw [List.foldl_cons]
    have h2 := hro t s
    simp only [h2]
    obtain ⟨i1, i2⟩ := ih ((c.GetTeamapps t s).1.Apps.foldl (fun r app => GoMap.set r app true) acc)
    refine ⟨i1, ?_⟩
    rw [i2, allowed_foldl_set]
    simp only [List.mem_cons, exists_eq_or_imp]
    tauto

/-- `ListTeams` returns a nil error. -/
theorem ListTeams_err (c : Collab σ) (auth : ManagerAuthArg) (s : σ) :
    (ListTeams c auth s).1.2 = none := by
  unfold ListTeams
  rcases c.LookupTeam auth.User auth.Secret s with ⟨r, s1⟩
  cases r <;> rfl

/-- With the nil error of `ListTeams`, `GetAllowedApps` is its loop over the teams. -/
theorem GetAllowedApps_eq_loop (c : Collab σ) (auth : ManagerAuthArg) (u : String) (s : σ) :
    GetAllowedApps c auth u s =
      (ListTeams c auth s).1.1.foldl
        (fun (acc : GoMap Bool × σ) team =>
          match c.GetTeamapps team acc.2 with
          | (teamApps, s2) =>
            (teamApps.Apps.foldl (fun r app => GoMap.set r app true) acc.1, s2))
        ([], (ListTeams c auth s).2) := by
  have h := ListTeams_err c auth s
  unfold GetAllowedApps
  rcases hl : ListTeams c auth s with ⟨⟨teams, e⟩, s1⟩
  rw [hl] at h
  simp only at h
  subst h
  rfl

/-- C24: `GetAllowedApps(auth, user)` does not depend on `user`: for every two users the
result (map and state) is the same. Every value of the map is true, and, when reading a
team-apps record leaves the state alone, an app is in the map exactly when it is in the
team-apps record of some team that `ListTeams(auth)` returns. -/
theorem GetAllowedApps_ignores_user (c : Collab σ) (auth : ManagerAuthArg) (s : σ) :
    (∀ u1 u2, GetAllowedApps c auth u1 s = GetAllowedApps c auth u2 s) ∧
    (∀ u app v, GoMap.get (GetAllowedApps c auth u s).1 app = some v → v = true) ∧
    ((∀ team st, (c.GetTeamapps team st).2 = st) → ∀ u app,
      (allowed (GetAllowedApps c auth u s).1 app = true ↔
        ∃ team ∈ (ListTeams c auth s).1.1,
          app ∈ (c.GetTeamapps team (ListTeams c auth s).2).1.Apps)) := by
  refine ⟨fun u1 u2 => rfl, ?_, ?_⟩
  · intro u app v h
    rw [GetAllowedApps_eq_loop] at h
    have hall := GetAllowedApps.loop_allTrue c (ListTeams c auth s).1.1
      ([], (ListTeams c auth s).2) (by simp)
    simp only [GoMap.get, Option.map_eq_some'] at h
    obtain ⟨e, he, hv⟩ := h
    rw [← hv]
    exact hall e (List.mem_of_find?_eq_some he)
  · intro hro u app
    rw [GetAllowedApps_eq_loop]
    rw [(GetAllowedApps.loop_readonly c hro _ [] _ app).2]
    simp [allowed, GoMap.get]

/-- On the fleet, with plain reads, reading a team-apps record leaves the state alone. -/
theorem Fleet.collab_GetTeamapps_state (region host team : String) (f : Fleet) :
    ((Fleet.collab region host id).GetTeamapps team f).2 = f := by
  simp only [Fleet.collab]
  split <;> rfl

/-- Witness for C24: on the sample fleet the allowed apps of `alice` are those of her
team `team-a`, whoever is named as the user. -/
theorem GetAllowedApps_ignores_user_witness :
    (allowed (GetAllowedApps (Fleet.collab "us-east-1" "m1" id) ⟨"alice", "pw"⟩ "mallory"
        Fleet.sample).1 "app" = true ↔
      ∃ team ∈ (ListTeams (Fleet.collab "us-east-1" "m1" id) ⟨"alice", "pw"⟩ Fleet.sample).1.1,
        "app" ∈ ((Fleet.collab "us-east-1" "m1" id).GetTeamapps team
          (ListTeams (Fleet.collab "us-east-1" "m1" id) ⟨"alice", "pw"⟩ Fleet.sample).2).1.Apps) ∧
    allowed (GetAllowedApps (Fleet.collab "us-east-1" "m1" id) ⟨"alice", "pw"⟩ "mallory"
        Fleet.sample).1 "app" = true :=
  ⟨(GetAllowedApps_ignores_user (Fleet.collab "us-east-1" "m1" id) ⟨"alice", "pw"⟩
      Fleet.sample).2.2 (fun team st => Fleet.collab_GetTeamapps_state _ _ team st)
      "mallory" "app",
   by decide⟩

end Rpc

/-! ## The super-user check -/

namespace Rpc

variable {σ : Type}

/-- `contains(arr, str)` is membership. -/
theorem contains_iff (arr : List String) (str : String) :
    contains arr str = true ↔ str ∈ arr := by
  induction arr with
  | nil => simp [contains]
  | cons a rest ih =>
    unfold contains
    by_cases h : a = str
    · simp [h]
    · simp [h, ih, Ne.symm h]

/-- The teams `ListTeams` returns are those of the directory lookup, none for a nil
result. -/
theorem ListTeams_eq (c : Collab σ) (auth : ManagerAuthArg) (s : σ) :
    ListTeams c auth s =
      ((((c.LookupTeam auth.User auth.Secret s).1).getD [], none),
        (c.LookupTeam auth.User auth.Secret s).2) := by
  unfold ListTeams
  rcases c.LookupTeam auth.User auth.Secret s with ⟨r, s1⟩
  cases r <;> rfl

/-- What `IsSuperUserExecutor.Execute` returns: a nil error, and the flag. -/
theorem IsSuperUserExecutor.Execute_eq (c : Collab σ) (ldap : LdapConfig) (t : Task)
    (arg : ManagerSuperUserArg) (reply : ManagerSuperUserReply) (s : σ) :
    IsSuperUserExecutor.Execute c ldap t arg reply s =
      ((⟨ldap.SkipAuthorization ||
          contains (((c.LookupTeam arg.ManagerAuthArg.User arg.ManagerAuthArg.Secret s).1).getD [])
            ldap.SuperUserGroup⟩, none),
        if ldap.SkipAuthorization then s
        else (c.LookupTeam arg.ManagerAuthArg.User arg.ManagerAuthArg.Secret s).2) := by
  unfold IsSuperUserExecutor.Execute
  by_cases hs : ldap.SkipAuthorization = true
  · simp [hs]
  · simp only [hs, if_false, UserExists, Bool.not_true, Bool.false_eq_true, Bool.false_or]
    rw [ListTeams_eq]
    simp only
    split <;> simp_all

/-- C25: `IsSuperUserExecutor.Execute` returns a nil error, whatever the request and the
directory, and sets `reply.IsSuperUser` to true exactly when `SkipAuthorization` is set
or the team list of the directory lookup for the caller's credentials (none for a nil
result) contains `SuperUserGroup`. Whenever the nested super-user task of
`IsAppAllowed` returns nil with `IsSuperUser` true, `IsAppAllowed` returns true for
every user and app; with the run modelled from the spec and an open gate that is
whenever the check yields true. -/
theorem IsSuperUser_spec (c : Collab σ) (ldap : LdapConfig) (auth : ManagerAuthArg) (s : σ) :
    (∀ t reply, (IsSuperUserExecutor.Execute c ldap t ⟨auth⟩ reply s).1.2 = none) ∧
    (∀ t reply, ((IsSuperUserExecutor.Execute c ldap t ⟨auth⟩ reply s).1.1.IsSuperUser = true ↔
      ldap.SkipAuthorization = true ∨
        ldap.SuperUserGroup ∈ ((c.LookupTeam auth.User auth.Secret s).1).getD [])) ∧
    (∀ (run : Run σ) r s1 user app,
      run _ "IsAppAllowed-IsSuperUser" (IsSuperUserExecutor.task c ldap ⟨auth⟩) ⟨false⟩ s =
        ((r, none), s1) →
      r.IsSuperUser = true → IsAppAllowed c run ldap auth user app s = (true, s1)) ∧
    (∀ (gate : σ → Option Error × σ) user app, (gate s).1 = none →
      (ldap.SkipAuthorization = true ∨
        ldap.SuperUserGroup ∈ ((c.LookupTeam auth.User auth.Secret (gate s).2).1).getD []) →
      (IsAppAllowed c (Run.spec gate) ldap auth user app s).1 = true) := by
  have hflag : ∀ t reply s0,
      ((IsSuperUserExecutor.Execute c ldap t ⟨auth⟩ reply s0).1.1.IsSuperUser = true ↔
      ldap.SkipAuthorization = true ∨
        ldap.SuperUserGroup ∈ ((c.LookupTeam auth.User auth.Secret s0).1).getD []) := by
    intro t reply s0
    rw [IsSuperUserExecutor.Execute_eq]
    simp [contains_iff]
  have hrun : ∀ (run : Run σ) r s1 user app,
      run _ "IsAppAllowed-IsSuperUser" (IsSuperUserExecutor.task c ldap ⟨auth⟩) ⟨false⟩ s =
        ((r, none), s1) →
      r.IsSuperUser = true → IsAppAllowed c run ldap auth user app s = (true, s1) := by
    intro run r s1 user app h hr
    unfold IsAppAllowed
    simp only [h, hr, if_true]
  refine ⟨?_, fun t reply => hflag t reply s, hrun, ?_⟩
  · intro t reply
    rw [IsSuperUserExecutor.Execute_eq]
  · intro gate user app hg hsu
    rcases hgs : gate s with ⟨e, s1⟩
    rw [hgs] at hg hsu
    simp only at hg hsu
    subst hg
    have hex := (hflag ⟨"IsAppAllowed-IsSuperUser", ""⟩ ⟨false⟩ s1).mpr hsu
    have hnil : (IsSuperUserExecutor.Execute c ldap ⟨"IsAppAllowed-IsSuperUser", ""⟩ ⟨auth⟩
        ⟨false⟩ s1).1.2 = none := by rw [IsSuperUserExecutor.Execute_eq]
    have hr : Run.spec gate _ "IsAppAllowed-IsSuperUser" (IsSuperUserExecutor.task c ldap ⟨auth⟩)
        ⟨false⟩ s =
        (((IsSuperUserExecutor.Execute c ldap ⟨"IsAppAllowed-IsSuperUser", ""⟩ ⟨auth⟩
            ⟨false⟩ s1).1.1, none),
          (IsSuperUserExecutor.Execute c ldap ⟨"IsAppAllowed-IsSuperUser", ""⟩ ⟨auth⟩
            ⟨false⟩ s1).2) := by
      simp only [Run.spec, IsSuperUserExecutor.task, IsSuperUserExecutor.Authorize, hgs,
        Bool.false_eq_true, if_false]
      rw [← hnil]
    rw [hrun (Run.spec gate) _ _ user app hr hex]

/-- Witness for C25: in the fleet with the super-user group, `root` may use every app,
here `zeta`, which no team is allowed. -/
theorem IsSuperUser_spec_witness :
    (IsAppAllowed (Fleet.collab "us-east-1" "m1" id) (Run.spec (fun s => (none, s)))
      ⟨false, "atlantis-su"⟩ ⟨"root", "pw"⟩ "root" "zeta" Fleet.withSuperUser).1 = true :=
  (IsSuperUser_spec (Fleet.collab "us-east-1" "m1" id) ⟨false, "atlantis-su"⟩ ⟨"root", "pw"⟩
    Fleet.withSuperUser).2.2.2 (fun s => (none, s)) "root" "zeta" rfl (Or.inr (by decide))

end Rpc

/-! ## AddDependerAppData -/

namespace Datamodel

variable {σ : Type}

/-- When the loop over the env records ends without error, it has kept the keys and
encrypted every record. -/
theorem ZkApp.AddDependerAppData.encryptEnvs_ok (c : Collab σ)
    (envs : List (String × Datamodel.DependerEnvData)) (s : σ)
    (h : (ZkApp.AddDependerAppData.encryptEnvs c envs s).1.2 = none) :
    (ZkApp.AddDependerAppData.encryptEnvs c envs s).1.1 =
      envs.map (fun e => (e.1, c.EncryptDependerEnvData e.2)) := by
  induction envs generalizing s with
  | nil => rfl
  | cons e rest ih =>
    obtain ⟨k, ded⟩ := e
    unfold ZkApp.AddDependerAppData.encryptEnvs at h ⊢
    rcases hg : c.GetEnv ded.Name s with ⟨err, s1⟩
    cases err with
    | some e0 => simp [hg] at h
    | none =>
      simp only [hg] at h ⊢
      simp only [List.map_cons, List.cons.injEq, true_and]
      exact ih s1 h

/-- Looking a key up after every record has been rewritten. -/
theorem GoMap.get_map_snd {V W : Type} (m : GoMap V) (f : V → W) (k : String) :
    GoMap.get (m.map (fun e => (e.1, f e.2))) k = (GoMap.get m k).map f := by
  induction m with
  | nil => rfl
  | cons e rest ih =>
    simp only [GoMap.get, List.map_cons, List.find?_cons] at ih ⊢
    cases h : e.1 == k
    · simpa using ih
    · simp

end Datamodel
namespace Datamodel

variable {σ : Type}

/-- The entry of `data.DependerEnvData` under a key after the loop of
`AddDependerAppData` has ended without error: the encrypted entry of before. -/
theorem ZkApp.AddDependerAppData.get_after (c : Collab σ) (data : Datamodel.DependerAppData)
    (s : σ) (k : String)
    (h : (ZkApp.AddDependerAppData.encryptEnvs c (data.DependerEnvData.getD []) s).1.2 = none) :
    GoMap.get ((data.DependerEnvData.map (fun _ =>
        (ZkApp.AddDependerAppData.encryptEnvs c (data.DependerEnvData.getD []) s).1.1)).getD [])
      k = (GoMap.get (data.DependerEnvData.getD []) k).map c.EncryptDependerEnvData := by
  rw [ZkApp.AddDependerAppData.encryptEnvs_ok c _ s h]
  cases hd : data.DependerEnvData with
  | none => rfl
  | some m =>
    simp only [Option.map_some', Option.getD_some]
    exact GoMap.get_map_snd m _ k

/-- C26: `AddDependerAppData` indexes `data.DependerEnvData` by `data.Name`, the name of
the depender app. When `GetApp(data.Name)` and the env checks of the loop succeed: if
the map has no entry under `data.Name`, the call panics with a nil dereference, with
`data` already stored in `za.DependerAppData[data.Name]` and in the state the loop left
(no insert, no `Save`); if it has one, the call runs to its `Save` and returns what the
`Save` returns. So the call completes exactly when the entry exists. -/
theorem AddDependerAppData_indexes_by_app_name (c : Collab σ) (d : DepCollab σ) (za : ZkApp)
    (data : Datamodel.DependerAppData) (s : σ)
    (happ : (GetApp c data.Name s).1.2 = none)
    (henvs : (ZkApp.AddDependerAppData.encryptEnvs c (data.DependerEnvData.getD [])
      (GetApp c data.Name s).2).1.2 = none) :
    (GoMap.get (data.DependerEnvData.getD []) data.Name = none →
      (za.AddDependerAppData c d data s).1.2.2 = .error .nilDereference ∧
      GoMap.get ((za.AddDependerAppData c d data s).1.1.DependerAppData.getD []) data.Name =
        some (za.AddDependerAppData c d data s).1.2.1 ∧
      (za.AddDependerAppData c d data s).2 =
        (ZkApp.AddDependerAppData.encryptEnvs c (data.DependerEnvData.getD [])
          (GetApp c data.Name s).2).2) ∧
    ((GoMap.get (data.DependerEnvData.getD []) data.Name).isSome →
      ∃ s4, (za.AddDependerAppData c d data s).1.2.2 =
          .ok ((za.AddDependerAppData c d data s).1.1.Save c s4).1 ∧
        (za.AddDependerAppData c d data s).2 =
          ((za.AddDependerAppData c d data s).1.1.Save c s4).2) ∧
    ((∃ err, (za.AddDependerAppData c d data s).1.2.2 = .ok err) ↔
      (GoMap.get (data.DependerEnvData.getD []) data.Name).isSome) := by
  have hget := ZkApp.AddDependerAppData.get_after c data (GetApp c data.Name s).2 data.Name henvs
  rcases hga : GetApp c data.Name s with ⟨⟨o, e⟩, s1⟩
  rw [hga] at happ henvs hget
  simp only at happ henvs hget
  subst happ
  rcases hen : ZkApp.AddDependerAppData.encryptEnvs c (data.DependerEnvData.getD []) s1 with
    ⟨⟨envs1, e1⟩, s2⟩
  rw [hen] at henvs hget
  simp only at henvs hget
  subst henvs
  have hrun : za.AddDependerAppData c d data s =
      (match GoMap.get ((data.DependerEnvData.map (fun _ => envs1)).getD []) data.Name with
      | none =>
        (({ (if za.DependerAppData.isNone then { za with DependerAppData := some [] } else za) with
            DependerAppData := some (GoMap.set
              ((if za.DependerAppData.isNone then { za with DependerAppData := some [] }
                else za).DependerAppData.getD []) data.Name
              { data with DependerEnvData := data.DependerEnvData.map (fun _ => envs1) }) },
          { data with DependerEnvData := data.DependerEnvData.map (fun _ => envs1) },
          .error .nilDereference), s2)
      | some ded =>
        (({ (if za.DependerAppData.isNone then { za with DependerAppData := some [] } else za) with
            DependerAppData := some (GoMap.set
              ((if za.DependerAppData.isNone then { za with DependerAppData := some [] }
                else za).DependerAppData.getD []) data.Name
              { data with DependerEnvData := data.DependerEnvData.map (fun _ => envs1) }) },
          { data with DependerEnvData := data.DependerEnvData.map (fun _ => envs1) },
          .ok (ZkApp.Save c
            { (if za.DependerAppData.isNone then { za with DependerAppData := some [] } else za) with
              DependerAppData := some (GoMap.set
                ((if za.DependerAppData.isNone then { za with DependerAppData := some [] }
                  else za).DependerAppData.getD []) data.Name
                { data with DependerEnvData := data.DependerEnvData.map (fun _ => envs1) }) }
            (d.DbInsertAppDep
              { ID := 0, DepApp := data.Name,
                EnvDepDataId := d.insertedDepID (c.DbInsertDep
                  { ID := 0, Enviroment := ded.Name,
                    SecGroup := c.marshalSecurityGroup ded.SecurityGroup,
                    DataMap := c.marshalDataMap ded.DataMap,
                    EncryptedData := c.Encrypt (c.marshalDataMap ded.DataMap),
                    App := "", Instance := "" } s2).2,
                App := za.Name }
              (c.DbInsertDep
                { ID := 0, Enviroment := ded.Name,
                  SecGroup := c.marshalSecurityGroup ded.SecurityGroup,
                  DataMap := c.marshalDataMap ded.DataMap,
                  EncryptedData := c.Encrypt (c.marshalDataMap ded.DataMap),
                  App := "", Instance := "" } s2).2).2).1),
          (ZkApp.Save c
            { (if za.DependerAppData.isNone then { za with DependerAppData := some [] } else za) with
              DependerAppData := some (GoMap.set
                ((if za.DependerAppData.isNone then { za with DependerAppData := some [] }
                  else za).DependerAppData.getD []) data.Name
                { data with DependerEnvData := data.DependerEnvData.map (fun _ => envs1) }) }
            (d.DbInsertAppDep
              { ID := 0, DepApp := data.Name,
                EnvDepDataId := d.insertedDepID (c.DbInsertDep
                  { ID := 0, Enviroment := ded.Name,
                    SecGroup := c.marshalSecurityGroup ded.SecurityGroup,
                    DataMap := c.marshalDataMap ded.DataMap,
                    EncryptedData := c.Encrypt (c.marshalDataMap ded.DataMap),
                    App := "", Instance := "" } s2).2,
                App := za.Name }
              (c.DbInsertDep
                { ID := 0, Enviroment := ded.Name,
                  SecGroup := c.marshalSecurityGroup ded.SecurityGroup,
                  DataMap := c.marshalDataMap ded.DataMap,
                  EncryptedData := c.Encrypt (c.marshalDataMap ded.DataMap),
                  App := "", Instance := "" } s2).2).2).2)) := by
    unfold ZkApp.AddDependerAppData
    simp only [hga, hen]
    split <;> rename_i hm <;> simp only [hm]
    by_cases hz : za.DependerAppData.isNone <;> simp [hz]
  rw [hrun, hget]
  cases hk : GoMap.get (data.DependerEnvData.getD []) data.Name with
  | none =>
    simp only [Option.map_none']
    refine ⟨fun _ => ⟨by first | rfl | trivial, ?_, by first | rfl | trivial⟩,
      fun h => absurd h (by simp), ?_⟩
    · simp [GoMap.get_set]
    · constructor
      · rintro ⟨err, h⟩
        cases h
      · intro h
        exact absurd h (by simp)
  | some ded0 =>
    simp only [Option.map_some']
    refine ⟨fun h => absurd h (by simp), fun _ => ⟨_, rfl, rfl⟩, ?_⟩
    exact ⟨fun _ => rfl, fun _ => ⟨_, rfl⟩⟩

/-- Witness for C26: on the sample store the app `a` and the env `prod` exist; the
dependency data of the depender `a` is keyed by the env `prod`, so there is no entry
under `a` and the call panics. -/
theorem AddDependerAppData_indexes_by_app_name_witness :
    (ZkApp.AddDependerAppData World.collab World.depCollab
      ⟨false, true, "b", "b@example.com", "git://b", "/", some [], some []⟩
      ⟨"a", some [("prod", ⟨"prod", [], "", []⟩)]⟩ World.sample).1.2.2 =
        .error .nilDereference :=
  ((AddDependerAppData_indexes_by_app_name World.collab World.depCollab
      ⟨false, true, "b", "b@example.com", "git://b", "/", some [], some []⟩
      ⟨"a", some [("prod", ⟨"prod", [], "", []⟩)]⟩ World.sample (by decide) (by decide)).1
    (by decide)).1

end Datamodel

/-! ## RemoveDependerEnvData -/

namespace Datamodel

variable {σ : Type}

/-- The env map of the record after `RemoveDependerEnvData(env)`: the map of before
(empty for nil) without the key. -/
theorem ZkApp.RemoveDependerEnvData_map (c : Collab σ) (d : DepCollab σ) (za : ZkApp)
    (env : String) (s : σ) :
    (za.RemoveDependerEnvData c d env s).1.1.DependerEnvData =
      some (GoMap.delete (za.DependerEnvData.getD []) env) := by
  unfold ZkApp.RemoveDependerEnvData
  cases h : za.DependerEnvData <;> simp [h]

/-- The env map of the record after an `AddDependerEnvData(data)` whose env exists: the
map of before (empty for nil) with the encrypted record under its name. -/
theorem ZkApp.AddDependerEnvData_map (c : Collab σ) (za : ZkApp)
    (data : Datamodel.DependerEnvData) (s : σ) (henv : (c.GetEnv data.Name s).1 = none) :
    (za.AddDependerEnvData c data s).1.1.DependerEnvData =
      some (GoMap.set (za.DependerEnvData.getD []) (c.EncryptDependerEnvData data).Name
        (c.EncryptDependerEnvData data)) := by
  unfold ZkApp.AddDependerEnvData
  rcases hg : c.GetEnv data.Name s with ⟨e, s1⟩
  rw [hg] at henv
  simp only at henv
  subst henv
  cases h : za.DependerEnvData <;> simp [h]

/-- `GetDependerEnvData(env, decrypt)` returns nil when the map has no entry under the
key. -/
theorem ZkApp.GetDependerEnvData_nil (c : Collab σ) (d : DepCollab σ) (za : ZkApp)
    (env : String) (decrypt : Bool) (s : σ)
    (h : GoMap.get (za.DependerEnvData.getD []) env = none) :
    (za.GetDependerEnvData c d env decrypt s).1.2 = none := by
  unfold ZkApp.GetDependerEnvData
  cases hm : za.DependerEnvData with
  | none => simp [GoMap.get]
  | some m =>
    rw [hm] at h
    simp only [Option.getD_some] at h
    simp [hm, h]

/-- Deleting a key that is absent leaves the map as it is. -/
theorem GoMap.delete_absent {V : Type} (m : GoMap V) (k : String)
    (h : GoMap.get m k = none) : GoMap.delete m k = m := by
  unfold GoMap.delete
  rw [List.filter_eq_self]
  intro e he
  simp only [GoMap.get, Option.map_eq_none', List.find?_eq_none] at h
  simpa using h e he

/-- C27: for an env that exists and an encryption that leaves the name of the record
alone, after `AddDependerEnvData(data)` and then `RemoveDependerEnvData(data.Name)` the
record has no entry under `data.Name` (`GetDependerEnvData(data.Name, decrypt)` returns
nil) and every other key holds what it held before the add. Removing a key that is
absent leaves the entries of the map unchanged. -/
theorem RemoveDependerEnvData_undoes_add (c : Collab σ) (d : DepCollab σ) (za : ZkApp)
    (data : Datamodel.DependerEnvData) (s : σ)
    (henv : (c.GetEnv data.Name s).1 = none)
    (hname : (c.EncryptDependerEnvData data).Name = data.Name) :
    (∀ decrypt,
      (((za.AddDependerEnvData c data s).1.1.RemoveDependerEnvData c d data.Name
          (za.AddDependerEnvData c data s).2).1.1.GetDependerEnvData c d data.Name decrypt
        ((za.AddDependerEnvData c data s).1.1.RemoveDependerEnvData c d data.Name
          (za.AddDependerEnvData c data s).2).2).1.2 = none) ∧
    (∀ k, k ≠ data.Name →
      GoMap.get (((za.AddDependerEnvData c data s).1.1.RemoveDependerEnvData c d data.Name
          (za.AddDependerEnvData c data s).2).1.1.DependerEnvData.getD []) k =
        GoMap.get (za.DependerEnvData.getD []) k) ∧
    (∀ (zb : ZkApp) (e : String) (st : σ),
      GoMap.get (zb.DependerEnvData.getD []) e = none →
      (zb.RemoveDependerEnvData c d e st).1.1.DependerEnvData.getD [] =
        zb.DependerEnvData.getD []) := by
  have hmap : ((za.AddDependerEnvData c data s).1.1.RemoveDependerEnvData c d data.Name
      (za.AddDependerEnvData c data s).2).1.1.DependerEnvData =
      some (GoMap.delete (GoMap.set (za.DependerEnvData.getD []) data.Name
        (c.EncryptDependerEnvData data)) data.Name) := by
    rw [ZkApp.RemoveDependerEnvData_map, ZkApp.AddDependerEnvData_map c za data s henv, hname]
    rfl
  refine ⟨?_, ?_, ?_⟩
  · intro decrypt
    apply ZkApp.GetDependerEnvData_nil
    rw [hmap]
    exact GoMap.get_delete _ _
  · intro k hk
    rw [hmap]
    simp only [Option.getD_some]
    rw [GoMap.get_delete_ne _ _ _ hk, GoMap.get_set_ne _ _ _ _ hk]
  · intro zb e st h
    rw [ZkApp.RemoveDependerEnvData_map]
    simp only [Option.getD_some]
    exact GoMap.delete_absent _ _ h

/-- Witness for C27: on the sample store, adding data for the env `prod` to a record
that holds data for `stage` and removing `prod` again leaves `stage` and no `prod`. -/
theorem RemoveDependerEnvData_undoes_add_witness :
    (∀ decrypt,
      (((ZkApp.AddDependerEnvData World.collab
            ⟨false, false, "a", "e1", "r1", "/1", some [("stage", ⟨"stage", [], "", []⟩)],
              some []⟩ ⟨"prod", [], "", []⟩ World.sample).1.1.RemoveDependerEnvData
          World.collab World.depCollab "prod"
          (ZkApp.AddDependerEnvData World.collab
            ⟨false, false, "a", "e1", "r1", "/1", some [("stage", ⟨"stage", [], "", []⟩)],
              some []⟩ ⟨"prod", [], "", []⟩ World.sample).2).1.1.GetDependerEnvData
        World.collab World.depCollab "prod" decrypt
        ((ZkApp.AddDependerEnvData World.collab
            ⟨false, false, "a", "e1", "r1", "/1", some [("stage", ⟨"stage", [], "", []⟩)],
              some []⟩ ⟨"prod", [], "", []⟩ World.sample).1.1.RemoveDependerEnvData
          World.collab World.depCollab "prod"
          (ZkApp.AddDependerEnvData World.collab
            ⟨false, false, "a", "e1", "r1", "/1", some [("stage", ⟨"stage", [], "", []⟩)],
              some []⟩ ⟨"prod", [], "", []⟩ World.sample).2).2).1.2 = none) ∧
    ((ZkApp.AddDependerEnvData World.collab
        ⟨false, false, "a", "e1", "r1", "/1", some [("stage", ⟨"stage", [], "", []⟩)],
          some []⟩ ⟨"prod", [], "", []⟩ World.sample).1.1.RemoveDependerEnvData
      World.collab World.depCollab "prod"
      (ZkApp.AddDependerEnvData World.collab
        ⟨false, false, "a", "e1", "r1", "/1", some [("stage", ⟨"stage", [], "", []⟩)],
          some []⟩ ⟨"prod", [], "", []⟩ World.sample).2).1.1.DependerEnvData =
      some [("stage", ⟨"stage", [], "", []⟩)] :=
  ⟨(RemoveDependerEnvData_undoes_add World.collab World.depCollab
      ⟨false, false, "a", "e1", "r1", "/1", some [("stage", ⟨"stage", [], "", []⟩)], some []⟩
      ⟨"prod", [], "", []⟩ World.sample (by decide) rfl).1,
   by decide⟩

end Datamodel

/-! ## The description of ListEnvs -/

namespace Rpc

variable {σ : Type}

/-- The description `Sprintf` builds for a user without `%`. -/
theorem ListEnvsExecutor.Sprintf_plain (user app sha : String) (h : '%' ∉ user.data) :
    Sprintf ("[" ++ user ++ "] %s @ %s") [.str app, .str sha] =
      some ("[" ++ user ++ "] " ++ app ++ " @ " ++ sha) := by
  have h0 : '%' ∉ '[' :: user.data := by
    intro hm
    rcases List.mem_cons.mp hm with e | e
    · exact absurd e (by decide)
    · exact h e
  have hgo : Sprintf.go ("] %s @ %s".data) [.str app, .str sha] =
      some (']' :: ' ' :: (app.data ++ (' ' :: '@' :: ' ' :: (sha.data ++ [])))) := rfl
  have := Sprintf.go_plain ('[' :: user.data) ("] %s @ %s".data) [.str app, .str sha] h0
  rw [hgo] at this
  simp only [Sprintf, String.data_append]
  show Option.map String.mk (Sprintf.go ('[' :: user.data ++ "] %s @ %s".data) _) = _
  rw [this]
  simp only [Option.map_some', Option.some.injEq]
  apply String.ext
  simp [String.data_append]

/-- A description of the form `[user] app @ sha` is not `[user] All`. -/
theorem ListEnvsExecutor.plain_ne_all (user app sha : String) :
    "[" ++ user ++ "] " ++ app ++ " @ " ++ sha ≠ "[" ++ user ++ "] All" := by
  intro h
  have hd := congrArg String.data h
  simp only [String.data_append, List.append_assoc] at hd
  have h1 := List.append_cancel_left hd
  have h2 := List.append_cancel_left h1
  have h3 := List.append_cancel_left h2
  have hm : '@' ∈ app.data ++ (" @ ".data ++ sha.data) := by
    apply List.mem_append_right
    apply List.mem_append_left
    decide
  rw [h3] at hm
  exact absurd hm (by decide)

/-- C28, the code evaluated: when both `App` and `Sha` are non-empty, `Description` is
"[user] All" and `Execute` lists with `ListAppEnvs(App, Sha)`; when `App` or `Sha` is
empty, `Execute` lists with `ListEnvs()` and `Description` is what `Sprintf` makes of the
format "[user] %s @ %s", of which the user is a part. For a user without `%` that is
"[user] <App> @ <Sha>", a string other than "[user] All"; for the user `%s`, with `App`
empty and `Sha` = `x`, it is "[] x @ %!s(MISSING)", not "[%s]  @ x". -/
theorem ListEnvs_description_inverted (c : Collab σ) (arg : ManagerListEnvsArg)
    (reply : ManagerListEnvsReply) (s : σ) :
    (arg.App ≠ "" ∧ arg.Sha ≠ "" →
      ListEnvsExecutor.Description arg = some ("[" ++ arg.ManagerAuthArg.User ++ "] All") ∧
      ListEnvsExecutor.Execute c arg reply s =
        (match c.ListAppEnvs arg.App arg.Sha s with
          | ((envs, some err), s1) =>
            (({ reply with Envs := envs, Status := StatusError }, some err), s1)
          | ((envs, none), s1) =>
            (({ reply with Envs := sortStrings envs, Status := StatusOk }, none), s1))) ∧
    (arg.App = "" ∨ arg.Sha = "" →
      ListEnvsExecutor.Description arg =
        Sprintf ("[" ++ arg.ManagerAuthArg.User ++ "] %s @ %s") [.str arg.App, .str arg.Sha] ∧
      ListEnvsExecutor.Execute c arg reply s =
        (match c.ListEnvs s with
          | ((envs, some err), s1) =>
            (({ reply with Envs := envs, Status := StatusError }, some err), s1)
          | ((envs, none), s1) =>
            (({ reply with Envs := sortStrings envs, Status := StatusOk }, none), s1)) ∧
      ('%' ∉ arg.ManagerAuthArg.User.data →
        ListEnvsExecutor.Description arg =
          some ("[" ++ arg.ManagerAuthArg.User ++ "] " ++ arg.App ++ " @ " ++ arg.Sha) ∧
        ListEnvsExecutor.Description arg ≠
          some ("[" ++ arg.ManagerAuthArg.User ++ "] All"))) ∧
    (ListEnvsExecutor.Description ⟨⟨"%s", "pw"⟩, "", "x"⟩ = some "[] x @ %!s(MISSING)" ∧
      ListEnvsExecutor.Description ⟨⟨"%s", "pw"⟩, "", "x"⟩ ≠ some "[%s]  @ x") := by
  refine ⟨?_, ?_, by decide⟩
  · rintro ⟨ha, hs⟩
    have hn : ¬ (arg.App = "" ∨ arg.Sha = "") := by
      rintro (h | h)
      · exact ha h
      · exact hs h
    unfold ListEnvsExecutor.Description ListEnvsExecutor.Execute
    rw [if_neg hn, if_neg hn]
    exact ⟨rfl, rfl⟩
  · intro h
    have hd : ListEnvsExecutor.Description arg =
        Sprintf ("[" ++ arg.ManagerAuthArg.User ++ "] %s @ %s")
          [.str arg.App, .str arg.Sha] := by
      unfold ListEnvsExecutor.Description
      rw [if_pos h]
    refine ⟨hd, ?_, ?_⟩
    · unfold ListEnvsExecutor.Execute
      rw [if_pos h]
    · intro hu
      rw [hd, ListEnvsExecutor.Sprintf_plain _ _ _ hu]
      refine ⟨rfl, ?_⟩
      intro he
      exact ListEnvsExecutor.plain_ne_all _ _ _ (Option.some.inj he)

/-- Witness for C28: the requests of `alice` for all environments and for those of
`app` at `sha`. -/
theorem ListEnvs_description_inverted_witness :
    ListEnvsExecutor.Description ⟨⟨"alice", "pw"⟩, "app", "sha"⟩ = some "[alice] All" ∧
    ListEnvsExecutor.Description ⟨⟨"alice", "pw"⟩, "", ""⟩ = some "[alice]  @ " :=
  ⟨((ListEnvs_description_inverted (Fleet.collab "us-east-1" "m1" id)
      ⟨⟨"alice", "pw"⟩, "app", "sha"⟩ ⟨[], ""⟩ Fleet.sample).1 (by decide)).1,
   (((ListEnvs_description_inverted (Fleet.collab "us-east-1" "m1" id)
      ⟨⟨"alice", "pw"⟩, "", ""⟩ ⟨[], ""⟩ Fleet.sample).2.1 (Or.inl rfl)).2.2 (by decide)).1⟩

end Rpc

/-! ## The listings are sorted -/

namespace Rpc

variable {σ : Type}

/-- The result of `sortStrings` is in ascending order. -/
theorem sortStrings_sorted (l : List String) : List.Sorted strLe (sortStrings l) :=
  @List.sorted_insertionSort String strLe _ ⟨fun a b => le_total a.data b.data⟩
    ⟨fun _ _ _ h1 h2 => le_trans h1 h2⟩ l

/-- C29: whenever `Execute` returns nil, the list in the reply of `ListContainersExecutor`,
`ListEnvsExecutor`, `ListShasExecutor`, `ListAppsExecutor` and `ListAllowedAppsExecutor`
is in ascending string order and is a permutation of the items the executor selected
before sorting. -/
theorem listings_sorted (c : Collab σ) (run : Run σ) (ldap : LdapConfig) (s : σ) :
    (∀ arg reply, (ListContainersExecutor.Execute c arg reply s).1.2 = none →
      List.Sorted strLe (ListContainersExecutor.Execute c arg reply s).1.1.ContainerIDs ∧
      (ListContainersExecutor.Execute c arg reply s).1.1.ContainerIDs.Perm
        (ListContainersExecutor.selected c arg s)) ∧
    (∀ arg reply, (ListEnvsExecutor.Execute c arg reply s).1.2 = none →
      List.Sorted strLe (ListEnvsExecutor.Execute c arg reply s).1.1.Envs ∧
      (ListEnvsExecutor.Execute c arg reply s).1.1.Envs.Perm
        (ListEnvsExecutor.selected c arg s)) ∧
    (∀ arg reply, (ListShasExecutor.Execute c arg reply s).1.2 = none →
      List.Sorted strLe (ListShasExecutor.Execute c arg reply s).1.1.Shas ∧
      (ListShasExecutor.Execute c arg reply s).1.1.Shas.Perm (c.ListShas arg.App s).1.1) ∧
    (∀ arg reply, (ListAppsExecutor.Execute c arg reply s).1.2 = none →
      List.Sorted strLe (ListAppsExecutor.Execute c arg reply s).1.1.Apps ∧
      (ListAppsExecutor.Execute c arg reply s).1.1.Apps.Perm
        (ListAppsExecutor.selected c arg s)) ∧
    (∀ t arg reply, (ListAllowedAppsExecutor.Execute c run ldap t arg reply s).1.2 = none →
      List.Sorted strLe (ListAllowedAppsExecutor.Execute c run ldap t arg reply s).1.1.Apps ∧
      (ListAllowedAppsExecutor.Execute c run ldap t arg reply s).1.1.Apps.Perm
        (ListAllowedAppsExecutor.selected c run ldap arg s)) := by
  refine ⟨?_, ?_, ?_, ?_, ?_⟩
  · intro arg reply h
    unfold ListContainersExecutor.Execute at h ⊢
    unfold ListContainersExecutor.selected
    by_cases hall : arg.App = "" ∧ arg.Sha = "" ∧ arg.Env = ""
    · rw [if_pos hall] at h ⊢
      rw [if_pos hall]
      rcases hl : c.ListAllInstances s with ⟨⟨ids, e⟩, s1⟩
      cases e with
      | some err => simp [hl] at h
      | none =>
        simp only [hl]
        rcases ha : c.AuthorizeSuperUser arg.ManagerAuthArg s1 with ⟨e1, s2⟩
        cases e1 <;> exact ⟨sortStrings_sorted _, sortStrings_perm _⟩
    · rw [if_neg hall] at h ⊢
      rw [if_neg hall]
      by_cases h1 : arg.App = ""
      · simp [h1] at h
      · by_cases h2 : arg.Sha = ""
        · simp [h1, h2] at h
        · by_cases h3 : arg.Env = ""
          · simp [h1, h2, h3] at h
          · rw [if_neg h1, if_neg h2, if_neg h3] at h ⊢
            rcases hl : c.ListInstances arg.App arg.Sha arg.Env s with ⟨⟨ids, e⟩, s1⟩
            cases e with
            | some err => simp [hl] at h
            | none => exact ⟨sortStrings_sorted _, sortStrings_perm _⟩
  · intro arg reply h
    unfold ListEnvsExecutor.Execute at h ⊢
    unfold ListEnvsExecutor.selected
    by_cases hc : arg.App = "" ∨ arg.Sha = ""
    · rw [if_pos hc] at h ⊢
      rw [if_pos hc]
      rcases hl : c.ListEnvs s with ⟨⟨envs, e⟩, s1⟩
      cases e with
      | some err => simp [hl] at h
      | none => exact ⟨sortStrings_sorted _, sortStrings_perm _⟩
    · rw [if_neg hc] at h ⊢
      rw [if_neg hc]
      rcases hl : c.ListAppEnvs arg.App arg.Sha s with ⟨⟨envs, e⟩, s1⟩
      cases e with
      | some err => simp [hl] at h
      | none => exact ⟨sortStrings_sorted _, sortStrings_perm _⟩
  · intro arg reply h
    unfold ListShasExecutor.Execute at h ⊢
    by_cases h1 : arg.App = ""
    · simp [h1] at h
    · rw [if_neg h1] at h ⊢
      rcases hl : c.ListShas arg.App s with ⟨⟨shas, e⟩, s1⟩
      cases e with
      | some err => simp [hl] at h
      | none => exact ⟨sortStrings_sorted _, sortStrings_perm _⟩
  · intro arg reply _
    unfold ListAppsExecutor.Execute ListAppsExecutor.selected
    rcases hl : c.ListApps s with ⟨⟨apps, e⟩, s1⟩
    simp only
    rcases ha : c.AuthorizeSuperUser arg.ManagerAuthArg s1 with ⟨e1, s2⟩
    cases e1 <;> simp only [ha] <;> exact ⟨sortStrings_sorted _, sortStrings_perm _⟩
  · intro t arg reply h
    unfold ListAllowedAppsExecutor.Execute at h ⊢
    unfold ListAllowedAppsExecutor.selected
    by_cases hs : ldap.SkipAuthorization = true
    · rw [if_pos hs] at h ⊢
      rw [if_pos hs]
      exact ⟨List.sorted_singleton _, List.Perm.refl _⟩
    · rw [if_neg hs] at h ⊢
      rw [if_neg hs]
      rcases hr : run _ "ListAllowedApps-IsSuperUser"
        (IsSuperUserExecutor.task c ldap ⟨arg.ManagerAuthArg⟩) ⟨false⟩ s with ⟨⟨r, e⟩, s1⟩
      cases e with
      | some err => simp [hr] at h
      | none => exact ⟨sortStrings_sorted _, sortStrings_perm _⟩

/-- Witness for C29: on the sample fleet the apps are listed as `zeta`, `app`; the
reply to the super user `root` holds them in ascending order. -/
theorem listings_sorted_witness :
    (List.Sorted strLe (ListAppsExecutor.Execute (Fleet.collab "us-east-1" "m1" id)
        ⟨⟨"root", "pw"⟩⟩ ⟨[], ""⟩ Fleet.sample).1.1.Apps ∧
      (ListAppsExecutor.Execute (Fleet.collab "us-east-1" "m1" id)
        ⟨⟨"root", "pw"⟩⟩ ⟨[], ""⟩ Fleet.sample).1.1.Apps.Perm
        (ListAppsExecutor.selected (Fleet.collab "us-east-1" "m1" id) ⟨⟨"root", "pw"⟩⟩
          Fleet.sample)) ∧
    (ListAppsExecutor.Execute (Fleet.collab "us-east-1" "m1" id)
        ⟨⟨"root", "pw"⟩⟩ ⟨[], ""⟩ Fleet.sample).1.1.Apps = ["app", "zeta"] ∧
    ListAppsExecutor.selected (Fleet.collab "us-east-1" "m1" id) ⟨⟨"root", "pw"⟩⟩
        Fleet.sample = ["zeta", "app"] :=
  ⟨(listings_sorted (Fleet.collab "us-east-1" "m1" id) (Run.spec (fun s => (none, s)))
      ⟨false, "atlantis-su"⟩ Fleet.sample).2.2.2.1 ⟨⟨"root", "pw"⟩⟩ ⟨[], ""⟩ rfl,
   by decide, by decide⟩

end Rpc

/-! ## The listen port of Init -/

namespace Rpc

variable {σ : Type}

/-- A string without the separator is one field. -/
theorem Split_of_not_mem (l : List Char) (sep : Char) (h : sep ∉ l) : Split l sep = [l] := by
  induction l with
  | nil => rfl
  | cons c rest ih =>
    have h1 : c ≠ sep := fun e => h (by simp [e])
    have h2 : sep ∉ rest := fun e => h (by simp [e])
    unfold Split
    rw [if_neg h1, ih h2]

/-- A field without the separator, then the separator: the field is the first one. -/
theorem Split_append (l rest : List Char) (sep : Char) (h : sep ∉ l) :
    Split (l ++ sep :: rest) sep = l :: Split rest sep := by
  induction l with
  | nil =>
    show Split (sep :: rest) sep = _
    conv_lhs => unfold Split
    rw [if_pos rfl]
  | cons c cs ih =>
    have h1 : c ≠ sep := fun e => h (by simp [e])
    have h2 : sep ∉ cs := fun e => h (by simp [e])
    rw [List.cons_append]
    conv_lhs => unfold Split
    rw [if_neg h1, ih h2]

/-- C30: `Init` takes the listen port from the second `:`-separated field of
`listenAddr`. When `LoadEnvs` succeeds: for `listenAddr = host:port` with no `:` in
`host` and `port`, `lPort` becomes `port`, `manager.Init` is called with it, and `Init`
returns the error of `tls.Listen`; for a `listenAddr` without `:` the index `[1]` is out
of range and `Init` panics, right after `LoadEnvs` and the assignments before the
split, instead of returning an error. -/
theorem Init_listen_port (ic : InitCollab σ) (supervisorPort cpuIncr memIncr resDuration : Nat)
    (g : InitGlobals) (s s1 : σ) (hload : ic.LoadEnvs s = (none, s1)) :
    (∀ host port : String, ':' ∉ host.data → ':' ∉ port.data →
      (Init ic (host ++ ":" ++ port) supervisorPort cpuIncr memIncr resDuration g s).1.1.lPort =
        port ∧
      Init ic (host ++ ":" ++ port) supervisorPort cpuIncr memIncr resDuration g s =
        (({ lAddr := host ++ ":" ++ port, lPort := port, CPUSharesIncrement := cpuIncr,
            MemoryLimitIncrement := memIncr, ResultDuration := resDuration },
          .ok (ic.tlsListen (host ++ ":" ++ port)
            (ic.managerInit port (ic.supervisorInit (toString supervisorPort) s1))).1),
         (ic.tlsListen (host ++ ":" ++ port)
            (ic.managerInit port (ic.supervisorInit (toString supervisorPort) s1))).2)) ∧
    (∀ listenAddr : String, ':' ∉ listenAddr.data →
      Init ic listenAddr supervisorPort cpuIncr memIncr resDuration g s =
        (({ g with lAddr := listenAddr, CPUSharesIncrement := cpuIncr,
                   MemoryLimitIncrement := memIncr, ResultDuration := resDuration },
          .error .indexOutOfRange), s1)) := by
  constructor
  · intro host port hh hp
    have hrun : Init ic (host ++ ":" ++ port) supervisorPort cpuIncr memIncr resDuration g s =
        (({ lAddr := host ++ ":" ++ port, lPort := port, CPUSharesIncrement := cpuIncr,
            MemoryLimitIncrement := memIncr, ResultDuration := resDuration },
          .ok (ic.tlsListen (host ++ ":" ++ port)
            (ic.managerInit port (ic.supervisorInit (toString supervisorPort) s1))).1),
         (ic.tlsListen (host ++ ":" ++ port)
            (ic.managerInit port (ic.supervisorInit (toString supervisorPort) s1))).2) := by
      unfold Init
      simp only [hload]
      have hs : Split (host ++ ":" ++ port).data ':' = [host.data, port.data] := by
        simp only [String.data_append, List.append_assoc]
        show Split (host.data ++ ':' :: port.data) ':' = _
        rw [Split_append _ _ _ hh, Split_of_not_mem _ _ hp]
      rw [hs]
      rfl
    exact ⟨by rw [hrun], hrun⟩
  · intro listenAddr h
    unfold Init
    simp only [hload]
    rw [Split_of_not_mem _ _ h]
    rfl

/-- Witness for C30: with collaborators that record their calls, `Init` on
`0.0.0.0:1338` hands port `1338` to `manager.Init`, and `Init` on `localhost` panics
after `LoadEnvs`. -/
theorem Init_listen_port_witness :
    (Init InitCollab.recording "0.0.0.0:1338" 1337 1 1 60 ⟨"", "", 1, 1, 0⟩ []).1.1.lPort =
      "1338" ∧
    Init InitCollab.recording "localhost" 1337 1 1 60 ⟨"", "", 1, 1, 0⟩ [] =
      ((⟨"localhost", "", 1, 1, 60⟩, .error .indexOutOfRange), ["LoadEnvs"]) :=
  ⟨((Init_listen_port InitCollab.recording 1337 1 1 60 ⟨"", "", 1, 1, 0⟩ [] ["LoadEnvs"]
      rfl).1 "0.0.0.0" "1338" (by decide) (by decide)).1,
   (Init_listen_port InitCollab.recording 1337 1 1 60 ⟨"", "", 1, 1, 0⟩ [] ["LoadEnvs"]
      rfl).2 "localhost" (by decide)⟩

end Rpc

end Atlantis
